import Mathlib

/-! Server statistics monitor.

A shallow embedding of `main.go`: the payload parser `parseStats`, the threshold evaluator
`checkThresholds`, `fetchStats` and the failure-counting loop of `main`, together with the
parts of the Go runtime and standard library they rest on (binary64 arithmetic,
`strings.TrimSpace`, `strings.Split`, `strconv.ParseInt`, `strconv.ParseFloat`, the `%d`
and `%.0f` verbs).

Binary64 values are carried by their exact rational value, and every arithmetic operation
is the exact operation followed by rounding to the nearest representable value, ties to
even. Integers of type `int64` are mathematical integers, wrapped explicitly where the
program computes with them. Standard output is the list of the lines written.
-/

namespace StatsMonitor

/-! ## Binary64 rounding -/

/-- Round a rational to the nearest integer, ties going to the even neighbour. -/
def roundHalfEven (q : ℚ) : ℤ :=
  if q - ⌊q⌋ < 1 / 2 then ⌊q⌋
  else if 1 / 2 < q - ⌊q⌋ then ⌊q⌋ + 1
  else if ⌊q⌋ % 2 = 0 then ⌊q⌋ else ⌊q⌋ + 1

/-- Exponent of the binade holding `x`, clamped below at the subnormal exponent of binary64. -/
def binade (x : ℚ) : ℤ := max (Int.log 2 |x|) (-1022)

/-- The binary64 value nearest to the rational `x` (ties to even), as an exact rational. -/
def roundF64 (x : ℚ) : ℚ :=
  (roundHalfEven (x * 2 ^ (52 - binade x)) : ℚ) * 2 ^ (binade x - 52)

/-! ## Go values: strings, `float64`, `int64` -/

/-- Go `string`, as the sequence of its characters; the strings of this development are
valid UTF-8, on which the byte-wise functions of Go act character by character. -/
abbrev GoString := List Char

/-- Go `float64`: the finite values by their exact rational value (the two zeros are
identified; nothing in this program observes the sign of zero), the infinities and NaN. -/
inductive Float64 where
  | finite (q : ℚ)
  | posInf
  | negInf
  | nan
deriving DecidableEq

/-- Nearest binary64 value to a rational, overflowing to an infinity. -/
def Float64.ofRat (x : ℚ) : Float64 :=
  if (2 : ℚ) ^ (1024 : ℕ) ≤ |roundF64 x| then (if 0 < x then Float64.posInf else Float64.negInf)
  else Float64.finite (roundF64 x)

/-- Go `a > b` on `float64` (false whenever an operand is NaN). -/
def Float64.gt : Float64 → Float64 → Bool
  | .finite a, .finite b => decide (b < a)
  | .posInf, .finite _ => true
  | .posInf, .negInf => true
  | .finite _, .negInf => true
  | _, _ => false

/-- Range of Go `int64`. -/
def isInt64 (i : ℤ) : Prop := -2 ^ 63 ≤ i ∧ i < 2 ^ 63

instance instDecidableIsInt64 (i : ℤ) : Decidable (isInt64 i) := by unfold isInt64; infer_instance

/-- Two's-complement wrap of an integer into the `int64` range. -/
def wrapInt64 (i : ℤ) : ℤ := (i + 2 ^ 63) % 2 ^ 64 - 2 ^ 63

/-- Go `float64(i)` for an `int64`: nearest binary64 value (never overflows). -/
def f64ofInt (i : ℤ) : ℚ := roundF64 i

/-- Go `a / b` on finite `float64` operands with `b` nonzero and the quotient in range; in
`checkThresholds` the operands are conversions of `int64` values and the divisor is
positive, so no operation there overflows or meets a zero divisor. -/
def f64div (a b : ℚ) : ℚ := roundF64 (a / b)

/-- Go `a * b` on finite `float64` operands with the product in range. -/
def f64mul (a b : ℚ) : ℚ := roundF64 (a * b)

/-- Truncation toward zero. -/
def truncQ (x : ℚ) : ℤ := if 0 ≤ x then ⌊x⌋ else ⌈x⌉

/-- Go `int(x)` for a finite `float64`: truncation toward zero; when the truncated value does
not fit `int64` the Go specification leaves the result to the implementation, here `ovf x`. -/
def f64toInt (ovf : ℚ → ℤ) (x : ℚ) : ℤ :=
  if -2 ^ 63 ≤ truncQ x ∧ truncQ x < 2 ^ 63 then truncQ x else ovf x

/-- Go `%d` of an integer. -/
def fmtInt (i : ℤ) : GoString :=
  if i < 0 then '-' :: Nat.toDigits 10 i.natAbs else Nat.toDigits 10 i.natAbs

/-- Go `%.0f` of a `float64`: the exact value rounded to an integer, ties to even; a
negative value that rounds to zero is written `-0`. -/
def Float64.fmt0 : Float64 → GoString
  | .finite q =>
      if q < 0 then '-' :: Nat.toDigits 10 (roundHalfEven q).natAbs
      else Nat.toDigits 10 (roundHalfEven q).natAbs
  | .posInf => "+Inf".toList
  | .negInf => "-Inf".toList
  | .nan => "NaN".toList

namespace strings

/-- Go `unicode.IsSpace`: the white-space code points. -/
def isSpace (c : Char) : Bool :=
  decide (c.toNat = 0x09) || decide (c.toNat = 0x0A) || decide (c.toNat = 0x0B)
    || decide (c.toNat = 0x0C) || decide (c.toNat = 0x0D) || decide (c.toNat = 0x20)
    || decide (c.toNat = 0x85) || decide (c.toNat = 0xA0) || decide (c.toNat = 0x1680)
    || (decide (0x2000 ≤ c.toNat) && decide (c.toNat ≤ 0x200A))
    || decide (c.toNat = 0x2028) || decide (c.toNat = 0x2029) || decide (c.toNat = 0x202F)
    || decide (c.toNat = 0x205F) || decide (c.toNat = 0x3000)

/-- Go `strings.TrimSpace`. -/
def TrimSpace (s : GoString) : GoString := (s.dropWhile isSpace).rdropWhile isSpace

/-- Go `strings.Split(s, sep)` for a one-character separator. -/
def Split (s : GoString) (sep : Char) : List GoString := s.splitOn sep

end strings

namespace strconv

/-- The two sentinel errors of `strconv`. -/
inductive ErrKind where
  | ErrSyntax
  | ErrRange
deriving DecidableEq

/-- Go `*strconv.NumError`. -/
structure NumError where
  Func : GoString
  Num : GoString
  Err : ErrKind
deriving DecidableEq

def fnParseInt : GoString := "ParseInt".toList
def fnParseFloat : GoString := "ParseFloat".toList

def isDigit (c : Char) : Bool := decide ('0'.toNat ≤ c.toNat) && decide (c.toNat ≤ '9'.toNat)

def digitVal (c : Char) : ℕ := c.toNat - 48

/-- Go `lower(c)` of `strconv`: sets the 0x20 bit of an ASCII byte. -/
def lower (c : Char) : Char := if c.toNat < 128 then Char.ofNat (c.toNat ||| 0x20) else c

def isHexLetter (c : Char) : Bool :=
  decide ('a'.toNat ≤ (lower c).toNat) && decide ((lower c).toNat ≤ 'f'.toNat)

def hexVal (c : Char) : ℕ := (lower c).toNat - 87

/-- Digit loop of `ParseUint(s, 10, 64)`: `n` is the value read so far. -/
def parseUintLoop : List Char → ℕ → Except ErrKind ℕ
  | [], n => .ok n
  | c :: cs, n =>
    if isDigit c then
      if n ≥ (2 ^ 64 - 1) / 10 + 1 then .error .ErrRange
      else if (n * 10 + digitVal c) % 2 ^ 64 < n * 10 ∨ (n * 10 + digitVal c) % 2 ^ 64 > 2 ^ 64 - 1
      then .error .ErrRange
      else parseUintLoop cs ((n * 10 + digitVal c) % 2 ^ 64)
    else .error .ErrSyntax

/-- Go `strconv.ParseUint(s, 10, 64)`, keeping only the kind of the error. -/
def ParseUint (s : GoString) : Except ErrKind ℕ :=
  if s = [] then .error .ErrSyntax else parseUintLoop s 0

/-- Go `strconv.ParseInt(s, 10, 64)`. -/
def ParseInt (s : GoString) : Except NumError ℤ :=
  match s with
  | [] => .error ⟨fnParseInt, s, .ErrSyntax⟩
  | c0 :: s0 =>
    let neg : Bool := c0 = '-'
    let t : GoString := if c0 = '+' ∨ c0 = '-' then s0 else s
    match ParseUint t with
    | .error k => .error ⟨fnParseInt, s, k⟩
    | .ok un =>
      if !neg ∧ un ≥ 2 ^ 63 then .error ⟨fnParseInt, s, .ErrRange⟩
      else if neg ∧ un > 2 ^ 63 then .error ⟨fnParseInt, s, .ErrRange⟩
      else .ok (if neg then wrapInt64 (-wrapInt64 un) else wrapInt64 un)

/-- ASCII lower-casing of `A`..`Z`, as in `commonPrefixLenIgnoreCase`. -/
def foldAZ (c : Char) : Char :=
  if 'A'.toNat ≤ c.toNat ∧ c.toNat ≤ 'Z'.toNat then Char.ofNat (c.toNat + 32) else c

def isInfWord (s : GoString) : Bool :=
  s.map foldAZ = "inf".toList || s.map foldAZ = "infinity".toList

/-- Go `special`, for a string that is wholly an infinity or NaN word. -/
def special (s : GoString) : Option Float64 :=
  match s with
  | '+' :: t => if isInfWord t then some .posInf else none
  | '-' :: t => if isInfWord t then some .negInf else none
  | _ =>
    if isInfWord s then some .posInf
    else if s.map foldAZ = "nan".toList then some .nan
    else none

/-- State of the mantissa loop of `readFloat`. -/
structure Mantissa where
  mant : ℕ := 0
  frac : ℕ := 0
  sawdot : Bool := false
  sawdigits : Bool := false
  underscores : Bool := false

/-- Mantissa loop of `readFloat`: returns the state and the unread input. -/
def readMantissa (hex : Bool) : List Char → Mantissa → Mantissa × List Char
  | [], m => (m, [])
  | c :: cs, m =>
    if c = '_' then readMantissa hex cs { m with underscores := true }
    else if c = '.' then
      if m.sawdot then (m, c :: cs) else readMantissa hex cs { m with sawdot := true }
    else if isDigit c then
      readMantissa hex cs { m with
        sawdigits := true
        mant := m.mant * (if hex then 16 else 10) + digitVal c
        frac := if m.sawdot then m.frac + 1 else m.frac }
    else if hex && isHexLetter c then
      readMantissa hex cs { m with
        sawdigits := true
        mant := m.mant * 16 + hexVal c
        frac := if m.sawdot then m.frac + 1 else m.frac }
    else (m, c :: cs)

/-- Exponent digit loop of `readFloat`: value (saturating past 10000), underscore flag,
unread input. -/
def readExpDigits : List Char → ℕ → Bool → ℕ × Bool × List Char
  | [], e, u => (e, u, [])
  | c :: cs, e, u =>
    if isDigit c then readExpDigits cs (if e < 10000 then e * 10 + digitVal c else e) u
    else if c = '_' then readExpDigits cs e true
    else (e, u, c :: cs)

def underscoreOKLoop (hex : Bool) : List Char → Char → Bool
  | [], saw => saw != '_'
  | c :: cs, saw =>
    if isDigit c || (hex && isHexLetter c) then underscoreOKLoop hex cs '0'
    else if c = '_' then (if saw != '0' then false else underscoreOKLoop hex cs '_')
    else if saw = '_' then false
    else underscoreOKLoop hex cs '!'

/-- Go `underscoreOK`. -/
def underscoreOK (s : GoString) : Bool :=
  let t : GoString := match s with
    | '-' :: t => t
    | '+' :: t => t
    | _ => s
  match t with
  | '0' :: c :: r =>
    if lower c = 'b' || lower c = 'o' || lower c = 'x' then
      underscoreOKLoop (lower c = 'x') r '0'
    else underscoreOKLoop false t '^'
  | _ => underscoreOKLoop false t '^'

/-- Exact value denoted by a mantissa and exponent. -/
def floatValue (neg hex : Bool) (m : Mantissa) (exp : ℤ) : ℚ :=
  (if neg then -1 else 1) * (m.mant : ℚ) *
    (if hex then (2 : ℚ) ^ (exp - 4 * (m.frac : ℤ)) else (10 : ℚ) ^ (exp - (m.frac : ℤ)))

/-- Exponent digits of `readFloat`, on the input `s6` that follows the exponent sign; the
literal `s` must end with them. -/
def readExpValue (s : GoString) (neg hex : Bool) (m : Mantissa) (eneg : Bool)
    (s6 : List Char) : Option ℚ :=
  match s6 with
  | [] => none
  | d0 :: _ =>
    if !isDigit d0 then none
    else
      match readExpDigits s6 0 m.underscores with
      | (e, u, []) =>
        if u && !underscoreOK s then none
        else some (floatValue neg hex m (if eneg then -(e : ℤ) else e))
      | (_, _, _ :: _) => none

/-- Exponent part of `readFloat`, on the input `s3` left by the mantissa loop: an optional
exponent for a decimal literal, a mandatory one for a hexadecimal literal. -/
def readExponent (s : GoString) (neg hex : Bool) (m : Mantissa) (s3 : List Char) : Option ℚ :=
  match s3 with
  | [] =>
    if hex then none
    else if m.underscores && !underscoreOK s then none
    else some (floatValue neg hex m 0)
  | c :: s4 =>
    if lower c = (if hex then 'p' else 'e') then
      match s4 with
      | [] => none
      | d :: s5 => readExpValue s neg hex m (d = '-') (if d = '+' || d = '-' then s5 else s4)
    else none

/-- Mantissa and exponent of `readFloat`, on the input `s2` that follows the sign and the
base prefix. -/
def readFloatBody (s : GoString) (neg hex : Bool) (s2 : List Char) : Option ℚ :=
  if !(readMantissa hex s2 {}).1.sawdigits then none
  else readExponent s neg hex (readMantissa hex s2 {}).1 (readMantissa hex s2 {}).2

/-- Whether the input after the sign starts a hexadecimal literal: `0x` or `0X` followed
by at least one more character. -/
def hasHexPrefix (s1 : List Char) : Bool :=
  match s1 with
  | '0' :: x :: _ :: _ => lower x = 'x'
  | _ => false

/-- Go `readFloat` followed by the check that the whole string was consumed: the exact
rational value written in `s`, or `none` on a syntax error. -/
def readFloat (s : GoString) : Option ℚ :=
  match s with
  | [] => none
  | c0 :: s0 =>
    let s1 : GoString := if c0 = '+' || c0 = '-' then s0 else s
    readFloatBody s (c0 = '-') (hasHexPrefix s1) (if hasHexPrefix s1 then s1.drop 2 else s1)

/-- Go `strconv.ParseFloat(s, 64)`, from its documented contract: a well-formed decimal or
hexadecimal literal yields the nearest `float64` (ties to even), the words for infinity
and NaN yield those values, a value that rounds past the largest finite number is a range
error and anything else is a syntax error. -/
def ParseFloat (s : GoString) : Except NumError Float64 :=
  match special s with
  | some v => .ok v
  | none =>
    match readFloat s with
    | none => .error ⟨fnParseFloat, s, .ErrSyntax⟩
    | some x =>
      match Float64.ofRat x with
      | .finite q => .ok (.finite q)
      | _ => .error ⟨fnParseFloat, s, .ErrRange⟩

end strconv

deriving instance DecidableEq for Except

/-! ## The program -/

/-- Go `error` values this program can hold. -/
inductive Error where
  | errorf (msg : GoString)
  | numError (e : strconv.NumError)
  | external (msg : GoString)
deriving DecidableEq

def loadAvgThreshold : ℚ := 30
def memoryThreshold : ℚ := roundF64 0.80
def diskThreshold : ℚ := roundF64 0.90
def networkThreshold : ℚ := roundF64 0.90
def maxErrors : ℤ := 3

structure ServerStats where
  LoadAvg : Float64
  TotalRAM : ℤ
  UsedRAM : ℤ
  TotalDisk : ℤ
  UsedDisk : ℤ
  TotalNetwork : ℤ
  CurrentNetwork : ℤ
deriving DecidableEq

/-- Every integer field of the snapshot is an `int64`. -/
def ServerStats.WF (s : ServerStats) : Prop :=
  isInt64 s.TotalRAM ∧ isInt64 s.UsedRAM ∧ isInt64 s.TotalDisk ∧ isInt64 s.UsedDisk ∧
    isInt64 s.TotalNetwork ∧ isInt64 s.CurrentNetwork

/-- A `strconv` error returned as an `error`. -/
def liftNum {α : Type} (r : Except strconv.NumError α) : Except Error α :=
  match r with
  | .ok a => .ok a
  | .error e => .error (.numError e)

/-- Go `parseStats`: the snapshot, or the error returned with a `nil` snapshot. -/
def parseStats (data : GoString) : Except Error ServerStats :=
  match strings.Split (strings.TrimSpace data) ',' with
  | [p0, p1, p2, p3, p4, p5, p6] => do
    let loadAvg ← liftNum (strconv.ParseFloat p0)
    let totalRAM ← liftNum (strconv.ParseInt p1)
    let usedRAM ← liftNum (strconv.ParseInt p2)
    let totalDisk ← liftNum (strconv.ParseInt p3)
    let usedDisk ← liftNum (strconv.ParseInt p4)
    let totalNetwork ← liftNum (strconv.ParseInt p5)
    let currentNetwork ← liftNum (strconv.ParseInt p6)
    pure ⟨loadAvg, totalRAM, usedRAM, totalDisk, usedDisk, totalNetwork, currentNetwork⟩
  | parts =>
    .error (.errorf ("invalid data format: expected 7 values, got ".toList ++ fmtInt parts.length))

/-- Go `checkThresholds`: the lines it writes to standard output, in order. The parameter
`ovf` is the result the platform gives to `int(x)` when `x` is out of range. -/
def checkThresholds (ovf : ℚ → ℤ) (stats : ServerStats) : List GoString :=
  (if stats.LoadAvg.gt (.finite loadAvgThreshold) then
    ["Load Average is too high: ".toList ++ stats.LoadAvg.fmt0]
   else [])
  ++
  (if stats.TotalRAM > 0 then
    let memoryUsage := f64div (f64ofInt stats.UsedRAM) (f64ofInt stats.TotalRAM)
    if memoryUsage > memoryThreshold then
      ["Memory usage too high: ".toList ++ fmtInt (f64toInt ovf (f64mul memoryUsage 100))
        ++ "%".toList]
    else []
   else [])
  ++
  (if stats.TotalDisk > 0 then
    let diskUsage := f64div (f64ofInt stats.UsedDisk) (f64ofInt stats.TotalDisk)
    if diskUsage > diskThreshold then
      let freeBytes := wrapInt64 (stats.TotalDisk - stats.UsedDisk)
      let freeMB := f64div (f64ofInt freeBytes) (1024 * 1024)
      ["Free disk space is too low: ".toList ++ fmtInt (f64toInt ovf freeMB) ++ " Mb left".toList]
    else []
   else [])
  ++
  (if stats.TotalNetwork > 0 then
    let networkUsage := f64div (f64ofInt stats.CurrentNetwork) (f64ofInt stats.TotalNetwork)
    if networkUsage > networkThreshold then
      let availableBytes := wrapInt64 (stats.TotalNetwork - stats.CurrentNetwork)
      let availableMbits := f64div (f64ofInt availableBytes) 1000000
      ["Network bandwidth usage high: ".toList ++ fmtInt (f64toInt ovf availableMbits)
        ++ " Mbit/s available".toList]
    else []
   else [])

/-- What one `client.Get` and `io.ReadAll` produced. -/
inductive HttpReply where
  | getFailed (err : Error)
  | response (statusCode : ℤ) (body : Except Error GoString)

/-- Go `fetchStats`, as a function of what the HTTP exchange produced. -/
def fetchStats (r : HttpReply) : Except Error ServerStats :=
  match r with
  | .getFailed err => .error err
  | .response statusCode body =>
    if statusCode ≠ 200 then
      .error (.errorf ("unexpected status code: ".toList ++ fmtInt statusCode))
    else
      match body with
      | .error err => .error err
      | .ok b => parseStats b

/-- One iteration of the loop of `main`: the new value of `consecutiveErrors` and the
lines written. -/
def mainCycle (ovf : ℚ → ℤ) (consecutiveErrors : ℤ) (r : HttpReply) : ℤ × List GoString :=
  match fetchStats r with
  | .error _ =>
    if wrapInt64 (consecutiveErrors + 1) = maxErrors then
      (0, ["Unable to fetch server statistic".toList])
    else (wrapInt64 (consecutiveErrors + 1), [])
  | .ok stats => (0, checkThresholds ovf stats)

/-- The loop of `main` run over the given replies from counter `c`: the final counter
and the lines written in each iteration. -/
def mainLoop (ovf : ℚ → ℤ) : ℤ → List HttpReply → ℤ × List (List GoString)
  | c, [] => (c, [])
  | c, r :: rs =>
    ((mainLoop ovf (mainCycle ovf c r).1 rs).1,
      (mainCycle ovf c r).2 :: (mainLoop ovf (mainCycle ovf c r).1 rs).2)

/-- Go `main`, which never returns, observed over the first replies of an execution: the
value of `consecutiveErrors` after them and the lines written in each iteration. -/
def main (ovf : ℚ → ℤ) (rs : List HttpReply) : ℤ × List (List GoString) := mainLoop ovf 0 rs

/-! ## Vocabulary of the statements -/

/-- The line printed for a load average. -/
def loadAvgLine (x : Float64) : GoString := "Load Average is too high: ".toList ++ x.fmt0

/-- The line printed for a memory usage percentage. -/
def memoryLine (p : ℤ) : GoString :=
  "Memory usage too high: ".toList ++ fmtInt p ++ "%".toList

/-- The line printed for a number of free megabytes. -/
def diskLine (m : ℤ) : GoString :=
  "Free disk space is too low: ".toList ++ fmtInt m ++ " Mb left".toList

/-- The line printed for an available bandwidth. -/
def networkLine (b : ℤ) : GoString :=
  "Network bandwidth usage high: ".toList ++ fmtInt b ++ " Mbit/s available".toList

/-- The line printed after three failed cycles in a row. -/
def unableLine : GoString := "Unable to fetch server statistic".toList

def isLoadAvgLine (l : GoString) : Bool := "Load Average is too high".toList.isPrefixOf l
def isMemoryLine (l : GoString) : Bool := "Memory usage too high".toList.isPrefixOf l
def isDiskLine (l : GoString) : Bool := "Free disk space is too low".toList.isPrefixOf l
def isNetworkLine (l : GoString) : Bool := "Network bandwidth usage high".toList.isPrefixOf l

/-- Lines of the load-average check of `checkThresholds`. -/
def loadAvgCheck (stats : ServerStats) : List GoString :=
  if stats.LoadAvg.gt (.finite loadAvgThreshold) then [loadAvgLine stats.LoadAvg] else []

/-- Lines of the memory check of `checkThresholds`. -/
def memoryCheck (ovf : ℚ → ℤ) (stats : ServerStats) : List GoString :=
  if stats.TotalRAM > 0 ∧
      f64div (f64ofInt stats.UsedRAM) (f64ofInt stats.TotalRAM) > memoryThreshold then
    [memoryLine (f64toInt ovf
      (f64mul (f64div (f64ofInt stats.UsedRAM) (f64ofInt stats.TotalRAM)) 100))]
  else []

/-- Lines of the disk check of `checkThresholds`. -/
def diskCheck (ovf : ℚ → ℤ) (stats : ServerStats) : List GoString :=
  if stats.TotalDisk > 0 ∧
      f64div (f64ofInt stats.UsedDisk) (f64ofInt stats.TotalDisk) > diskThreshold then
    [diskLine (f64toInt ovf
      (f64div (f64ofInt (wrapInt64 (stats.TotalDisk - stats.UsedDisk))) (1024 * 1024)))]
  else []

/-- Lines of the network check of `checkThresholds`. -/
def networkCheck (ovf : ℚ → ℤ) (stats : ServerStats) : List GoString :=
  if stats.TotalNetwork > 0 ∧
      f64div (f64ofInt stats.CurrentNetwork) (f64ofInt stats.TotalNetwork) > networkThreshold then
    [networkLine (f64toInt ovf
      (f64div (f64ofInt (wrapInt64 (stats.TotalNetwork - stats.CurrentNetwork))) 1000000))]
  else []

/-- Whether a cycle that received reply `r` is a failed cycle. -/
def failed (r : HttpReply) : Bool :=
  match fetchStats r with
  | .error _ => true
  | .ok _ => false

/-- From the spec, in exact arithmetic: "if totalMemory > 0 and usedMemory/totalMemory
> 0.80: alert with usage percentage floor(ratio*100)". -/
def memoryCheckSpec (stats : ServerStats) : List GoString :=
  if 0 < stats.TotalRAM ∧ (stats.UsedRAM : ℚ) / stats.TotalRAM > 0.80 then
    [memoryLine ⌊(stats.UsedRAM : ℚ) / stats.TotalRAM * 100⌋]
  else []

/-- From the spec, in exact arithmetic: "if totalDisk > 0 and usedDisk/totalDisk > 0.90:
alert with (totalDisk - usedDisk) / (1024*1024), truncated to integer". -/
def diskCheckSpec (stats : ServerStats) : List GoString :=
  if 0 < stats.TotalDisk ∧ (stats.UsedDisk : ℚ) / stats.TotalDisk > 0.90 then
    [diskLine (truncQ (((stats.TotalDisk - stats.UsedDisk : ℤ) : ℚ) / (1024 * 1024)))]
  else []

/-- From the spec, in exact arithmetic: "if totalNetwork > 0 and currentNetwork/totalNetwork
> 0.90: alert with (totalNetwork - currentNetwork) / 1_000_000, truncated to integer". -/
def networkCheckSpec (stats : ServerStats) : List GoString :=
  if 0 < stats.TotalNetwork ∧ (stats.CurrentNetwork : ℚ) / stats.TotalNetwork > 0.90 then
    [networkLine (truncQ (((stats.TotalNetwork - stats.CurrentNetwork : ℤ) : ℚ) / 1000000))]
  else []

/-- Neither a comma nor white space. -/
def fieldChar (c : Char) : Bool := (c != ',') && !strings.isSpace c

/-- The error of the conversion that `parseStats` applies to the field of index `i` with
raw value `p` (`ParseFloat` for field 0, `ParseInt` for the other fields), if it fails. -/
def fieldError (i : ℕ) (p : GoString) : Option strconv.NumError :=
  if i = 0 then
    match strconv.ParseFloat p with
    | .error e => some e
    | .ok _ => none
  else
    match strconv.ParseInt p with
    | .error e => some e
    | .ok _ => none

/-- Variant of `mainCycle` in which the counter is tested with `>= maxErrors` instead of
`== maxErrors`. -/
def mainCycleGe (ovf : ℚ → ℤ) (consecutiveErrors : ℤ) (r : HttpReply) : ℤ × List GoString :=
  match fetchStats r with
  | .error _ =>
    if wrapInt64 (consecutiveErrors + 1) ≥ maxErrors then
      (0, ["Unable to fetch server statistic".toList])
    else (wrapInt64 (consecutiveErrors + 1), [])
  | .ok stats => (0, checkThresholds ovf stats)

/-- Variant of `mainLoop` built on `mainCycleGe`. -/
def mainLoopGe (ovf : ℚ → ℤ) : ℤ → List HttpReply → ℤ × List (List GoString)
  | c, [] => (c, [])
  | c, r :: rs =>
    ((mainLoopGe ovf (mainCycleGe ovf c r).1 rs).1,
      (mainCycleGe ovf c r).2 :: (mainLoopGe ovf (mainCycleGe ovf c r).1 rs).2)

/-! ## Properties of binary64 rounding -/

theorem roundHalfEven_spec (q : ℚ) :
    |q - roundHalfEven q| < 1 / 2 ∨ (|q - roundHalfEven q| = 1 / 2 ∧ roundHalfEven q % 2 = 0) := by
  have h0 := Int.floor_le q
  have h1 := Int.lt_floor_add_one q
  unfold roundHalfEven
  split_ifs with ha hb hc
  · left
    rw [abs_lt]; constructor <;> linarith
  · left
    rw [abs_lt]; push_cast; constructor <;> linarith
  · right
    have he : q - ⌊q⌋ = 1 / 2 := le_antisymm (not_lt.mp hb) (not_lt.mp ha)
    refine ⟨?_, hc⟩
    rw [he]; norm_num
  · right
    have he : q - ⌊q⌋ = 1 / 2 := le_antisymm (not_lt.mp hb) (not_lt.mp ha)
    refine ⟨?_, by omega⟩
    push_cast
    have : q - (⌊q⌋ + 1) = -(1 / 2) := by linarith
    rw [this]; norm_num

theorem roundHalfEven_unique (q : ℚ) (n : ℤ)
    (h : |q - n| < 1 / 2 ∨ (|q - n| = 1 / 2 ∧ n % 2 = 0)) : roundHalfEven q = n := by
  have hs := roundHalfEven_spec q
  set m := roundHalfEven q with hm
  have key : |((m - n : ℤ) : ℚ)| ≤ |q - m| + |q - n| := by
    have : ((m - n : ℤ) : ℚ) = (q - n) - (q - m) := by push_cast; ring
    rw [this]
    calc |(q - n) - (q - m)| ≤ |q - n| + |q - m| := abs_sub _ _
      _ = |q - m| + |q - n| := add_comm _ _
  by_contra hne
  have h1 : (1 : ℚ) ≤ |((m - n : ℤ) : ℚ)| := by
    have : (1 : ℤ) ≤ |m - n| := Int.one_le_abs (sub_ne_zero.mpr hne)
    have h2 : ((1 : ℤ) : ℚ) ≤ ((|m - n| : ℤ) : ℚ) := Int.cast_le.mpr this
    simpa using h2
  rcases hs with hs | ⟨hs, hse⟩ <;> rcases h with h | ⟨h, he⟩
  · linarith
  · linarith
  · linarith
  · have h3 : |((m - n : ℤ) : ℚ)| ≤ 1 := by linarith
    have h4 : ((|m - n| : ℤ) : ℚ) ≤ ((1 : ℤ) : ℚ) := by simpa using h3
    have h5 : |m - n| ≤ 1 := Int.cast_le.mp h4
    have h6 : (1 : ℤ) ≤ |m - n| := Int.one_le_abs (sub_ne_zero.mpr hne)
    rcases abs_cases (m - n) with ⟨e, _⟩ | ⟨e, _⟩ <;> omega

theorem roundHalfEven_intCast (n : ℤ) : roundHalfEven (n : ℚ) = n :=
  roundHalfEven_unique _ _ (Or.inl (by simp))

theorem roundHalfEven_neg (q : ℚ) : roundHalfEven (-q) = -roundHalfEven q := by
  apply roundHalfEven_unique
  have e : -q - ((-roundHalfEven q : ℤ) : ℚ) = -(q - roundHalfEven q) := by push_cast; ring
  rw [e, abs_neg]
  rcases roundHalfEven_spec q with h | ⟨h, he⟩
  · exact Or.inl h
  · exact Or.inr ⟨h, by omega⟩

theorem roundHalfEven_mono {p q : ℚ} (h : p ≤ q) : roundHalfEven p ≤ roundHalfEven q := by
  by_contra hlt
  push_neg at hlt
  have h1 : (roundHalfEven q : ℚ) + 1 ≤ roundHalfEven p := by exact_mod_cast hlt
  have hp : |p - roundHalfEven p| ≤ 1 / 2 := by
    rcases roundHalfEven_spec p with h | ⟨h, _⟩ <;> linarith
  have hq : |q - roundHalfEven q| ≤ 1 / 2 := by
    rcases roundHalfEven_spec q with h | ⟨h, _⟩ <;> linarith
  rw [abs_le] at hp hq
  have hpq : p = q := by linarith
  subst hpq
  omega

theorem roundHalfEven_error (q : ℚ) : |q - roundHalfEven q| ≤ 1 / 2 := by
  rcases roundHalfEven_spec q with h | ⟨h, _⟩ <;> linarith


theorem two_zpow_pos (e : ℤ) : (0 : ℚ) < 2 ^ e := zpow_pos (by norm_num) e

theorem binade_ge (x : ℚ) : -1022 ≤ binade x := le_max_right _ _

theorem binade_neg (x : ℚ) : binade (-x) = binade x := by
  unfold binade; rw [abs_neg]

theorem abs_lt_two_zpow_binade (x : ℚ) : |x| < 2 ^ (binade x + 1) := by
  have h := Int.lt_zpow_succ_log_self (R := ℚ) (b := 2) one_lt_two |x|
  have h2 : ((2 : ℕ) : ℚ) ^ (Int.log 2 |x| + 1) ≤ (2 : ℚ) ^ (binade x + 1) := by
    rw [Nat.cast_ofNat]
    apply zpow_le_zpow_right₀ (by norm_num)
    have := le_max_left (Int.log 2 |x|) (-1022)
    unfold binade; omega
  exact lt_of_lt_of_le h h2

theorem two_zpow_binade_le (x : ℚ) (hx : x ≠ 0) (hb : -1022 < binade x) :
    (2 : ℚ) ^ binade x ≤ |x| := by
  have hlog : binade x = Int.log 2 |x| := by
    unfold binade at hb ⊢
    rcases max_cases (Int.log 2 |x|) (-1022) with ⟨h, _⟩ | ⟨h, _⟩
    · exact h
    · rw [h] at hb; omega
  rw [hlog]
  have h := Int.zpow_log_le_self (R := ℚ) (b := 2) one_lt_two (abs_pos.mpr hx)
  rwa [Nat.cast_ofNat] at h

theorem binade_eq_of_bounds (x : ℚ) (e : ℤ) (hmin : -1022 ≤ e)
    (h1 : (2 : ℚ) ^ e ≤ |x|) (h2 : |x| < 2 ^ (e + 1)) : binade x = e := by
  have hpos : (0 : ℚ) < |x| := lt_of_lt_of_le (two_zpow_pos e) h1
  have hlog : Int.log 2 |x| = e := by
    apply le_antisymm
    · have := (Int.lt_zpow_iff_log_lt (R := ℚ) (b := 2) one_lt_two (x := e + 1) hpos).mp
        (by rw [Nat.cast_ofNat]; exact h2)
      omega
    · exact (Int.zpow_le_iff_le_log (R := ℚ) (b := 2) one_lt_two hpos).mp
        (by rw [Nat.cast_ofNat]; exact h1)
  unfold binade; rw [hlog]; exact max_eq_left hmin

theorem binade_mono {x y : ℚ} (hx : 0 < x) (hxy : x ≤ y) : binade x ≤ binade y := by
  unfold binade
  rw [abs_of_pos hx, abs_of_pos (lt_of_lt_of_le hx hxy)]
  exact max_le_max (Int.log_mono_right hx hxy) le_rfl

theorem roundF64_zero : roundF64 0 = 0 := by
  unfold roundF64
  rw [zero_mul]
  have : roundHalfEven 0 = 0 := by simpa using roundHalfEven_intCast 0
  rw [this]; simp

theorem roundF64_neg (x : ℚ) : roundF64 (-x) = -roundF64 x := by
  unfold roundF64
  rw [binade_neg, neg_mul, roundHalfEven_neg]
  push_cast; ring

theorem scale_unscale (x : ℚ) (e : ℤ) : x * 2 ^ (52 - e) * 2 ^ (e - 52) = x := by
  rw [mul_assoc, ← zpow_add₀ (by norm_num : (2 : ℚ) ≠ 0)]
  have : 52 - e + (e - 52) = 0 := by ring
  rw [this, zpow_zero, mul_one]

theorem roundF64_eq_self_of_scaled_int (x : ℚ) (m : ℤ)
    (h : x * 2 ^ (52 - binade x) = m) : roundF64 x = x := by
  unfold roundF64
  rw [h, roundHalfEven_intCast, ← h, scale_unscale]

theorem roundF64_error (x : ℚ) : |roundF64 x - x| ≤ 2 ^ (binade x - 53) := by
  have h := roundHalfEven_error (x * 2 ^ (52 - binade x))
  have hp := two_zpow_pos (binade x - 52)
  have e1 : roundF64 x - x
      = -((x * 2 ^ (52 - binade x) - roundHalfEven (x * 2 ^ (52 - binade x)))
          * 2 ^ (binade x - 52)) := by
    unfold roundF64
    rw [sub_mul, scale_unscale]; ring
  rw [e1, abs_neg, abs_mul, abs_of_pos hp]
  have e2 : (2 : ℚ) ^ (binade x - 53) = 1 / 2 * 2 ^ (binade x - 52) := by
    have : binade x - 52 = (binade x - 53) + 1 := by ring
    rw [this, zpow_add₀ (by norm_num : (2 : ℚ) ≠ 0), zpow_one]; ring
  rw [e2]
  exact mul_le_mul_of_nonneg_right h hp.le

theorem roundF64_nonneg {x : ℚ} (hx : 0 ≤ x) : 0 ≤ roundF64 x := by
  unfold roundF64
  apply mul_nonneg _ (two_zpow_pos _).le
  have h0 : (0 : ℚ) ≤ x * 2 ^ (52 - binade x) := mul_nonneg hx (two_zpow_pos _).le
  have := roundHalfEven_mono h0
  have hz : roundHalfEven 0 = 0 := by simpa using roundHalfEven_intCast 0
  rw [hz] at this
  exact_mod_cast this

theorem roundF64_le_two_zpow {x : ℚ} (hx : 0 ≤ x) : roundF64 x ≤ 2 ^ (binade x + 1) := by
  have hlt := abs_lt_two_zpow_binade x
  rw [abs_of_nonneg hx] at hlt
  have hs : x * 2 ^ (52 - binade x) ≤ ((2 ^ 53 : ℤ) : ℚ) := by
    have h1 : x * 2 ^ (52 - binade x) ≤ 2 ^ (binade x + 1) * 2 ^ (52 - binade x) :=
      mul_le_mul_of_nonneg_right hlt.le (two_zpow_pos _).le
    rw [← zpow_add₀ (by norm_num : (2 : ℚ) ≠ 0)] at h1
    have e : binade x + 1 + (52 - binade x) = 53 := by ring
    rw [e] at h1
    have : ((2 ^ 53 : ℤ) : ℚ) = (2 : ℚ) ^ (53 : ℤ) := by norm_num
    rw [this]; exact h1
  have hr := roundHalfEven_mono hs
  rw [roundHalfEven_intCast] at hr
  have hr' : (roundHalfEven (x * 2 ^ (52 - binade x)) : ℚ) ≤ (2 : ℚ) ^ (53 : ℤ) := by
    have : ((roundHalfEven (x * 2 ^ (52 - binade x)) : ℤ) : ℚ) ≤ ((2 ^ 53 : ℤ) : ℚ) :=
      Int.cast_le.mpr hr
    have e : ((2 ^ 53 : ℤ) : ℚ) = (2 : ℚ) ^ (53 : ℤ) := by norm_num
    rw [e] at this; exact this
  unfold roundF64
  calc (roundHalfEven (x * 2 ^ (52 - binade x)) : ℚ) * 2 ^ (binade x - 52)
      ≤ (2 : ℚ) ^ (53 : ℤ) * 2 ^ (binade x - 52) :=
        mul_le_mul_of_nonneg_right hr' (two_zpow_pos _).le
    _ = 2 ^ (binade x + 1) := by
        rw [← zpow_add₀ (by norm_num : (2 : ℚ) ≠ 0)]; congr 1; ring

theorem two_zpow_le_roundF64 {x : ℚ} (_hx : 0 < x) (hb : (2 : ℚ) ^ binade x ≤ x) :
    (2 : ℚ) ^ binade x ≤ roundF64 x := by
  have hs : ((2 ^ 52 : ℤ) : ℚ) ≤ x * 2 ^ (52 - binade x) := by
    have h1 : (2 : ℚ) ^ binade x * 2 ^ (52 - binade x) ≤ x * 2 ^ (52 - binade x) :=
      mul_le_mul_of_nonneg_right hb (two_zpow_pos _).le
    rw [← zpow_add₀ (by norm_num : (2 : ℚ) ≠ 0)] at h1
    have e : binade x + (52 - binade x) = 52 := by ring
    rw [e] at h1
    have : ((2 ^ 52 : ℤ) : ℚ) = (2 : ℚ) ^ (52 : ℤ) := by norm_num
    rw [this]; exact h1
  have hr := roundHalfEven_mono hs
  rw [roundHalfEven_intCast] at hr
  have hr' : (2 : ℚ) ^ (52 : ℤ) ≤ (roundHalfEven (x * 2 ^ (52 - binade x)) : ℚ) := by
    have : ((2 ^ 52 : ℤ) : ℚ) ≤ ((roundHalfEven (x * 2 ^ (52 - binade x)) : ℤ) : ℚ) :=
      Int.cast_le.mpr hr
    have e : ((2 ^ 52 : ℤ) : ℚ) = (2 : ℚ) ^ (52 : ℤ) := by norm_num
    rw [e] at this; exact this
  unfold roundF64
  calc (2 : ℚ) ^ binade x = (2 : ℚ) ^ (52 : ℤ) * 2 ^ (binade x - 52) := by
        rw [← zpow_add₀ (by norm_num : (2 : ℚ) ≠ 0)]; congr 1; ring
    _ ≤ (roundHalfEven (x * 2 ^ (52 - binade x)) : ℚ) * 2 ^ (binade x - 52) :=
        mul_le_mul_of_nonneg_right hr' (two_zpow_pos _).le

theorem roundF64_mono_of_nonneg {x y : ℚ} (hx : 0 ≤ x) (hxy : x ≤ y) :
    roundF64 x ≤ roundF64 y := by
  rcases eq_or_lt_of_le hx with h0 | hpos
  · rw [← h0, roundF64_zero]; exact roundF64_nonneg (le_trans hx hxy)
  · have hy : 0 < y := lt_of_lt_of_le hpos hxy
    rcases eq_or_lt_of_le (binade_mono hpos hxy) with he | hlt
    · unfold roundF64
      rw [he]
      apply mul_le_mul_of_nonneg_right _ (two_zpow_pos _).le
      have : x * 2 ^ (52 - binade y) ≤ y * 2 ^ (52 - binade y) :=
        mul_le_mul_of_nonneg_right hxy (two_zpow_pos _).le
      exact Int.cast_le.mpr (roundHalfEven_mono this)
    · have hby : -1022 < binade y := lt_of_le_of_lt (binade_ge x) hlt
      have h1 := two_zpow_binade_le y hy.ne' hby
      rw [abs_of_pos hy] at h1
      calc roundF64 x ≤ 2 ^ (binade x + 1) := roundF64_le_two_zpow hx
        _ ≤ 2 ^ binade y := zpow_le_zpow_right₀ (by norm_num) (by omega)
        _ ≤ roundF64 y := two_zpow_le_roundF64 hy h1

theorem roundF64_mono {x y : ℚ} (hxy : x ≤ y) : roundF64 x ≤ roundF64 y := by
  rcases le_or_lt 0 x with hx | hx
  · exact roundF64_mono_of_nonneg hx hxy
  · rcases le_or_lt 0 y with hy | hy
    · have h1 : 0 ≤ roundF64 (-x) := roundF64_nonneg (by linarith)
      rw [roundF64_neg] at h1
      have h2 := roundF64_nonneg hy
      linarith
    · have h := roundF64_mono_of_nonneg (x := -y) (y := -x) (by linarith) (by linarith)
      rw [roundF64_neg, roundF64_neg] at h
      linarith

theorem roundF64_eval (x : ℚ) (e m : ℤ) (hmin : -1022 ≤ e)
    (h1 : (2 : ℚ) ^ e ≤ |x|) (h2 : |x| < 2 ^ (e + 1))
    (hm : |x * 2 ^ (52 - e) - m| < 1 / 2) : roundF64 x = m * 2 ^ (e - 52) := by
  unfold roundF64
  rw [binade_eq_of_bounds x e hmin h1 h2, roundHalfEven_unique _ m (Or.inl hm)]


/-! ## Structure of the output of `checkThresholds` -/

theorem checkThresholds_eq (ovf : ℚ → ℤ) (stats : ServerStats) :
    checkThresholds ovf stats =
      loadAvgCheck stats ++ memoryCheck ovf stats ++ diskCheck ovf stats
        ++ networkCheck ovf stats := by
  unfold checkThresholds loadAvgCheck memoryCheck diskCheck networkCheck
  simp only [loadAvgLine, memoryLine, diskLine, networkLine]
  congr 1
  · congr 1
    · congr 1
      split_ifs <;> simp_all
    · split_ifs <;> simp_all
  · split_ifs <;> simp_all

theorem filter_loadAvgCheck (stats : ServerStats) :
    (loadAvgCheck stats).filter isLoadAvgLine = loadAvgCheck stats
    ∧ (loadAvgCheck stats).filter isMemoryLine = []
    ∧ (loadAvgCheck stats).filter isDiskLine = []
    ∧ (loadAvgCheck stats).filter isNetworkLine = [] := by
  unfold loadAvgCheck
  split_ifs
  · refine ⟨?_, ?_, ?_, ?_⟩ <;> rfl
  · simp

theorem filter_memoryCheck (ovf : ℚ → ℤ) (stats : ServerStats) :
    (memoryCheck ovf stats).filter isLoadAvgLine = []
    ∧ (memoryCheck ovf stats).filter isMemoryLine = memoryCheck ovf stats
    ∧ (memoryCheck ovf stats).filter isDiskLine = []
    ∧ (memoryCheck ovf stats).filter isNetworkLine = [] := by
  unfold memoryCheck
  split_ifs
  · refine ⟨?_, ?_, ?_, ?_⟩ <;> rfl
  · simp

theorem filter_diskCheck (ovf : ℚ → ℤ) (stats : ServerStats) :
    (diskCheck ovf stats).filter isLoadAvgLine = []
    ∧ (diskCheck ovf stats).filter isMemoryLine = []
    ∧ (diskCheck ovf stats).filter isDiskLine = diskCheck ovf stats
    ∧ (diskCheck ovf stats).filter isNetworkLine = [] := by
  unfold diskCheck
  split_ifs
  · refine ⟨?_, ?_, ?_, ?_⟩ <;> rfl
  · simp

theorem filter_networkCheck (ovf : ℚ → ℤ) (stats : ServerStats) :
    (networkCheck ovf stats).filter isLoadAvgLine = []
    ∧ (networkCheck ovf stats).filter isMemoryLine = []
    ∧ (networkCheck ovf stats).filter isDiskLine = []
    ∧ (networkCheck ovf stats).filter isNetworkLine = networkCheck ovf stats := by
  unfold networkCheck
  split_ifs
  · refine ⟨?_, ?_, ?_, ?_⟩ <;> rfl
  · simp

theorem filter_isLoadAvgLine (ovf : ℚ → ℤ) (stats : ServerStats) :
    (checkThresholds ovf stats).filter isLoadAvgLine = loadAvgCheck stats := by
  rw [checkThresholds_eq]
  simp [List.filter_append, (filter_loadAvgCheck stats).1, (filter_memoryCheck ovf stats).1,
    (filter_diskCheck ovf stats).1, (filter_networkCheck ovf stats).1]

theorem filter_isMemoryLine (ovf : ℚ → ℤ) (stats : ServerStats) :
    (checkThresholds ovf stats).filter isMemoryLine = memoryCheck ovf stats := by
  rw [checkThresholds_eq]
  simp [List.filter_append, (filter_loadAvgCheck stats).2.1, (filter_memoryCheck ovf stats).2.1,
    (filter_diskCheck ovf stats).2.1, (filter_networkCheck ovf stats).2.1]

theorem filter_isDiskLine (ovf : ℚ → ℤ) (stats : ServerStats) :
    (checkThresholds ovf stats).filter isDiskLine = diskCheck ovf stats := by
  rw [checkThresholds_eq]
  simp [List.filter_append, (filter_loadAvgCheck stats).2.2.1,
    (filter_memoryCheck ovf stats).2.2.1, (filter_diskCheck ovf stats).2.2.1,
    (filter_networkCheck ovf stats).2.2.1]

theorem filter_isNetworkLine (ovf : ℚ → ℤ) (stats : ServerStats) :
    (checkThresholds ovf stats).filter isNetworkLine = networkCheck ovf stats := by
  rw [checkThresholds_eq]
  simp [List.filter_append, (filter_loadAvgCheck stats).2.2.2,
    (filter_memoryCheck ovf stats).2.2.2, (filter_diskCheck ovf stats).2.2.2,
    (filter_networkCheck ovf stats).2.2.2]

theorem Float64.gt_finite_iff (x : Float64) (t : ℚ) :
    x.gt (.finite t) = true ↔ (∃ q, x = .finite q ∧ t < q) ∨ x = .posInf := by
  cases x <;> simp [Float64.gt]

theorem exists_mem_iff_filter_ne_nil {α : Type} (p : α → Bool) (l : List α) :
    (∃ x ∈ l, p x = true) ↔ l.filter p ≠ [] := by
  induction l with
  | nil => simp
  | cons a t ih =>
    by_cases h : p a = true
    · simp [List.filter, h]
    · simp only [Bool.not_eq_true] at h
      simp [List.filter, h, ← ih]

/-! ## Load average -/

/-- C4: `checkThresholds` writes a "Load Average is too high" line exactly when the load
average is strictly greater than 30 (a finite value above 30, or positive infinity); a load
average of exactly 30 writes no such line. -/
theorem checkThresholds_loadAvg_line_iff (ovf : ℚ → ℤ) (stats : ServerStats) :
    ((∃ l ∈ checkThresholds ovf stats, isLoadAvgLine l = true) ↔
      ((∃ q, stats.LoadAvg = .finite q ∧ 30 < q) ∨ stats.LoadAvg = .posInf))
    ∧ (stats.LoadAvg = .finite 30 →
        ∀ l ∈ checkThresholds ovf stats, isLoadAvgLine l = false) := by
  have key : (∃ l ∈ checkThresholds ovf stats, isLoadAvgLine l = true) ↔
      ((∃ q, stats.LoadAvg = .finite q ∧ 30 < q) ∨ stats.LoadAvg = .posInf) := by
    rw [exists_mem_iff_filter_ne_nil, filter_isLoadAvgLine, ← Float64.gt_finite_iff]
    unfold loadAvgCheck loadAvgThreshold
    split_ifs with h <;> simp [h]
  refine ⟨key, ?_⟩
  intro h30 l hl
  by_contra hne
  have hex : ∃ l ∈ checkThresholds ovf stats, isLoadAvgLine l = true :=
    ⟨l, hl, by simpa using hne⟩
  rcases key.mp hex with ⟨q, hq, hlt⟩ | hinf
  · rw [h30] at hq
    injection hq with hq
    rw [← hq] at hlt
    exact lt_irrefl _ hlt
  · rw [h30] at hinf
    cases hinf

/-! ## Field count -/

/-- C7: when the trimmed input splits on commas into a number of fields other than 7,
`parseStats` fails (no snapshot) with the error whose message names the expected count 7
and the actual count. -/
theorem parseStats_field_count (data : GoString)
    (h : (strings.Split (strings.TrimSpace data) ',').length ≠ 7) :
    parseStats data = .error (.errorf ("invalid data format: expected 7 values, got ".toList
      ++ fmtInt (strings.Split (strings.TrimSpace data) ',').length)) := by
  unfold parseStats
  split
  · rename_i heq
    rw [heq] at h
    exact absurd rfl h
  · rfl

theorem parseStats_field_count_witness :
    (strings.Split (strings.TrimSpace "1,2,3".toList) ',').length ≠ 7 ∧
    parseStats "1,2,3".toList = .error (.errorf ("invalid data format: expected 7 values, got ".toList
      ++ fmtInt (strings.Split (strings.TrimSpace "1,2,3".toList) ',').length)) :=
  ⟨by decide, parseStats_field_count "1,2,3".toList (by decide)⟩

/-! ## The failure counter -/

theorem wrapInt64_of_isInt64 {i : ℤ} (h : isInt64 i) : wrapInt64 i = i := by
  unfold isInt64 at h
  unfold wrapInt64
  omega

theorem mainCycle_of_failed (ovf : ℚ → ℤ) (c : ℤ) (r : HttpReply) (h : failed r = true) :
    mainCycle ovf c r =
      if wrapInt64 (c + 1) = maxErrors then (0, [unableLine]) else (wrapInt64 (c + 1), []) := by
  unfold failed at h
  unfold mainCycle
  split at h
  · rfl
  · cases h

theorem mainCycle_of_ok (ovf : ℚ → ℤ) (c : ℤ) (r : HttpReply) (stats : ServerStats)
    (h : fetchStats r = .ok stats) : mainCycle ovf c r = (0, checkThresholds ovf stats) := by
  unfold mainCycle
  rw [h]

theorem mainCycle_failed_small (ovf : ℚ → ℤ) (j : ℕ) (hj : j < 3) (r : HttpReply)
    (h : failed r = true) :
    mainCycle ovf (j : ℤ) r =
      ((((j + 1) % 3 : ℕ) : ℤ), if (j + 1) % 3 = 0 then [unableLine] else []) := by
  rw [mainCycle_of_failed ovf _ r h]
  have hw : wrapInt64 ((j : ℤ) + 1) = (j : ℤ) + 1 :=
    wrapInt64_of_isInt64 (by unfold isInt64; omega)
  rw [hw]
  unfold maxErrors
  interval_cases j <;> simp

theorem mainLoop_all_failed (ovf : ℚ → ℤ) (rs : List HttpReply) :
    ∀ j : ℕ, j < 3 → (∀ r ∈ rs, failed r = true) →
      (mainLoop ovf (j : ℤ) rs).1 = (((j + rs.length) % 3 : ℕ) : ℤ)
      ∧ (mainLoop ovf (j : ℤ) rs).2 =
          (List.range rs.length).map
            (fun k => if (j + k + 1) % 3 = 0 then [unableLine] else [])
      ∧ (mainLoop ovf (j : ℤ) rs).2.flatten = List.replicate ((j + rs.length) / 3) unableLine := by
  induction rs with
  | nil =>
    intro j hj _
    refine ⟨?_, ?_, ?_⟩
    · simp [mainLoop, Nat.mod_eq_of_lt hj]
    · simp [mainLoop]
    · have : j / 3 = 0 := by omega
      simp [mainLoop, this]
  | cons r rs ih =>
    intro j hj hall
    have hr : failed r = true := hall r (List.mem_cons_self _ _)
    have hrs : ∀ x ∈ rs, failed x = true := fun x hx => hall x (List.mem_cons_of_mem _ hx)
    have hstep := mainCycle_failed_small ovf j hj r hr
    obtain ⟨ih1, ih2, ih3⟩ := ih ((j + 1) % 3) (Nat.mod_lt _ (by norm_num)) hrs
    simp only [mainLoop, hstep, List.length_cons]
    refine ⟨?_, ?_, ?_⟩
    · rw [ih1]
      congr 1
      omega
    · rw [ih2, List.range_succ_eq_map]
      simp only [List.map_cons, List.map_map]
      congr 1
      apply List.map_congr_left
      intro k _
      have : ((j + 1) % 3 + k + 1) % 3 = (j + (k + 1) + 1) % 3 := by omega
      simp [this]
    · rw [List.flatten_cons, ih3]
      by_cases h3 : (j + 1) % 3 = 0
      · have e : (j + (rs.length + 1)) / 3 = ((j + 1) % 3 + rs.length) / 3 + 1 := by omega
        simp [h3, e, List.replicate_succ]
      · have e : (j + (rs.length + 1)) / 3 = ((j + 1) % 3 + rs.length) / 3 := by omega
        simp [h3, e]

/-- C5: starting from a failure counter of 0, after `n` failed cycles in a row the counter
is `n mod 3`, the cycle number `k` (counted from 1) wrote the line "Unable to fetch server
statistic" when `k` is a multiple of 3 and nothing otherwise, and in all `n / 3` such lines
were written. -/
theorem main_consecutive_failures (ovf : ℚ → ℤ) (rs : List HttpReply)
    (hfail : ∀ r ∈ rs, failed r = true) :
    (main ovf rs).1 = ((rs.length % 3 : ℕ) : ℤ)
    ∧ (main ovf rs).2 =
        (List.range rs.length).map (fun k => if (k + 1) % 3 = 0 then [unableLine] else [])
    ∧ (main ovf rs).2.flatten = List.replicate (rs.length / 3) unableLine := by
  have h := mainLoop_all_failed ovf rs 0 (by norm_num) hfail
  simpa [main] using h

theorem main_consecutive_failures_witness :
    (∀ r ∈ List.replicate 4 (HttpReply.getFailed (.external [])), failed r = true)
    ∧ (main (fun _ => 0) (List.replicate 4 (HttpReply.getFailed (.external [])))).1
        = (((List.replicate 4 (HttpReply.getFailed (.external []))).length % 3 : ℕ) : ℤ)
    ∧ (main (fun _ => 0) (List.replicate 4 (HttpReply.getFailed (.external [])))).2 =
        (List.range (List.replicate 4 (HttpReply.getFailed (.external []))).length).map
          (fun k => if (k + 1) % 3 = 0 then [unableLine] else [])
    ∧ (main (fun _ => 0) (List.replicate 4 (HttpReply.getFailed (.external [])))).2.flatten =
        List.replicate ((List.replicate 4 (HttpReply.getFailed (.external []))).length / 3)
          unableLine :=
  ⟨by decide, main_consecutive_failures (fun _ => 0) _ (by decide)⟩

theorem checkThresholds_line_kind (ovf : ℚ → ℤ) (stats : ServerStats) :
    ∀ l ∈ checkThresholds ovf stats,
      isLoadAvgLine l = true ∨ isMemoryLine l = true ∨ isDiskLine l = true
        ∨ isNetworkLine l = true := by
  intro l hl
  rw [checkThresholds_eq] at hl
  simp only [List.mem_append] at hl
  rcases hl with ((hl | hl) | hl) | hl
  · unfold loadAvgCheck at hl
    split_ifs at hl
    · simp only [List.mem_singleton] at hl
      subst hl
      exact Or.inl rfl
    · simp at hl
  · unfold memoryCheck at hl
    split_ifs at hl
    · simp only [List.mem_singleton] at hl
      subst hl
      exact Or.inr (Or.inl rfl)
    · simp at hl
  · unfold diskCheck at hl
    split_ifs at hl
    · simp only [List.mem_singleton] at hl
      subst hl
      exact Or.inr (Or.inr (Or.inl rfl))
    · simp at hl
  · unfold networkCheck at hl
    split_ifs at hl
    · simp only [List.mem_singleton] at hl
      subst hl
      exact Or.inr (Or.inr (Or.inr rfl))
    · simp at hl

theorem unableLine_not_mem_checkThresholds (ovf : ℚ → ℤ) (stats : ServerStats) :
    unableLine ∉ checkThresholds ovf stats := by
  intro h
  have hk := checkThresholds_line_kind ovf stats unableLine h
  revert hk
  decide

theorem failed_eq_false_iff (r : HttpReply) :
    failed r = false ↔ ∃ stats, fetchStats r = .ok stats := by
  unfold failed
  split
  · rename_i e he
    simp [he]
  · rename_i st he
    simp [he]

theorem mainLoop_no_unable (ovf : ℚ → ℤ) (rs : List HttpReply) :
    ∀ j : ℕ, j < 3 → ¬ [true, true, true] <:+: (List.replicate j true ++ rs.map failed) →
      ∀ out ∈ (mainLoop ovf (j : ℤ) rs).2, unableLine ∉ out := by
  induction rs with
  | nil =>
    intro j _ _ out hout
    simp [mainLoop] at hout
  | cons r rs ih =>
    intro j hj hno out hout
    simp only [mainLoop, List.mem_cons] at hout
    cases hf : failed r with
    | true =>
      have hstep := mainCycle_failed_small ovf j hj r hf
      have hj2 : j ≠ 2 := by
        rintro rfl
        apply hno
        refine ⟨[], rs.map failed, ?_⟩
        simp [hf, List.replicate]
      have hmod : (j + 1) % 3 = j + 1 := by omega
      rw [hstep] at hout
      rcases hout with hout | hout
      · rw [hout]
        simp [hmod]
      · rw [hmod] at hout
        refine ih (j + 1) (by omega) ?_ out hout
        intro hin
        apply hno
        have e : List.replicate j true ++ List.map failed (r :: rs)
            = List.replicate (j + 1) true ++ List.map failed rs := by
          rw [List.replicate_succ', List.map_cons, hf, List.append_assoc]
          rfl
        rw [e]
        exact hin
    | false =>
      obtain ⟨stats, hst⟩ := (failed_eq_false_iff r).mp hf
      have hstep := mainCycle_of_ok ovf (j : ℤ) r stats hst
      rw [hstep] at hout
      rcases hout with hout | hout
      · rw [hout]
        exact unableLine_not_mem_checkThresholds ovf stats
      · refine ih 0 (by norm_num) ?_ out (by simpa using hout)
        rintro ⟨a, b, hab⟩
        apply hno
        refine ⟨List.replicate j true ++ false :: a, b, ?_⟩
        simp only [List.replicate, List.nil_append] at hab
        simp [hf, ← hab]

/-- C6: a successful cycle sets the failure counter to 0 whatever it was and writes only
the lines of `checkThresholds`, none of which is "Unable to fetch server statistic"; hence a
run from counter 0 whose outcomes never contain three failures in a row never writes that
line. -/
theorem main_success_resets (ovf : ℚ → ℤ) :
    (∀ (c : ℤ) (r : HttpReply) (stats : ServerStats), fetchStats r = .ok stats →
      mainCycle ovf c r = (0, checkThresholds ovf stats) ∧ unableLine ∉ (mainCycle ovf c r).2)
    ∧ (∀ rs : List HttpReply, ¬ [true, true, true] <:+: rs.map failed →
        ∀ out ∈ (main ovf rs).2, unableLine ∉ out) := by
  refine ⟨?_, ?_⟩
  · intro c r stats h
    have hc := mainCycle_of_ok ovf c r stats h
    refine ⟨hc, ?_⟩
    rw [hc]
    exact unableLine_not_mem_checkThresholds ovf stats
  · intro rs hno out hout
    exact mainLoop_no_unable ovf rs 0 (by norm_num) (by simpa using hno) out hout

/-! ## Exactly representable values -/

theorem roundF64_of_dyadic (m k : ℤ) (hm : |m| < 2 ^ 53) (hk : -1074 ≤ k) :
    roundF64 ((m : ℚ) * 2 ^ k) = (m : ℚ) * 2 ^ k := by
  rcases eq_or_ne m 0 with rfl | hm0
  · simp [roundF64_zero]
  · set x : ℚ := (m : ℚ) * 2 ^ k with hx
    have hxpos : (0 : ℚ) < |x| := by
      rw [hx, abs_mul, abs_of_pos (two_zpow_pos k)]
      exact mul_pos (abs_pos.mpr (by exact_mod_cast hm0)) (two_zpow_pos k)
    have hxlt : |x| < (2 : ℚ) ^ (53 + k) := by
      rw [hx, abs_mul, abs_of_pos (two_zpow_pos k), zpow_add₀ (by norm_num : (2 : ℚ) ≠ 0)]
      apply mul_lt_mul_of_pos_right _ (two_zpow_pos k)
      have : ((|m| : ℤ) : ℚ) < ((2 ^ 53 : ℤ) : ℚ) := Int.cast_lt.mpr hm
      have e : ((2 ^ 53 : ℤ) : ℚ) = (2 : ℚ) ^ (53 : ℤ) := by norm_num
      rw [e] at this
      simpa using this
    have hlog : Int.log 2 |x| < 53 + k :=
      (Int.lt_zpow_iff_log_lt (R := ℚ) (b := 2) one_lt_two hxpos).mp
        (by rw [Nat.cast_ofNat]; exact hxlt)
    have hb : binade x ≤ 52 + k := by
      unfold binade
      exact max_le (by omega) (by omega)
    obtain ⟨t, ht⟩ := Int.eq_ofNat_of_zero_le (show 0 ≤ k + 52 - binade x by omega)
    apply roundF64_eq_self_of_scaled_int x (m * 2 ^ t)
    rw [hx, mul_assoc, ← zpow_add₀ (by norm_num : (2 : ℚ) ≠ 0)]
    have e : k + (52 - binade (↑m * 2 ^ k)) = (t : ℤ) := by rw [← ht]; ring
    rw [e]
    push_cast
    rw [zpow_natCast]

theorem roundF64_intCast (n : ℤ) (hn : |n| < 2 ^ 53) : roundF64 (n : ℚ) = n := by
  have h := roundF64_of_dyadic n 0 hn (by norm_num)
  simpa using h

theorem f64ofInt_exact (n : ℤ) (hn : |n| < 2 ^ 53) : f64ofInt n = n :=
  roundF64_intCast n hn

/-! ## Evaluating the parsers -/

theorem Float64.ofRat_of_lt (x : ℚ) (h : |roundF64 x| < 2 ^ (1024 : ℕ)) :
    Float64.ofRat x = .finite (roundF64 x) := by
  unfold Float64.ofRat
  rw [if_neg (not_le.mpr h)]

theorem ParseFloat_eq_of (s : GoString) (x q : ℚ) (hs : strconv.special s = none)
    (hr : strconv.readFloat s = some x) (hq : roundF64 x = q) (hb : |q| < 2 ^ (1024 : ℕ)) :
    strconv.ParseFloat s = .ok (.finite q) := by
  unfold strconv.ParseFloat
  rw [hs, hr]
  simp only []
  rw [Float64.ofRat_of_lt x (by rw [hq]; exact hb), hq]

theorem ParseFloat_nat (s : GoString) (n : ℕ) (hs : strconv.special s = none)
    (hr : strconv.readFloat s = some (strconv.floatValue false false ⟨n, 0, false, true, false⟩ 0))
    (hn : n < 2 ^ 53) : strconv.ParseFloat s = .ok (.finite n) := by
  have hv : strconv.floatValue false false ⟨n, 0, false, true, false⟩ 0 = ((n : ℤ) : ℚ) := by
    simp [strconv.floatValue]
  have hlt : |(n : ℤ)| < 2 ^ 53 := by
    rw [abs_of_nonneg (by positivity)]
    exact_mod_cast hn
  have hq : roundF64 (strconv.floatValue false false ⟨n, 0, false, true, false⟩ 0) = (n : ℚ) := by
    rw [hv, roundF64_intCast _ hlt]
    simp
  apply ParseFloat_eq_of s _ _ hs hr hq
  rw [abs_of_nonneg (by positivity)]
  have h1 : (n : ℚ) < 2 ^ (53 : ℕ) := by exact_mod_cast hn
  have h2 : (2 : ℚ) ^ (53 : ℕ) < 2 ^ (1024 : ℕ) := by
    apply pow_lt_pow_right₀ (by norm_num) (by norm_num)
  linarith

theorem parseStats_of_fields (data p0 p1 p2 p3 p4 p5 p6 : GoString)
    (h : strings.Split (strings.TrimSpace data) ',' = [p0, p1, p2, p3, p4, p5, p6]) :
    parseStats data = (do
      let loadAvg ← liftNum (strconv.ParseFloat p0)
      let totalRAM ← liftNum (strconv.ParseInt p1)
      let usedRAM ← liftNum (strconv.ParseInt p2)
      let totalDisk ← liftNum (strconv.ParseInt p3)
      let usedDisk ← liftNum (strconv.ParseInt p4)
      let totalNetwork ← liftNum (strconv.ParseInt p5)
      let currentNetwork ← liftNum (strconv.ParseInt p6)
      pure ⟨loadAvg, totalRAM, usedRAM, totalDisk, usedDisk, totalNetwork, currentNetwork⟩) := by
  unfold parseStats
  rw [h]

theorem parseStats_eq_ok (data p0 p1 p2 p3 p4 p5 p6 : GoString) (la : Float64)
    (a b c d e f : ℤ)
    (h : strings.Split (strings.TrimSpace data) ',' = [p0, p1, p2, p3, p4, p5, p6])
    (h0 : strconv.ParseFloat p0 = .ok la) (h1 : strconv.ParseInt p1 = .ok a)
    (h2 : strconv.ParseInt p2 = .ok b) (h3 : strconv.ParseInt p3 = .ok c)
    (h4 : strconv.ParseInt p4 = .ok d) (h5 : strconv.ParseInt p5 = .ok e)
    (h6 : strconv.ParseInt p6 = .ok f) :
    parseStats data = .ok ⟨la, a, b, c, d, e, f⟩ := by
  rw [parseStats_of_fields data p0 p1 p2 p3 p4 p5 p6 h, h0, h1, h2, h3, h4, h5, h6]
  rfl

theorem parseStats_quiet_payload :
    parseStats "10,1000,100,1000,100,1000,100".toList
      = .ok ⟨.finite 10, 1000, 100, 1000, 100, 1000, 100⟩ := by
  refine parseStats_eq_ok _ "10".toList "1000".toList "100".toList "1000".toList "100".toList
    "1000".toList "100".toList _ _ _ _ _ _ _ (by decide) ?_ (by decide) (by decide)
    (by decide) (by decide) (by decide) (by decide)
  exact_mod_cast ParseFloat_nat "10".toList 10 (by decide) (by rfl) (by norm_num)

theorem failed_getFailed (err : Error) : failed (.getFailed err) = true := rfl

theorem failed_quiet_reply :
    failed (.response 200 (.ok "10,1000,100,1000,100,1000,100".toList)) = false := by
  rw [failed_eq_false_iff]
  exact ⟨_, by simp only [fetchStats]; exact parseStats_quiet_payload⟩

theorem main_success_resets_witness :
    (mainCycle (fun _ => 0) 2 (.response 200 (.ok "10,1000,100,1000,100,1000,100".toList))
        = (0, checkThresholds (fun _ => 0) ⟨.finite 10, 1000, 100, 1000, 100, 1000, 100⟩)
      ∧ unableLine ∉
        (mainCycle (fun _ => 0) 2
          (.response 200 (.ok "10,1000,100,1000,100,1000,100".toList))).2)
    ∧ (¬ [true, true, true] <:+:
          [HttpReply.getFailed (.external []),
            .response 200 (.ok "10,1000,100,1000,100,1000,100".toList),
            .getFailed (.external []), .getFailed (.external [])].map failed)
    ∧ ∀ out ∈ (main (fun _ => 0)
          [HttpReply.getFailed (.external []),
            .response 200 (.ok "10,1000,100,1000,100,1000,100".toList),
            .getFailed (.external []), .getFailed (.external [])]).2, unableLine ∉ out := by
  have hno : ¬ [true, true, true] <:+:
      [HttpReply.getFailed (.external []),
        .response 200 (.ok "10,1000,100,1000,100,1000,100".toList),
        .getFailed (.external []), .getFailed (.external [])].map failed := by
    simp only [List.map, failed_getFailed, failed_quiet_reply]
    decide
  exact ⟨(main_success_resets (fun _ => 0)).1 2 _ _
      (by simp only [fetchStats]; exact parseStats_quiet_payload),
    hno, (main_success_resets (fun _ => 0)).2 _ hno⟩

/-! ## Field conversion -/

/-- C8: for a payload of 7 fields, `parseStats` succeeds exactly when `ParseFloat` accepts
field 0 and `ParseInt` accepts each of fields 1 to 6, the snapshot then holding the seven
converted values; if any field fails conversion the result is an error, with no snapshot. -/
theorem parseStats_ok_iff (data p0 p1 p2 p3 p4 p5 p6 : GoString)
    (h : strings.Split (strings.TrimSpace data) ',' = [p0, p1, p2, p3, p4, p5, p6]) :
    (∀ st : ServerStats, parseStats data = .ok st ↔
      (strconv.ParseFloat p0 = .ok st.LoadAvg ∧ strconv.ParseInt p1 = .ok st.TotalRAM
        ∧ strconv.ParseInt p2 = .ok st.UsedRAM ∧ strconv.ParseInt p3 = .ok st.TotalDisk
        ∧ strconv.ParseInt p4 = .ok st.UsedDisk ∧ strconv.ParseInt p5 = .ok st.TotalNetwork
        ∧ strconv.ParseInt p6 = .ok st.CurrentNetwork))
    ∧ ((∃ st, parseStats data = .ok st) ↔
        ((∃ v, strconv.ParseFloat p0 = .ok v)
          ∧ ∀ p ∈ [p1, p2, p3, p4, p5, p6], ∃ v, strconv.ParseInt p = .ok v))
    ∧ (((∃ e, strconv.ParseFloat p0 = .error e)
          ∨ ∃ p ∈ [p1, p2, p3, p4, p5, p6], ∃ e, strconv.ParseInt p = .error e) →
        ∃ e, parseStats data = .error e) := by
  rw [parseStats_of_fields data p0 p1 p2 p3 p4 p5 p6 h]
  rcases h0 : strconv.ParseFloat p0 with e0 | v0
  · refine ⟨?_, ?_, ?_⟩
    · intro st; simp [liftNum, bind, Except.bind]
    · simp [liftNum, bind, Except.bind]
    · intro _; exact ⟨_, rfl⟩
  rcases h1 : strconv.ParseInt p1 with e1 | v1
  · refine ⟨?_, ?_, ?_⟩
    · intro st; simp [liftNum, bind, Except.bind]
    · simp [liftNum, bind, Except.bind, h1]
    · intro _; exact ⟨_, rfl⟩
  rcases h2 : strconv.ParseInt p2 with e2 | v2
  · refine ⟨?_, ?_, ?_⟩
    · intro st; simp [liftNum, bind, Except.bind]
    · simp [liftNum, bind, Except.bind, h2]
    · intro _; exact ⟨_, rfl⟩
  rcases h3 : strconv.ParseInt p3 with e3 | v3
  · refine ⟨?_, ?_, ?_⟩
    · intro st; simp [liftNum, bind, Except.bind]
    · simp [liftNum, bind, Except.bind, h3]
    · intro _; exact ⟨_, rfl⟩
  rcases h4 : strconv.ParseInt p4 with e4 | v4
  · refine ⟨?_, ?_, ?_⟩
    · intro st; simp [liftNum, bind, Except.bind]
    · simp [liftNum, bind, Except.bind, h4]
    · intro _; exact ⟨_, rfl⟩
  rcases h5 : strconv.ParseInt p5 with e5 | v5
  · refine ⟨?_, ?_, ?_⟩
    · intro st; simp [liftNum, bind, Except.bind]
    · simp [liftNum, bind, Except.bind, h5]
    · intro _; exact ⟨_, rfl⟩
  rcases h6 : strconv.ParseInt p6 with e6 | v6
  · refine ⟨?_, ?_, ?_⟩
    · intro st; simp [liftNum, bind, Except.bind]
    · simp [liftNum, bind, Except.bind, h6]
    · intro _; exact ⟨_, rfl⟩
  refine ⟨?_, ?_, ?_⟩
  · intro st
    obtain ⟨la, a, b, c, d, e, f⟩ := st
    simp only [liftNum, bind, Except.bind, pure, Except.pure, Except.ok.injEq,
      ServerStats.mk.injEq]
  · simp [liftNum, bind, Except.bind, pure, Except.pure, h1, h2, h3, h4, h5, h6]
  · rintro (⟨e, he⟩ | ⟨p, hp, e, he⟩)
    · cases he
    · simp only [List.mem_cons, List.mem_singleton, List.not_mem_nil, or_false] at hp
      rcases hp with rfl | rfl | rfl | rfl | rfl | rfl
      · rw [h1] at he; cases he
      · rw [h2] at he; cases he
      · rw [h3] at he; cases he
      · rw [h4] at he; cases he
      · rw [h5] at he; cases he
      · rw [h6] at he; cases he

/-! ## Evaluating binary64 operations -/

theorem roundF64_eval_pos (x : ℚ) (e m : ℤ) (hmin : -1022 ≤ e)
    (h1 : (2 : ℚ) ^ e ≤ x) (h2 : x < 2 ^ (e + 1))
    (hlo : (m : ℚ) - 1 / 2 < x * 2 ^ (52 - e)) (hhi : x * 2 ^ (52 - e) < m + 1 / 2) :
    roundF64 x = m * 2 ^ (e - 52) := by
  have hx : 0 < x := lt_of_lt_of_le (two_zpow_pos e) h1
  apply roundF64_eval x e m hmin
  · rwa [abs_of_pos hx]
  · rwa [abs_of_pos hx]
  · rw [abs_lt]
    constructor <;> linarith

theorem truncQ_of_nonneg {x : ℚ} (h : 0 ≤ x) : truncQ x = ⌊x⌋ := by
  unfold truncQ
  rw [if_pos h]

theorem truncQ_neg (x : ℚ) : truncQ (-x) = -truncQ x := by
  unfold truncQ
  rcases lt_trichotomy x 0 with h | h | h
  · rw [if_pos (by linarith), if_neg (by linarith), Int.floor_neg]
  · subst h; simp
  · rw [if_neg (by linarith), if_pos (by linarith), Int.ceil_neg]

theorem f64toInt_eval (ovf : ℚ → ℤ) (x : ℚ) (k : ℤ) (hk0 : 0 ≤ k) (hk : k < 2 ^ 63)
    (hlo : (k : ℚ) ≤ x) (hhi : x < k + 1) : f64toInt ovf x = k := by
  have hx : 0 ≤ x := le_trans (by exact_mod_cast hk0) hlo
  have ht : truncQ x = k := by
    rw [truncQ_of_nonneg hx, Int.floor_eq_iff]
    exact ⟨hlo, hhi⟩
  unfold f64toInt
  rw [ht, if_pos ⟨by omega, hk⟩]

theorem memoryThreshold_eq : memoryThreshold = 7205759403792794 / 2 ^ 53 := by
  unfold memoryThreshold
  rw [roundF64_eval_pos 0.80 (-1) 7205759403792794 (by norm_num) (by norm_num) (by norm_num)
    (by norm_num) (by norm_num)]
  norm_num

theorem diskThreshold_eq : diskThreshold = 8106479329266893 / 2 ^ 53 := by
  unfold diskThreshold
  rw [roundF64_eval_pos 0.90 (-1) 8106479329266893 (by norm_num) (by norm_num) (by norm_num)
    (by norm_num) (by norm_num)]
  norm_num

theorem networkThreshold_eq : networkThreshold = 8106479329266893 / 2 ^ 53 := diskThreshold_eq

theorem not_mem_of_check_eq_nil {p : GoString → Bool} {out : List GoString}
    (h : out.filter p = []) : ∀ l ∈ out, p l = false := by
  intro l hl
  by_contra hne
  have : l ∈ out.filter p := List.mem_filter.mpr ⟨hl, by simpa using hne⟩
  rw [h] at this
  simp at this

/-! ## Ratios exactly at a threshold -/

theorem f64div_exact_ratio (u t : ℤ) (q : ℚ) (hu : |u| < 2 ^ 53) (ht : |t| < 2 ^ 53)
    (h : (u : ℚ) / t = q) : f64div (f64ofInt u) (f64ofInt t) = roundF64 q := by
  rw [f64ofInt_exact u hu, f64ofInt_exact t ht]
  unfold f64div
  rw [h]

/-- C10, as amended: when the two integers of a metric have magnitude below 2^53 (so that
their conversion to `float64` is exact) and their ratio is exactly the threshold of the
metric (0.80 for memory, 0.90 for disk and network), `checkThresholds` writes no line for
that metric. -/
theorem checkThresholds_at_threshold (ovf : ℚ → ℤ) (stats : ServerStats) :
    (|stats.TotalRAM| < 2 ^ 53 → |stats.UsedRAM| < 2 ^ 53 →
        (stats.UsedRAM : ℚ) / stats.TotalRAM = 0.80 →
        ∀ l ∈ checkThresholds ovf stats, isMemoryLine l = false)
    ∧ (|stats.TotalDisk| < 2 ^ 53 → |stats.UsedDisk| < 2 ^ 53 →
        (stats.UsedDisk : ℚ) / stats.TotalDisk = 0.90 →
        ∀ l ∈ checkThresholds ovf stats, isDiskLine l = false)
    ∧ (|stats.TotalNetwork| < 2 ^ 53 → |stats.CurrentNetwork| < 2 ^ 53 →
        (stats.CurrentNetwork : ℚ) / stats.TotalNetwork = 0.90 →
        ∀ l ∈ checkThresholds ovf stats, isNetworkLine l = false) := by
  refine ⟨?_, ?_, ?_⟩
  · intro ht hu h
    apply not_mem_of_check_eq_nil
    rw [filter_isMemoryLine]
    unfold memoryCheck
    rw [if_neg]
    rintro ⟨_, hgt⟩
    rw [f64div_exact_ratio _ _ _ hu ht h] at hgt
    exact lt_irrefl _ hgt
  · intro ht hu h
    apply not_mem_of_check_eq_nil
    rw [filter_isDiskLine]
    unfold diskCheck
    rw [if_neg]
    rintro ⟨_, hgt⟩
    rw [f64div_exact_ratio _ _ _ hu ht h] at hgt
    exact lt_irrefl _ hgt
  · intro ht hu h
    apply not_mem_of_check_eq_nil
    rw [filter_isNetworkLine]
    unfold networkCheck
    rw [if_neg]
    rintro ⟨_, hgt⟩
    rw [f64div_exact_ratio _ _ _ hu ht h] at hgt
    exact lt_irrefl _ hgt

theorem checkThresholds_at_threshold_witness :
    (|(5 : ℤ)| < 2 ^ 53 ∧ |(4 : ℤ)| < 2 ^ 53 ∧ (((4 : ℤ) : ℚ) / ((5 : ℤ) : ℚ) = 0.80)
      ∧ ∀ l ∈ checkThresholds (fun _ => 0) ⟨.finite 0, 5, 4, 10, 9, 10, 9⟩,
          isMemoryLine l = false)
    ∧ (|(10 : ℤ)| < 2 ^ 53 ∧ |(9 : ℤ)| < 2 ^ 53 ∧ (((9 : ℤ) : ℚ) / ((10 : ℤ) : ℚ) = 0.90)
      ∧ ∀ l ∈ checkThresholds (fun _ => 0) ⟨.finite 0, 5, 4, 10, 9, 10, 9⟩,
          isDiskLine l = false)
    ∧ (|(10 : ℤ)| < 2 ^ 53 ∧ |(9 : ℤ)| < 2 ^ 53 ∧ (((9 : ℤ) : ℚ) / ((10 : ℤ) : ℚ) = 0.90)
      ∧ ∀ l ∈ checkThresholds (fun _ => 0) ⟨.finite 0, 5, 4, 10, 9, 10, 9⟩,
          isNetworkLine l = false) :=
  ⟨⟨by norm_num, by norm_num, by norm_num,
      (checkThresholds_at_threshold (fun _ => 0) ⟨.finite 0, 5, 4, 10, 9, 10, 9⟩).1
        (by norm_num) (by norm_num) (by norm_num)⟩,
    ⟨by norm_num, by norm_num, by norm_num,
      (checkThresholds_at_threshold (fun _ => 0) ⟨.finite 0, 5, 4, 10, 9, 10, 9⟩).2.1
        (by norm_num) (by norm_num) (by norm_num)⟩,
    ⟨by norm_num, by norm_num, by norm_num,
      (checkThresholds_at_threshold (fun _ => 0) ⟨.finite 0, 5, 4, 10, 9, 10, 9⟩).2.2
        (by norm_num) (by norm_num) (by norm_num)⟩⟩

/-- C10, counterexample: with TotalRAM = 150000000000000015 and UsedRAM = 120000000000000012
the ratio is exactly 0.80, both values are `int64`, and `checkThresholds` writes the memory
line (the two conversions to `float64` round in opposite directions). -/
theorem checkThresholds_at_threshold_large :
    ((120000000000000012 : ℤ) : ℚ) / ((150000000000000015 : ℤ) : ℚ) = 0.80
    ∧ ServerStats.WF ⟨.finite 0, 150000000000000015, 120000000000000012, 0, 0, 0, 0⟩
    ∧ memoryLine 80 ∈ checkThresholds (fun _ => 0)
        ⟨.finite 0, 150000000000000015, 120000000000000012, 0, 0, 0, 0⟩ := by
  refine ⟨by norm_num, by unfold ServerStats.WF isInt64; norm_num, ?_⟩
  have hu : f64ofInt 120000000000000012 = 120000000000000016 := by
    unfold f64ofInt
    rw [roundF64_eval_pos _ 56 7500000000000001 (by norm_num) (by norm_num) (by norm_num)
      (by norm_num) (by norm_num)]
    norm_num
  have ht : f64ofInt 150000000000000015 = 150000000000000000 := by
    unfold f64ofInt
    rw [roundF64_eval_pos _ 57 4687500000000000 (by norm_num) (by norm_num) (by norm_num)
      (by norm_num) (by norm_num)]
    norm_num
  have hd : f64div (120000000000000016 : ℚ) 150000000000000000 = 7205759403792795 / 2 ^ 53 := by
    unfold f64div
    rw [roundF64_eval_pos _ (-1) 7205759403792795 (by norm_num) (by norm_num) (by norm_num)
      (by norm_num) (by norm_num)]
    norm_num
  have hm : f64mul (7205759403792795 / 2 ^ 53 : ℚ) 100 = 5629499534213121 / 2 ^ 46 := by
    unfold f64mul
    rw [roundF64_eval_pos _ 6 5629499534213121 (by norm_num) (by norm_num) (by norm_num)
      (by norm_num) (by norm_num)]
    norm_num
  have hi : f64toInt (fun _ => 0) (5629499534213121 / 2 ^ 46 : ℚ) = 80 :=
    f64toInt_eval _ _ 80 (by norm_num) (by norm_num) (by norm_num) (by norm_num)
  have hmem : memoryCheck (fun _ => 0)
      ⟨.finite 0, 150000000000000015, 120000000000000012, 0, 0, 0, 0⟩ = [memoryLine 80] := by
    unfold memoryCheck
    simp only [Int.cast_ofNat] at hu ht
    simp only [hu, ht, hd, hm, hi, memoryThreshold_eq]
    rw [if_pos]
    norm_num
  have hin : memoryLine 80 ∈ (checkThresholds (fun _ => 0)
      ⟨.finite 0, 150000000000000015, 120000000000000012, 0, 0, 0, 0⟩).filter isMemoryLine := by
    rw [filter_isMemoryLine, hmem]
    exact List.mem_singleton.mpr rfl
  exact (List.mem_filter.mp hin).1

/-! ## Thresholds against exact arithmetic -/

theorem gt_memoryThreshold_iff (u t : ℤ) (ht0 : 0 < t) (ht : t ≤ 2 ^ 50) :
    roundF64 ((u : ℚ) / t) > memoryThreshold ↔ (u : ℚ) / t > 0.80 := by
  have htq : (0 : ℚ) < t := by exact_mod_cast ht0
  constructor
  · intro h
    by_contra hle
    push_neg at hle
    have := roundF64_mono hle
    unfold memoryThreshold at h
    exact absurd h (not_lt.mpr this)
  · intro h
    have h1 : (4 : ℚ) * t < 5 * u := by
      have h' : (0.80 : ℚ) < (u : ℚ) / t := h
      rw [lt_div_iff₀ htq] at h'
      linarith
    have h2 : 4 * t + 1 ≤ 5 * u := by
      have : (4 : ℤ) * t < 5 * u := by exact_mod_cast h1
      omega
    have h3 : (4 : ℚ) * t + 1 ≤ 5 * u := by exact_mod_cast h2
    have htb : (t : ℚ) ≤ 2 ^ 50 := by exact_mod_cast ht
    have h4 : (7205759403792795 / 2 ^ 53 : ℚ) ≤ (u : ℚ) / t := by
      rw [le_div_iff₀ htq]
      linarith
    have h5 := roundF64_mono h4
    have h6 : roundF64 (7205759403792795 / 2 ^ 53 : ℚ) = 7205759403792795 / 2 ^ 53 := by
      have := roundF64_of_dyadic 7205759403792795 (-53) (by norm_num) (by norm_num)
      norm_num at this ⊢
      exact this
    rw [h6] at h5
    rw [memoryThreshold_eq]
    have : (7205759403792794 / 2 ^ 53 : ℚ) < 7205759403792795 / 2 ^ 53 := by norm_num
    exact lt_of_lt_of_le this h5

theorem gt_diskThreshold_iff (u t : ℤ) (ht0 : 0 < t) (ht : t ≤ 2 ^ 49) :
    roundF64 ((u : ℚ) / t) > diskThreshold ↔ (u : ℚ) / t > 0.90 := by
  have htq : (0 : ℚ) < t := by exact_mod_cast ht0
  constructor
  · intro h
    by_contra hle
    push_neg at hle
    have := roundF64_mono hle
    unfold diskThreshold at h
    exact absurd h (not_lt.mpr this)
  · intro h
    have h1 : (9 : ℚ) * t < 10 * u := by
      have h' : (0.90 : ℚ) < (u : ℚ) / t := h
      rw [lt_div_iff₀ htq] at h'
      linarith
    have h2 : 9 * t + 1 ≤ 10 * u := by
      have : (9 : ℤ) * t < 10 * u := by exact_mod_cast h1
      omega
    have h3 : (9 : ℚ) * t + 1 ≤ 10 * u := by exact_mod_cast h2
    have htb : (t : ℚ) ≤ 2 ^ 49 := by exact_mod_cast ht
    have h4 : (8106479329266894 / 2 ^ 53 : ℚ) ≤ (u : ℚ) / t := by
      rw [le_div_iff₀ htq]
      linarith
    have h5 := roundF64_mono h4
    have h6 : roundF64 (8106479329266894 / 2 ^ 53 : ℚ) = 8106479329266894 / 2 ^ 53 := by
      have := roundF64_of_dyadic 8106479329266894 (-53) (by norm_num) (by norm_num)
      norm_num at this ⊢
      exact this
    rw [h6] at h5
    rw [diskThreshold_eq]
    have : (8106479329266893 / 2 ^ 53 : ℚ) < 8106479329266894 / 2 ^ 53 := by norm_num
    exact lt_of_lt_of_le this h5

theorem roundF64_one : roundF64 1 = 1 := by
  have := roundF64_intCast 1 (by norm_num)
  simpa using this

theorem roundF64_error_half_one (r : ℚ) (h1 : 1 / 2 ≤ r) (h2 : r ≤ 1) :
    |roundF64 r - r| ≤ 1 / 2 ^ 54 := by
  rcases eq_or_lt_of_le h2 with h | h
  · rw [h, roundF64_one]; norm_num
  · have hb : binade r = -1 := by
      apply binade_eq_of_bounds r (-1) (by norm_num)
      · rw [abs_of_pos (by linarith)]; norm_num; linarith
      · rw [abs_of_pos (by linarith)]; norm_num; exact h
    have := roundF64_error r
    rw [hb] at this
    norm_num at this ⊢
    exact this

theorem binade_of_64_128 (p : ℚ) (h1 : 64 ≤ p) (h2 : p < 128) : binade p = 6 := by
  apply binade_eq_of_bounds p 6 (by norm_num)
  · rw [abs_of_pos (by linarith)]; norm_num; exact h1
  · rw [abs_of_pos (by linarith)]; norm_num; exact h2

theorem percent_exact (ovf : ℚ → ℤ) (u t : ℤ) (ht0 : 0 < t) (ht : t ≤ 2 ^ 45)
    (hgt : (u : ℚ) / t > 0.80) (hle : u ≤ t) :
    f64toInt ovf (f64mul (roundF64 ((u : ℚ) / t)) 100) = ⌊(u : ℚ) / t * 100⌋ := by
  have htq : (0 : ℚ) < t := by exact_mod_cast ht0
  have htb : (t : ℚ) ≤ 2 ^ 45 := by exact_mod_cast ht
  set r : ℚ := (u : ℚ) / t with hr
  have hr1 : r ≤ 1 := by
    rw [hr, div_le_one htq]; exact_mod_cast hle
  have hr0 : (4 : ℚ) / 5 < r := by
    have : (0.80 : ℚ) < r := hgt
    norm_num at this
    linarith
  -- the rounded ratio
  have hx1 := roundF64_error_half_one r (by linarith) hr1
  rw [abs_le] at hx1
  set x1 := roundF64 r with hx1def
  -- the product and its binade
  have hp1 : (64 : ℚ) ≤ x1 * 100 := by norm_num at hx1; linarith
  have hp2 : x1 * 100 < 128 := by norm_num at hx1; linarith
  have hb := binade_of_64_128 (x1 * 100) hp1 hp2
  have hperr := roundF64_error (x1 * 100)
  rw [hb] at hperr
  rw [abs_le] at hperr
  -- the exact percentage
  set k : ℤ := ⌊r * 100⌋ with hk
  have hk1 : (k : ℚ) ≤ r * 100 := Int.floor_le _
  have hk2 : r * 100 < k + 1 := Int.lt_floor_add_one _
  have hk80 : 80 ≤ k := by
    rw [hk, Int.le_floor]
    push_cast; linarith
  have hk100 : k ≤ 100 := by
    have : (k : ℚ) ≤ 100 := by linarith
    exact_mod_cast this
  have hru : r * t = u := by rw [hr]; field_simp
  have hi1 : k * t ≤ 100 * u := by
    have : (k : ℚ) * t ≤ 100 * u := by
      have := mul_le_mul_of_nonneg_right hk1 htq.le
      nlinarith
    exact_mod_cast this
  have hi2 : 100 * u < (k + 1) * t := by
    have : (100 : ℚ) * u < (k + 1) * t := by
      have := mul_lt_mul_of_pos_right hk2 htq
      nlinarith
    exact_mod_cast this
  unfold f64mul
  rcases eq_or_lt_of_le hi1 with heq | hlt
  · -- the percentage is an integer
    have hrk : r * 100 = k := by
      have : (k : ℚ) * t = 100 * u := by exact_mod_cast heq
      have h' : r * 100 * t = k * t := by rw [this]; rw [← hru]; ring
      exact mul_right_cancel₀ htq.ne' h'
    have hround : roundF64 (x1 * 100) = k := by
      have hrhe : roundHalfEven (x1 * 100 * 2 ^ (52 - (6 : ℤ))) = k * 2 ^ 46 := by
        apply roundHalfEven_unique
        left
        rw [abs_lt]
        push_cast
        norm_num at hx1 ⊢
        constructor <;> nlinarith
      unfold roundF64
      rw [hb, hrhe]
      push_cast
      norm_num
      ring
    rw [hround]
    exact f64toInt_eval ovf k k (by omega) (by omega) le_rfl (by linarith)
  · have hlo : (k : ℚ) * t + 1 ≤ 100 * u := by
      have : k * t + 1 ≤ 100 * u := by omega
      exact_mod_cast this
    have hhi : (100 : ℚ) * u + 1 ≤ (k + 1) * t := by
      have : 100 * u + 1 ≤ (k + 1) * t := by omega
      exact_mod_cast this
    have hinv : (1 : ℚ) / 35184372088832 ≤ 1 / t := by
      have := one_div_le_one_div_of_le htq htb
      norm_num at this ⊢
      exact this
    have hlo' : (k : ℚ) + 1 / t ≤ r * 100 := by
      rw [hr]
      rw [div_mul_eq_mul_div, le_div_iff₀ htq]
      have : ((k : ℚ) + 1 / t) * t = k * t + 1 := by field_simp
      rw [this]; linarith
    have hhi' : r * 100 + 1 / t ≤ k + 1 := by
      have : (r * 100 + 1 / t) * t ≤ (k + 1) * t := by
        have e : (r * 100 + 1 / t) * t = 100 * u + 1 := by
          rw [add_mul, mul_assoc, mul_comm 100 (t : ℚ), ← mul_assoc, hru]; field_simp; ring
        rw [e]; exact hhi
      exact le_of_mul_le_mul_right this htq
    apply f64toInt_eval ovf _ k (by omega) (by omega)
    · norm_num at hx1 hperr
      linarith
    · norm_num at hx1 hperr
      linarith

theorem abs_truncQ_le (x : ℚ) : |(truncQ x : ℚ)| ≤ |x| := by
  unfold truncQ
  split_ifs with h
  · have h1 := Int.floor_le x
    have h2 : (0 : ℚ) ≤ ⌊x⌋ := by exact_mod_cast Int.floor_nonneg.mpr h
    rw [abs_of_nonneg h2, abs_of_nonneg h]
    exact h1
  · push_neg at h
    have h1 := Int.le_ceil x
    have h2 : ((⌈x⌉ : ℤ) : ℚ) ≤ 0 := by exact_mod_cast Int.ceil_le.mpr (by simpa using h.le)
    rw [abs_of_nonpos h2, abs_of_neg h]
    linarith

theorem f64toInt_of_abs_lt (ovf : ℚ → ℤ) (x : ℚ) (h : |x| < 2 ^ 63) :
    f64toInt ovf x = truncQ x := by
  have h1 := lt_of_le_of_lt (abs_truncQ_le x) h
  rw [abs_lt] at h1
  have h2 : -2 ^ 63 < truncQ x := by exact_mod_cast h1.1
  have h3 : truncQ x < 2 ^ 63 := by exact_mod_cast h1.2
  unfold f64toInt
  rw [if_pos ⟨by omega, h3⟩]

theorem freeMB_exact (ovf : ℚ → ℤ) (a : ℤ) (ha : |a| < 2 ^ 53) :
    f64toInt ovf (f64div (f64ofInt a) (1024 * 1024)) = truncQ ((a : ℚ) / (1024 * 1024)) := by
  rw [f64ofInt_exact a ha]
  unfold f64div
  have e : (a : ℚ) / (1024 * 1024) = (a : ℚ) * 2 ^ (-20 : ℤ) := by
    norm_num; ring
  have hr : roundF64 ((a : ℚ) / (1024 * 1024)) = (a : ℚ) / (1024 * 1024) := by
    rw [e]; exact roundF64_of_dyadic a (-20) ha (by norm_num)
  rw [hr]
  apply f64toInt_of_abs_lt
  have haq : |(a : ℚ)| < 2 ^ 53 := by exact_mod_cast ha
  rw [abs_div, abs_of_pos (by norm_num : (0 : ℚ) < 1024 * 1024)]
  rw [div_lt_iff₀ (by norm_num)]
  calc |(a : ℚ)| < 2 ^ 53 := haq
    _ ≤ 2 ^ 63 * (1024 * 1024) := by norm_num

theorem floor_roundF64_div_million (a : ℤ) (h0 : 0 ≤ a) (ha : a < 2 ^ 53) :
    ⌊roundF64 ((a : ℚ) / 1000000)⌋ = ⌊(a : ℚ) / 1000000⌋ := by
  set q : ℚ := (a : ℚ) / 1000000 with hq
  set k : ℤ := ⌊q⌋ with hk
  have haq : (a : ℚ) < 2 ^ 53 := by exact_mod_cast ha
  have ha0 : (0 : ℚ) ≤ a := by exact_mod_cast h0
  have hq0 : 0 ≤ q := by rw [hq]; positivity
  have hk1 : (k : ℚ) ≤ q := Int.floor_le _
  have hk2 : q < k + 1 := Int.lt_floor_add_one _
  have hk0 : 0 ≤ k := Int.floor_nonneg.mpr hq0
  have hqlt : q < 2 ^ 53 / 1000000 := by
    rw [hq]; exact div_lt_div_of_pos_right haq (by norm_num)
  rw [Int.floor_eq_iff]
  constructor
  · have hkq : (k : ℚ) < 2 ^ 53 := by
      have : (2 : ℚ) ^ 53 / 1000000 < 2 ^ 53 := by norm_num
      linarith
    have hklt : |k| < 2 ^ 53 := by
      rw [abs_of_nonneg hk0]; exact_mod_cast hkq
    have := roundF64_mono hk1
    rwa [roundF64_intCast k hklt] at this
  · rcases eq_or_lt_of_le h0 with h | hpos
    · have : q = 0 := by rw [hq, ← h]; simp
      rw [this, roundF64_zero]
      have : (0 : ℚ) ≤ k := by exact_mod_cast hk0
      linarith
    · have ha1 : (1 : ℚ) ≤ a := by exact_mod_cast hpos
      have hqpos : 0 < q := by rw [hq]; positivity
      have hqlo : (2 : ℚ) ^ (-20 : ℤ) ≤ q := by
        rw [hq, le_div_iff₀ (by norm_num)]
        norm_num
        linarith
      have hb20 : binade ((2 : ℚ) ^ (-20 : ℤ)) = -20 := by
        apply binade_eq_of_bounds _ (-20) (by norm_num)
        · rw [abs_of_pos (two_zpow_pos _)]
        · rw [abs_of_pos (two_zpow_pos _)]
          exact zpow_lt_zpow_right₀ (by norm_num) (by norm_num)
      have hb : -20 ≤ binade q := by
        rw [← hb20]; exact binade_mono (two_zpow_pos _) hqlo
      have hle := two_zpow_binade_le q hqpos.ne' (by omega)
      rw [abs_of_pos hqpos] at hle
      have herr := roundF64_error q
      rw [abs_le] at herr
      have hsplit : (2 : ℚ) ^ (binade q - 53) = 2 ^ binade q * (1 / 2 ^ 53) := by
        rw [zpow_sub₀ (by norm_num : (2 : ℚ) ≠ 0)]
        norm_num
        ring
      rw [hsplit] at herr
      -- the next multiple of a million is at least one away
      have hint : a + 1 ≤ (k + 1) * 1000000 := by
        have : (a : ℚ) < (k + 1) * 1000000 := by
          rw [hq, div_lt_iff₀ (by norm_num)] at hk2
          exact hk2
        have : a < (k + 1) * 1000000 := by exact_mod_cast this
        omega
      have hint' : q + 1 / 1000000 ≤ k + 1 := by
        have : (a : ℚ) + 1 ≤ (k + 1) * 1000000 := by exact_mod_cast hint
        rw [hq]
        have e : (a : ℚ) / 1000000 + 1 / 1000000 = (a + 1) / 1000000 := by ring
        rw [e, div_le_iff₀ (by norm_num)]
        exact this
      have hbound : (2 : ℚ) ^ binade q * (1 / 2 ^ 53) < 1 / 1000000 := by
        have h1 : (2 : ℚ) ^ binade q * (1 / 2 ^ 53) ≤ q * (1 / 2 ^ 53) :=
          mul_le_mul_of_nonneg_right hle (by norm_num)
        have h2 : q * (1 / 2 ^ 53) < 2 ^ 53 / 1000000 * (1 / 2 ^ 53) :=
          mul_lt_mul_of_pos_right hqlt (by norm_num)
        have h3 : (2 : ℚ) ^ 53 / 1000000 * (1 / 2 ^ 53) = 1 / 1000000 := by norm_num
        linarith
      linarith [herr.2]

theorem truncQ_roundF64_div_million (a : ℤ) (ha : |a| < 2 ^ 53) :
    truncQ (roundF64 ((a : ℚ) / 1000000)) = truncQ ((a : ℚ) / 1000000) := by
  rcases le_or_lt 0 a with h0 | hneg
  · have halt : a < 2 ^ 53 := by rwa [abs_of_nonneg h0] at ha
    have hq0 : (0 : ℚ) ≤ (a : ℚ) / 1000000 := by
      have : (0 : ℚ) ≤ a := by exact_mod_cast h0
      positivity
    rw [truncQ_of_nonneg hq0, truncQ_of_nonneg (roundF64_nonneg hq0)]
    exact floor_roundF64_div_million a h0 halt
  · have hneg' : 0 ≤ -a := by omega
    have halt : -a < 2 ^ 53 := by rwa [abs_of_neg hneg] at ha
    have e : (a : ℚ) / 1000000 = -(((-a : ℤ) : ℚ) / 1000000) := by push_cast; ring
    have hq0 : (0 : ℚ) ≤ ((-a : ℤ) : ℚ) / 1000000 := by
      have : (0 : ℚ) ≤ ((-a : ℤ) : ℚ) := by exact_mod_cast hneg'
      positivity
    rw [e, roundF64_neg, truncQ_neg, truncQ_neg, truncQ_of_nonneg hq0,
      truncQ_of_nonneg (roundF64_nonneg hq0), floor_roundF64_div_million (-a) hneg' halt]

theorem availableMbits_exact (ovf : ℚ → ℤ) (a : ℤ) (ha : |a| < 2 ^ 53) :
    f64toInt ovf (f64div (f64ofInt a) 1000000) = truncQ ((a : ℚ) / 1000000) := by
  rw [f64ofInt_exact a ha]
  unfold f64div
  rw [← truncQ_roundF64_div_million a ha]
  apply f64toInt_of_abs_lt
  -- the rounded quotient is bounded by the rounding of 2^53
  have haq : |(a : ℚ)| < 2 ^ 53 := by exact_mod_cast ha
  rw [abs_lt] at haq ⊢
  have h1 : (a : ℚ) / 1000000 ≤ ((2 ^ 53 : ℤ) : ℚ) := by
    rw [div_le_iff₀ (by norm_num)]; push_cast; linarith
  have h2 : ((-(2 ^ 53) : ℤ) : ℚ) ≤ (a : ℚ) / 1000000 := by
    rw [le_div_iff₀ (by norm_num)]; push_cast; linarith
  have e1 : roundF64 ((2 ^ 53 : ℤ) : ℚ) = 2 ^ 53 := by
    have := roundF64_of_dyadic 1 53 (by norm_num) (by norm_num)
    norm_num at this ⊢
    exact this
  have e2 : roundF64 ((-(2 ^ 53) : ℤ) : ℚ) = -2 ^ 53 := by
    have : ((-(2 ^ 53) : ℤ) : ℚ) = -(((2 ^ 53 : ℤ)) : ℚ) := by push_cast; ring
    rw [this, roundF64_neg, e1]
  have m1 := roundF64_mono h1
  have m2 := roundF64_mono h2
  rw [e1] at m1
  rw [e2] at m2
  constructor
  · have : (-(2 : ℚ) ^ 63) < -2 ^ 53 := by norm_num
    linarith
  · have : (2 : ℚ) ^ 53 < 2 ^ 63 := by norm_num
    linarith

/-! ## Memory, disk and network lines -/

/-- C1, as amended: for every snapshot with UsedRAM ≤ TotalRAM ≤ 2^45 and UsedRAM above
-2^53, the memory lines written by `checkThresholds` are those of the spec read in exact
arithmetic: one line "Memory usage too high: P%" exactly when TotalRAM > 0 and
UsedRAM/TotalRAM > 0.80, with P = floor(UsedRAM/TotalRAM * 100). -/
theorem checkThresholds_memory_line (ovf : ℚ → ℤ) (stats : ServerStats)
    (hT : stats.TotalRAM ≤ 2 ^ 45) (hU : -2 ^ 53 < stats.UsedRAM)
    (hUT : stats.UsedRAM ≤ stats.TotalRAM) :
    (checkThresholds ovf stats).filter isMemoryLine = memoryCheckSpec stats := by
  rw [filter_isMemoryLine]
  unfold memoryCheck memoryCheckSpec
  by_cases hT0 : 0 < stats.TotalRAM
  · have ht : |stats.TotalRAM| < 2 ^ 53 := by rw [abs_lt]; constructor <;> omega
    have hu : |stats.UsedRAM| < 2 ^ 53 := by rw [abs_lt]; constructor <;> omega
    rw [f64ofInt_exact _ ht, f64ofInt_exact _ hu]
    unfold f64div
    have key := gt_memoryThreshold_iff stats.UsedRAM stats.TotalRAM hT0 (by omega)
    by_cases hgt : (stats.UsedRAM : ℚ) / stats.TotalRAM > 0.80
    · rw [if_pos ⟨hT0, key.mpr hgt⟩, if_pos ⟨hT0, hgt⟩,
        percent_exact ovf stats.UsedRAM stats.TotalRAM hT0 hT hgt hUT]
    · rw [if_neg (fun h => hgt (key.mp h.2)), if_neg (fun h => hgt h.2)]
  · rw [if_neg (fun h => hT0 h.1), if_neg (fun h => hT0 h.1)]

/-- C2, as amended: for every snapshot with TotalDisk ≤ 2^49 and UsedDisk of magnitude at
most 2^52, the disk lines written by `checkThresholds` are those of the spec read in exact
arithmetic: one line "Free disk space is too low: M Mb left" exactly when TotalDisk > 0 and
UsedDisk/TotalDisk > 0.90, with M = (TotalDisk - UsedDisk) / (1024*1024) truncated. -/
theorem checkThresholds_disk_line (ovf : ℚ → ℤ) (stats : ServerStats)
    (hT : stats.TotalDisk ≤ 2 ^ 49) (hU : |stats.UsedDisk| ≤ 2 ^ 52) :
    (checkThresholds ovf stats).filter isDiskLine = diskCheckSpec stats := by
  rw [filter_isDiskLine]
  unfold diskCheck diskCheckSpec
  rw [abs_le] at hU
  by_cases hT0 : 0 < stats.TotalDisk
  · have ht : |stats.TotalDisk| < 2 ^ 53 := by rw [abs_lt]; constructor <;> omega
    have hu : |stats.UsedDisk| < 2 ^ 53 := by rw [abs_lt]; constructor <;> omega
    have hf : |stats.TotalDisk - stats.UsedDisk| < 2 ^ 53 := by
      rw [abs_lt]; constructor <;> omega
    have hw : wrapInt64 (stats.TotalDisk - stats.UsedDisk) = stats.TotalDisk - stats.UsedDisk :=
      wrapInt64_of_isInt64 (by unfold isInt64; constructor <;> omega)
    rw [f64ofInt_exact _ ht, f64ofInt_exact _ hu, hw, freeMB_exact ovf _ hf]
    unfold f64div
    have key := gt_diskThreshold_iff stats.UsedDisk stats.TotalDisk hT0 hT
    by_cases hgt : (stats.UsedDisk : ℚ) / stats.TotalDisk > 0.90
    · rw [if_pos ⟨hT0, key.mpr hgt⟩, if_pos ⟨hT0, hgt⟩]
    · rw [if_neg (fun h => hgt (key.mp h.2)), if_neg (fun h => hgt h.2)]
  · rw [if_neg (fun h => hT0 h.1), if_neg (fun h => hT0 h.1)]

/-- C3, as amended: for every snapshot with TotalNetwork ≤ 2^49 and CurrentNetwork of
magnitude at most 2^52, the network lines written by `checkThresholds` are those of the spec
read in exact arithmetic: one line "Network bandwidth usage high: B Mbit/s available"
exactly when TotalNetwork > 0 and CurrentNetwork/TotalNetwork > 0.90, with
B = (TotalNetwork - CurrentNetwork) / 1000000 truncated. -/
theorem checkThresholds_network_line (ovf : ℚ → ℤ) (stats : ServerStats)
    (hT : stats.TotalNetwork ≤ 2 ^ 49) (hU : |stats.CurrentNetwork| ≤ 2 ^ 52) :
    (checkThresholds ovf stats).filter isNetworkLine = networkCheckSpec stats := by
  rw [filter_isNetworkLine]
  unfold networkCheck networkCheckSpec
  rw [abs_le] at hU
  by_cases hT0 : 0 < stats.TotalNetwork
  · have ht : |stats.TotalNetwork| < 2 ^ 53 := by rw [abs_lt]; constructor <;> omega
    have hu : |stats.CurrentNetwork| < 2 ^ 53 := by rw [abs_lt]; constructor <;> omega
    have hf : |stats.TotalNetwork - stats.CurrentNetwork| < 2 ^ 53 := by
      rw [abs_lt]; constructor <;> omega
    have hw : wrapInt64 (stats.TotalNetwork - stats.CurrentNetwork)
        = stats.TotalNetwork - stats.CurrentNetwork :=
      wrapInt64_of_isInt64 (by unfold isInt64; constructor <;> omega)
    rw [f64ofInt_exact _ ht, f64ofInt_exact _ hu, hw, availableMbits_exact ovf _ hf]
    unfold f64div
    have key := gt_diskThreshold_iff stats.CurrentNetwork stats.TotalNetwork hT0 hT
    rw [← networkThreshold_eq.trans diskThreshold_eq.symm] at key
    by_cases hgt : (stats.CurrentNetwork : ℚ) / stats.TotalNetwork > 0.90
    · rw [if_pos ⟨hT0, key.mpr hgt⟩, if_pos ⟨hT0, hgt⟩]
    · rw [if_neg (fun h => hgt (key.mp h.2)), if_neg (fun h => hgt h.2)]
  · rw [if_neg (fun h => hT0 h.1), if_neg (fun h => hT0 h.1)]

theorem f64ofInt_big_total : f64ofInt 1000000000000000000 = 1000000000000000000 := by
  unfold f64ofInt
  rw [roundF64_eval_pos _ 59 7812500000000000 (by norm_num) (by norm_num) (by norm_num)
    (by norm_num) (by norm_num)]
  norm_num

theorem f64ofInt_big_used_80 : f64ofInt 800000000000000001 = 800000000000000000 := by
  unfold f64ofInt
  rw [roundF64_eval_pos _ 59 6250000000000000 (by norm_num) (by norm_num) (by norm_num)
    (by norm_num) (by norm_num)]
  norm_num

theorem f64ofInt_big_used_90 : f64ofInt 900000000000000001 = 900000000000000000 := by
  unfold f64ofInt
  rw [roundF64_eval_pos _ 59 7031250000000000 (by norm_num) (by norm_num) (by norm_num)
    (by norm_num) (by norm_num)]
  norm_num

/-- C1, counterexamples: with TotalRAM = 10 and UsedRAM = 23 the code writes 229% where
floor(23/10 * 100) = 230; with TotalRAM = 10^18 and UsedRAM = 8 * 10^17 + 1 the ratio
exceeds 0.80 and the code writes no memory line. -/
theorem memory_line_counterexamples :
    (ServerStats.WF ⟨.finite 0, 10, 23, 0, 0, 0, 0⟩
      ∧ (checkThresholds (fun _ => 0) ⟨.finite 0, 10, 23, 0, 0, 0, 0⟩).filter isMemoryLine
          = [memoryLine 229]
      ∧ memoryCheckSpec ⟨.finite 0, 10, 23, 0, 0, 0, 0⟩ = [memoryLine 230]
      ∧ memoryLine 229 ≠ memoryLine 230)
    ∧ (ServerStats.WF ⟨.finite 0, 1000000000000000000, 800000000000000001, 0, 0, 0, 0⟩
      ∧ (checkThresholds (fun _ => 0)
          ⟨.finite 0, 1000000000000000000, 800000000000000001, 0, 0, 0, 0⟩).filter
            isMemoryLine = []
      ∧ memoryCheckSpec ⟨.finite 0, 1000000000000000000, 800000000000000001, 0, 0, 0, 0⟩
          = [memoryLine 80]) := by
  refine ⟨⟨by unfold ServerStats.WF isInt64; norm_num, ?_, ?_, by decide⟩,
    ⟨by unfold ServerStats.WF isInt64; norm_num, ?_, ?_⟩⟩
  · rw [filter_isMemoryLine]
    unfold memoryCheck
    have hu : f64ofInt 23 = 23 := by simpa using f64ofInt_exact 23 (by norm_num)
    have ht : f64ofInt 10 = 10 := by simpa using f64ofInt_exact 10 (by norm_num)
    have hd : f64div (23 : ℚ) 10 = 5179139571476070 / 2 ^ 51 := by
      unfold f64div
      rw [roundF64_eval_pos _ 1 5179139571476070 (by norm_num) (by norm_num) (by norm_num)
        (by norm_num) (by norm_num)]
      norm_num
    have hm : f64mul (5179139571476070 / 2 ^ 51 : ℚ) 100 = 8092405580431359 / 2 ^ 45 := by
      unfold f64mul
      rw [roundF64_eval_pos _ 7 8092405580431359 (by norm_num) (by norm_num) (by norm_num)
        (by norm_num) (by norm_num)]
      norm_num
    have hi : f64toInt (fun _ => 0) (8092405580431359 / 2 ^ 45 : ℚ) = 229 :=
      f64toInt_eval _ _ 229 (by norm_num) (by norm_num) (by norm_num) (by norm_num)
    simp only [hu, ht, hd, hm, hi, memoryThreshold_eq]
    rw [if_pos]
    norm_num
  · unfold memoryCheckSpec
    have hf : ⌊((23 : ℤ) : ℚ) / ((10 : ℤ) : ℚ) * 100⌋ = 230 := by
      rw [Int.floor_eq_iff]; norm_num
    simp only [hf]
    rw [if_pos]
    norm_num
  · rw [filter_isMemoryLine]
    unfold memoryCheck
    simp only [f64ofInt_big_total, f64ofInt_big_used_80]
    rw [if_neg]
    rintro ⟨_, h⟩
    have e : f64div (800000000000000000 : ℚ) 1000000000000000000 = memoryThreshold := by
      unfold f64div memoryThreshold
      norm_num
    rw [e] at h
    exact lt_irrefl _ h
  · unfold memoryCheckSpec
    have hf : ⌊((800000000000000001 : ℤ) : ℚ) / ((1000000000000000000 : ℤ) : ℚ) * 100⌋ = 80 := by
      rw [Int.floor_eq_iff]; norm_num
    simp only [hf]
    rw [if_pos]
    norm_num

/-- C2, counterexample: with TotalDisk = 10^18 and UsedDisk = 9 * 10^17 + 1 the ratio exceeds
0.90 and the spec asks for the line with M = 95367431640, yet the code writes no disk line
(the conversion of UsedDisk to `float64` rounds the ratio down to the threshold). -/
theorem disk_line_counterexample :
    ServerStats.WF ⟨.finite 0, 0, 0, 1000000000000000000, 900000000000000001, 0, 0⟩
    ∧ (checkThresholds (fun _ => 0)
        ⟨.finite 0, 0, 0, 1000000000000000000, 900000000000000001, 0, 0⟩).filter isDiskLine = []
    ∧ diskCheckSpec ⟨.finite 0, 0, 0, 1000000000000000000, 900000000000000001, 0, 0⟩
        = [diskLine 95367431640] := by
  refine ⟨by unfold ServerStats.WF isInt64; norm_num, ?_, ?_⟩
  · rw [filter_isDiskLine]
    unfold diskCheck
    simp only [f64ofInt_big_total, f64ofInt_big_used_90]
    rw [if_neg]
    rintro ⟨_, h⟩
    have e : f64div (900000000000000000 : ℚ) 1000000000000000000 = diskThreshold := by
      unfold f64div diskThreshold
      norm_num
    rw [e] at h
    exact lt_irrefl _ h
  · unfold diskCheckSpec
    have hf : truncQ ((((1000000000000000000 : ℤ) - 900000000000000001 : ℤ) : ℚ)
        / (1024 * 1024)) = 95367431640 := by
      rw [truncQ_of_nonneg (by norm_num), Int.floor_eq_iff]; norm_num
    simp only [hf]
    rw [if_pos]
    norm_num

/-- C3, counterexample: with TotalNetwork = 10^18 and CurrentNetwork = 9 * 10^17 + 1 the
ratio exceeds 0.90 and the spec asks for the line with B = 99999999999, yet the code writes
no network line. -/
theorem network_line_counterexample :
    ServerStats.WF ⟨.finite 0, 0, 0, 0, 0, 1000000000000000000, 900000000000000001⟩
    ∧ (checkThresholds (fun _ => 0)
        ⟨.finite 0, 0, 0, 0, 0, 1000000000000000000, 900000000000000001⟩).filter
          isNetworkLine = []
    ∧ networkCheckSpec ⟨.finite 0, 0, 0, 0, 0, 1000000000000000000, 900000000000000001⟩
        = [networkLine 99999999999] := by
  refine ⟨by unfold ServerStats.WF isInt64; norm_num, ?_, ?_⟩
  · rw [filter_isNetworkLine]
    unfold networkCheck
    simp only [f64ofInt_big_total, f64ofInt_big_used_90]
    rw [if_neg]
    rintro ⟨_, h⟩
    have e : f64div (900000000000000000 : ℚ) 1000000000000000000 = networkThreshold := by
      unfold f64div networkThreshold
      norm_num
    rw [e] at h
    exact lt_irrefl _ h
  · unfold networkCheckSpec
    have hf : truncQ ((((1000000000000000000 : ℤ) - 900000000000000001 : ℤ) : ℚ)
        / 1000000) = 99999999999 := by
      rw [truncQ_of_nonneg (by norm_num), Int.floor_eq_iff]; norm_num
    simp only [hf]
    rw [if_pos]
    norm_num

theorem checkThresholds_memory_line_witness :
    (1000 : ℤ) ≤ 2 ^ 45 ∧ -2 ^ 53 < (900 : ℤ) ∧ (900 : ℤ) ≤ 1000
    ∧ (checkThresholds (fun _ => 0) ⟨.finite 50, 1000, 900, 1000, 950, 1000, 950⟩).filter
        isMemoryLine = memoryCheckSpec ⟨.finite 50, 1000, 900, 1000, 950, 1000, 950⟩ :=
  ⟨by norm_num, by norm_num, by norm_num,
    checkThresholds_memory_line (fun _ => 0) ⟨.finite 50, 1000, 900, 1000, 950, 1000, 950⟩
      (by norm_num) (by norm_num) (by norm_num)⟩

theorem checkThresholds_disk_line_witness :
    (1000 : ℤ) ≤ 2 ^ 49 ∧ |(950 : ℤ)| ≤ 2 ^ 52
    ∧ (checkThresholds (fun _ => 0) ⟨.finite 50, 1000, 900, 1000, 950, 1000, 950⟩).filter
        isDiskLine = diskCheckSpec ⟨.finite 50, 1000, 900, 1000, 950, 1000, 950⟩ :=
  ⟨by norm_num, by norm_num,
    checkThresholds_disk_line (fun _ => 0) ⟨.finite 50, 1000, 900, 1000, 950, 1000, 950⟩
      (by norm_num) (by norm_num)⟩

theorem checkThresholds_network_line_witness :
    (1000 : ℤ) ≤ 2 ^ 49 ∧ |(950 : ℤ)| ≤ 2 ^ 52
    ∧ (checkThresholds (fun _ => 0) ⟨.finite 50, 1000, 900, 1000, 950, 1000, 950⟩).filter
        isNetworkLine = networkCheckSpec ⟨.finite 50, 1000, 900, 1000, 950, 1000, 950⟩ :=
  ⟨by norm_num, by norm_num,
    checkThresholds_network_line (fun _ => 0) ⟨.finite 50, 1000, 900, 1000, 950, 1000, 950⟩
      (by norm_num) (by norm_num)⟩

/-! ## Decimal rendering and `ParseInt` -/

theorem isDigit_digitChar (k : ℕ) (hk : k < 10) :
    strconv.isDigit (Nat.digitChar k) = true ∧ strconv.digitVal (Nat.digitChar k) = k := by
  interval_cases k <;> exact ⟨by decide, by decide⟩

theorem toDigitsCore_append (fuel : ℕ) : ∀ (n : ℕ) (ds : List Char),
    Nat.toDigitsCore 10 fuel n ds = Nat.toDigitsCore 10 fuel n [] ++ ds := by
  induction fuel with
  | zero => intro n ds; simp [Nat.toDigitsCore]
  | succ fuel ih =>
    intro n ds
    simp only [Nat.toDigitsCore]
    split_ifs with h
    · simp
    · rw [ih (n / 10) (Nat.digitChar (n % 10) :: ds), ih (n / 10) [Nat.digitChar (n % 10)]]
      simp

theorem toDigitsCore_digits (fuel : ℕ) : ∀ (n : ℕ) (ds : List Char),
    ∀ c ∈ Nat.toDigitsCore 10 fuel n ds, strconv.isDigit c = true ∨ c ∈ ds := by
  induction fuel with
  | zero => intro n ds c hc; right; simpa [Nat.toDigitsCore] using hc
  | succ fuel ih =>
    intro n ds c hc
    simp only [Nat.toDigitsCore] at hc
    have hd := (isDigit_digitChar (n % 10) (Nat.mod_lt _ (by norm_num))).1
    split_ifs at hc with h
    · rcases List.mem_cons.mp hc with rfl | hc
      · exact Or.inl hd
      · exact Or.inr hc
    · rcases ih _ _ c hc with h1 | h1
      · exact Or.inl h1
      · rcases List.mem_cons.mp h1 with rfl | h2
        · exact Or.inl hd
        · exact Or.inr h2

theorem toDigits_digits (n : ℕ) : ∀ c ∈ Nat.toDigits 10 n, strconv.isDigit c = true := by
  intro c hc
  rcases toDigitsCore_digits (n + 1) n [] c hc with h | h
  · exact h
  · simp at h

theorem toDigits_ne_nil (n : ℕ) : Nat.toDigits 10 n ≠ [] := by
  unfold Nat.toDigits
  simp only [Nat.toDigitsCore]
  split_ifs
  · simp
  · rw [toDigitsCore_append]
    simp

theorem parseUintLoop_append (a b : List Char) : ∀ acc : ℕ,
    strconv.parseUintLoop (a ++ b) acc =
      match strconv.parseUintLoop a acc with
      | .ok v => strconv.parseUintLoop b v
      | .error e => .error e := by
  induction a with
  | nil => intro acc; simp [strconv.parseUintLoop]
  | cons c cs ih =>
    intro acc
    simp only [List.cons_append, strconv.parseUintLoop]
    split_ifs
    · rfl
    · rfl
    · exact ih _
    · rfl

theorem parseUintLoop_digit (acc k : ℕ) (hk : k < 10) (h : acc * 10 + k < 2 ^ 64) :
    strconv.parseUintLoop [Nat.digitChar k] acc = .ok (acc * 10 + k) := by
  obtain ⟨hd, hv⟩ := isDigit_digitChar k hk
  simp only [strconv.parseUintLoop, hd, hv, if_true]
  have hmod : (acc * 10 + k) % 2 ^ 64 = acc * 10 + k := Nat.mod_eq_of_lt h
  rw [hmod]
  rw [if_neg (by omega), if_neg (by omega)]

theorem parseUintLoop_toDigitsCore (fuel : ℕ) : ∀ n : ℕ, n < fuel → n < 2 ^ 64 →
    strconv.parseUintLoop (Nat.toDigitsCore 10 fuel n []) 0 = .ok n := by
  induction fuel with
  | zero => intro n h; omega
  | succ fuel ih =>
    intro n hn h64
    simp only [Nat.toDigitsCore]
    split_ifs with h
    · have hk : n % 10 < 10 := Nat.mod_lt _ (by norm_num)
      have := parseUintLoop_digit 0 (n % 10) hk (by omega)
      rw [this]
      congr 1
      omega
    · rw [toDigitsCore_append, parseUintLoop_append, ih (n / 10) (by omega) (by omega)]
      simp only []
      rw [parseUintLoop_digit (n / 10) (n % 10) (Nat.mod_lt _ (by norm_num)) (by omega)]
      congr 1
      omega

theorem ParseUint_toDigits (n : ℕ) (h : n < 2 ^ 64) :
    strconv.ParseUint (Nat.toDigits 10 n) = .ok n := by
  unfold strconv.ParseUint
  rw [if_neg (toDigits_ne_nil n)]
  exact parseUintLoop_toDigitsCore (n + 1) n (by omega) h

theorem isDigit_ne_sign {c : Char} (h : strconv.isDigit c = true) : c ≠ '+' ∧ c ≠ '-' := by
  constructor <;> (rintro rfl; revert h; decide)

theorem ParseInt_cons (c0 : Char) (s0 : GoString) :
    strconv.ParseInt (c0 :: s0) =
      match strconv.ParseUint (if c0 = '+' ∨ c0 = '-' then s0 else c0 :: s0) with
      | .error k => .error ⟨strconv.fnParseInt, c0 :: s0, k⟩
      | .ok un =>
        if !(decide (c0 = '-')) ∧ un ≥ 2 ^ 63 then
          .error ⟨strconv.fnParseInt, c0 :: s0, .ErrRange⟩
        else if decide (c0 = '-') ∧ un > 2 ^ 63 then
          .error ⟨strconv.fnParseInt, c0 :: s0, .ErrRange⟩
        else .ok (if decide (c0 = '-') then wrapInt64 (-wrapInt64 un) else wrapInt64 un) := by
  rfl

/-- `ParseInt` reads back the decimal rendering of every `int64`. -/
theorem ParseInt_fmtInt (i : ℤ) (h : isInt64 i) : strconv.ParseInt (fmtInt i) = .ok i := by
  unfold isInt64 at h
  unfold fmtInt
  split_ifs with hneg
  · have hu := ParseUint_toDigits i.natAbs (by omega)
    rw [ParseInt_cons, if_pos (Or.inr rfl), hu]
    simp only []
    rw [if_neg (by simp), if_neg (by simp; omega)]
    simp only [decide_True, if_true]
    refine congrArg _ ?_
    unfold wrapInt64
    omega
  · have hu := ParseUint_toDigits i.natAbs (by omega)
    obtain ⟨c, rest, hs⟩ := List.exists_cons_of_ne_nil (toDigits_ne_nil i.natAbs)
    have hc : strconv.isDigit c = true :=
      toDigits_digits i.natAbs c (by rw [hs]; exact List.mem_cons_self _ _)
    obtain ⟨hp, hm⟩ := isDigit_ne_sign hc
    rw [hs] at hu ⊢
    rw [ParseInt_cons, if_neg (by simp [hp, hm]), hu]
    simp only []
    rw [if_neg (by simp; omega), if_neg (by simp [hm])]
    simp only [hm, decide_False, Bool.false_eq_true, if_false]
    refine congrArg _ ?_
    unfold wrapInt64
    omega

/-! ## Characters accepted by `ParseFloat` -/

theorem not_fieldChar_cases (c : Char) (h : fieldChar c = false) :
    c ∈ [',', '\t', '\n', Char.ofNat 11, Char.ofNat 12, '\r', ' '] ∨ 128 ≤ c.toNat := by
  by_cases hc : c = ','
  · left; rw [hc]; decide
  · have hs : strings.isSpace c = true := by
      unfold fieldChar at h
      simpa [hc] using h
    unfold strings.isSpace at hs
    simp only [Bool.or_eq_true, Bool.and_eq_true, decide_eq_true_eq] at hs
    have key : ∀ n : ℕ, c.toNat = n → c = Char.ofNat n := by
      intro n hn; rw [← hn, Char.ofNat_toNat]
    rcases hs with (((((((((((((h | h) | h) | h) | h) | h) | h) | h) | h) | h) | h) | h) | h) | h) | h
    · left; rw [key _ h]; decide
    · left; rw [key _ h]; decide
    · left; rw [key _ h]; decide
    · left; rw [key _ h]; decide
    · left; rw [key _ h]; decide
    · left; rw [key _ h]; decide
    all_goals (right; omega)

theorem fieldChar_of_isDigit {c : Char} (h : strconv.isDigit c = true) : fieldChar c = true := by
  by_contra hf
  rcases not_fieldChar_cases c (by simpa using hf) with hm | hbig
  · simp only [List.mem_cons, List.mem_singleton, List.not_mem_nil, or_false] at hm
    rcases hm with rfl | rfl | rfl | rfl | rfl | rfl | rfl <;> revert h <;> decide
  · unfold strconv.isDigit at h
    simp only [Bool.and_eq_true, decide_eq_true_eq] at h
    have : '9'.toNat = 57 := rfl
    omega

theorem lower_of_big {c : Char} (h : 128 ≤ c.toNat) : strconv.lower c = c := by
  unfold strconv.lower
  rw [if_neg (by omega)]

theorem fieldChar_of_isHexLetter {c : Char} (h : strconv.isHexLetter c = true) :
    fieldChar c = true := by
  by_contra hf
  rcases not_fieldChar_cases c (by simpa using hf) with hm | hbig
  · simp only [List.mem_cons, List.mem_singleton, List.not_mem_nil, or_false] at hm
    rcases hm with rfl | rfl | rfl | rfl | rfl | rfl | rfl <;> revert h <;> decide
  · unfold strconv.isHexLetter at h
    rw [lower_of_big hbig] at h
    simp only [Bool.and_eq_true, decide_eq_true_eq] at h
    have : 'f'.toNat = 102 := rfl
    omega

theorem fieldChar_of_lower_letter {c : Char}
    (h : 97 ≤ (strconv.lower c).toNat ∧ (strconv.lower c).toNat ≤ 122) : fieldChar c = true := by
  by_contra hf
  rcases not_fieldChar_cases c (by simpa using hf) with hm | hbig
  · simp only [List.mem_cons, List.mem_singleton, List.not_mem_nil, or_false] at hm
    rcases hm with rfl | rfl | rfl | rfl | rfl | rfl | rfl <;> revert h <;> decide
  · rw [lower_of_big hbig] at h
    omega

theorem readMantissa_consumes (hex : Bool) (s : List Char) : ∀ m : strconv.Mantissa,
    ∃ pre, s = pre ++ (strconv.readMantissa hex s m).2 ∧ ∀ c ∈ pre, fieldChar c = true := by
  induction s with
  | nil => intro m; exact ⟨[], by simp [strconv.readMantissa], by simp⟩
  | cons c cs ih =>
    intro m
    have step : ∀ M : strconv.Mantissa, fieldChar c = true →
        ∃ pre, c :: cs = pre ++ (strconv.readMantissa hex cs M).2
          ∧ ∀ x ∈ pre, fieldChar x = true := by
      intro M hc
      obtain ⟨pre, hp, hok⟩ := ih M
      refine ⟨c :: pre, by rw [List.cons_append, ← hp], ?_⟩
      intro x hx
      rcases List.mem_cons.mp hx with rfl | hx
      · exact hc
      · exact hok x hx
    have hc : (c = '_' ∨ c = '.' ∨ strconv.isDigit c = true ∨ strconv.isHexLetter c = true) →
        fieldChar c = true := by
      rintro (rfl | rfl | h | h)
      · decide
      · decide
      · exact fieldChar_of_isDigit h
      · exact fieldChar_of_isHexLetter h
    simp only [strconv.readMantissa]
    by_cases h1 : c = '_'
    · rw [if_pos h1]; exact step _ (hc (Or.inl h1))
    rw [if_neg h1]
    by_cases h2 : c = '.'
    · rw [if_pos h2]
      by_cases h3 : m.sawdot = true
      · rw [if_pos h3]; exact ⟨[], rfl, by simp⟩
      · rw [if_neg h3]; exact step _ (hc (Or.inr (Or.inl h2)))
    rw [if_neg h2]
    by_cases h4 : strconv.isDigit c = true
    · rw [if_pos h4]; exact step _ (hc (Or.inr (Or.inr (Or.inl h4))))
    rw [if_neg h4]
    by_cases h5 : (hex && strconv.isHexLetter c) = true
    · rw [if_pos h5]
      simp only [Bool.and_eq_true] at h5
      exact step _ (hc (Or.inr (Or.inr (Or.inr h5.2))))
    · rw [if_neg h5]; exact ⟨[], rfl, by simp⟩

theorem readExpDigits_consumes (s : List Char) : ∀ (e : ℕ) (u : Bool),
    ∃ pre, s = pre ++ (strconv.readExpDigits s e u).2.2 ∧ ∀ c ∈ pre, fieldChar c = true := by
  induction s with
  | nil => intro e u; exact ⟨[], by simp [strconv.readExpDigits], by simp⟩
  | cons c cs ih =>
    intro e u
    have step : ∀ (e1 : ℕ) (u1 : Bool), fieldChar c = true →
        ∃ pre, c :: cs = pre ++ (strconv.readExpDigits cs e1 u1).2.2
          ∧ ∀ x ∈ pre, fieldChar x = true := by
      intro e1 u1 hc
      obtain ⟨pre, hp, hok⟩ := ih e1 u1
      refine ⟨c :: pre, by rw [List.cons_append, ← hp], ?_⟩
      intro x hx
      rcases List.mem_cons.mp hx with rfl | hx
      · exact hc
      · exact hok x hx
    simp only [strconv.readExpDigits]
    by_cases h1 : strconv.isDigit c = true
    · rw [if_pos h1]; exact step _ _ (fieldChar_of_isDigit h1)
    rw [if_neg h1]
    by_cases h2 : c = '_'
    · rw [if_pos h2]; exact step _ _ (by rw [h2]; decide)
    · rw [if_neg h2]; exact ⟨[], rfl, by simp⟩

theorem readExpValue_chars (s : GoString) (neg hex : Bool) (m : strconv.Mantissa) (eneg : Bool)
    (s6 : List Char) (x : ℚ) (h : strconv.readExpValue s neg hex m eneg s6 = some x) :
    ∀ c ∈ s6, fieldChar c = true := by
  obtain ⟨pre, hp, hok⟩ := readExpDigits_consumes s6 0 m.underscores
  unfold strconv.readExpValue at h
  split at h
  · cases h
  · rename_i d0 tl
    by_cases hd : (!strconv.isDigit d0) = true
    · rw [if_pos hd] at h; cases h
    · rw [if_neg hd] at h
      split at h
      · rename_i heq
        rw [heq] at hp
        simp only [List.append_nil] at hp
        rw [hp]
        exact hok
      · cases h

theorem readExponent_chars (s : GoString) (neg hex : Bool) (m : strconv.Mantissa)
    (s3 : List Char) (x : ℚ) (h : strconv.readExponent s neg hex m s3 = some x) :
    ∀ c ∈ s3, fieldChar c = true := by
  unfold strconv.readExponent at h
  split at h
  · simp
  · rename_i c s4
    by_cases hc : strconv.lower c = (if hex = true then 'p' else 'e')
    · rw [if_pos hc] at h
      have hcok : fieldChar c = true := by
        apply fieldChar_of_lower_letter
        rw [hc]
        cases hex <;> decide
      split at h
      · cases h
      · rename_i d s5
        have htail := readExpValue_chars _ _ _ _ _ _ _ h
        intro y hy
        rcases List.mem_cons.mp hy with rfl | hy
        · exact hcok
        · by_cases hd : (decide (d = '+') || decide (d = '-')) = true
          · rw [if_pos hd] at htail
            rcases List.mem_cons.mp hy with rfl | hy
            · simp only [Bool.or_eq_true, decide_eq_true_eq] at hd
              rcases hd with rfl | rfl <;> decide
            · exact htail y hy
          · rw [if_neg hd] at htail
            exact htail y hy
    · rw [if_neg hc] at h; cases h

theorem readFloatBody_chars (s : GoString) (neg hex : Bool) (s2 : List Char) (x : ℚ)
    (h : strconv.readFloatBody s neg hex s2 = some x) : ∀ c ∈ s2, fieldChar c = true := by
  obtain ⟨pre, hp, hok⟩ := readMantissa_consumes hex s2 {}
  unfold strconv.readFloatBody at h
  split_ifs at h
  have := readExponent_chars _ _ _ _ _ _ h
  rw [hp]
  intro c hc
  rcases List.mem_append.mp hc with hc | hc
  · exact hok c hc
  · exact this c hc

theorem hasHexPrefix_chars (s1 : List Char) (h : strconv.hasHexPrefix s1 = true) :
    ∃ a b rest, s1 = a :: b :: rest ∧ fieldChar a = true ∧ fieldChar b = true := by
  unfold strconv.hasHexPrefix at h
  split at h
  · rename_i x y t
    refine ⟨'0', x, y :: t, rfl, by decide, ?_⟩
    apply fieldChar_of_lower_letter
    simp only [decide_eq_true_eq] at h
    rw [h]
    decide
  · cases h

theorem readFloat_chars (s : GoString) (x : ℚ) (h : strconv.readFloat s = some x) :
    ∀ c ∈ s, fieldChar c = true := by
  cases s with
  | nil => simp [strconv.readFloat] at h
  | cons c0 s0 =>
    simp only [strconv.readFloat] at h
    have hbody := readFloatBody_chars _ _ _ _ _ h
    -- the input after the sign
    have hs1 : ∀ c ∈ (if (decide (c0 = '+') || decide (c0 = '-')) = true then s0 else c0 :: s0),
        fieldChar c = true := by
      by_cases hx : strconv.hasHexPrefix
          (if (decide (c0 = '+') || decide (c0 = '-')) = true then s0 else c0 :: s0) = true
      · rw [if_pos hx] at hbody
        obtain ⟨a, b, rest, he, ha, hb⟩ := hasHexPrefix_chars _ hx
        rw [he] at hbody ⊢
        intro c hc
        rcases List.mem_cons.mp hc with rfl | hc
        · exact ha
        · rcases List.mem_cons.mp hc with rfl | hc
          · exact hb
          · exact hbody c (by simpa using hc)
      · rw [if_neg hx] at hbody
        exact hbody
    by_cases hsign : (decide (c0 = '+') || decide (c0 = '-')) = true
    · rw [if_pos hsign] at hs1
      intro c hc
      rcases List.mem_cons.mp hc with rfl | hc
      · simp only [Bool.or_eq_true, decide_eq_true_eq] at hsign
        rcases hsign with rfl | rfl <;> decide
      · exact hs1 c hc
    · rw [if_neg hsign] at hs1
      exact hs1

theorem foldAZ_of_big {c : Char} (h : 128 ≤ c.toNat) : strconv.foldAZ c = c := by
  unfold strconv.foldAZ
  rw [if_neg]
  have : 'Z'.toNat = 90 := rfl
  omega

theorem fieldChar_of_foldAZ_letter {c : Char}
    (h : strconv.foldAZ c ∈ ['i', 'n', 'f', 't', 'y', 'a']) : fieldChar c = true := by
  by_contra hf
  rcases not_fieldChar_cases c (by simpa using hf) with hm | hbig
  · simp only [List.mem_cons, List.mem_singleton, List.not_mem_nil, or_false] at hm
    rcases hm with rfl | rfl | rfl | rfl | rfl | rfl | rfl <;> revert h <;> decide
  · rw [foldAZ_of_big hbig] at h
    simp only [List.mem_cons, List.mem_singleton, List.not_mem_nil, or_false] at h
    rcases h with rfl | rfl | rfl | rfl | rfl | rfl <;> revert hbig <;> decide

theorem word_chars (t : List Char)
    (h : t.map strconv.foldAZ = "inf".toList ∨ t.map strconv.foldAZ = "infinity".toList
      ∨ t.map strconv.foldAZ = "nan".toList) : ∀ c ∈ t, fieldChar c = true := by
  intro c hc
  apply fieldChar_of_foldAZ_letter
  have hm : strconv.foldAZ c ∈ t.map strconv.foldAZ := List.mem_map_of_mem _ hc
  rcases h with h | h | h <;> (rw [h] at hm; revert hm; generalize strconv.foldAZ c = y; intro hm)
  · simp only [String.toList, List.mem_cons, List.mem_singleton, List.not_mem_nil, or_false] at hm ⊢
    tauto
  · simp only [String.toList, List.mem_cons, List.mem_singleton, List.not_mem_nil, or_false] at hm ⊢
    tauto
  · simp only [String.toList, List.mem_cons, List.mem_singleton, List.not_mem_nil, or_false] at hm ⊢
    tauto

theorem special_chars (s : GoString) (v : Float64) (h : strconv.special s = some v) :
    ∀ c ∈ s, fieldChar c = true := by
  unfold strconv.special at h
  split at h
  · rename_i t
    split_ifs at h with hw
    unfold strconv.isInfWord at hw
    simp only [Bool.or_eq_true, decide_eq_true_eq] at hw
    intro c hc
    rcases List.mem_cons.mp hc with rfl | hc
    · decide
    · exact word_chars t (by tauto) c hc
  · rename_i t
    split_ifs at h with hw
    unfold strconv.isInfWord at hw
    simp only [Bool.or_eq_true, decide_eq_true_eq] at hw
    intro c hc
    rcases List.mem_cons.mp hc with rfl | hc
    · decide
    · exact word_chars t (by tauto) c hc
  · split_ifs at h with hw hn
    · unfold strconv.isInfWord at hw
      simp only [Bool.or_eq_true, decide_eq_true_eq] at hw
      exact word_chars s (by tauto)
    · exact word_chars s (Or.inr (Or.inr hn))

/-- A string accepted by `ParseFloat` is not empty and holds neither a comma nor white
space. -/
theorem ParseFloat_chars (s : GoString) (v : Float64) (h : strconv.ParseFloat s = .ok v) :
    s ≠ [] ∧ ∀ c ∈ s, fieldChar c = true := by
  constructor
  · rintro rfl
    revert h
    unfold strconv.ParseFloat
    simp [strconv.special, strconv.isInfWord, strconv.readFloat]
  · unfold strconv.ParseFloat at h
    split at h
    · rename_i v0 hsp
      exact special_chars s v0 hsp
    · split at h
      · cases h
      · rename_i x hx
        exact readFloat_chars s x hx

/-! ## Round trip -/

theorem fmtInt_chars (i : ℤ) : fmtInt i ≠ [] ∧ ∀ c ∈ fmtInt i, fieldChar c = true := by
  unfold fmtInt
  split_ifs
  · refine ⟨by simp, ?_⟩
    intro c hc
    rcases List.mem_cons.mp hc with rfl | hc
    · decide
    · exact fieldChar_of_isDigit (toDigits_digits _ c hc)
  · exact ⟨toDigits_ne_nil _, fun c hc => fieldChar_of_isDigit (toDigits_digits _ c hc)⟩

theorem fieldChar_not_space {c : Char} (h : fieldChar c = true) : ¬ strings.isSpace c = true := by
  unfold fieldChar at h
  simp only [Bool.and_eq_true, Bool.not_eq_true'] at h
  simp [h.2]

theorem fieldChar_ne_comma {c : Char} (h : fieldChar c = true) : c ≠ ',' := by
  rintro rfl
  revert h
  decide

theorem TrimSpace_eq_self (s : GoString) (hne : s ≠ [])
    (hh : ¬ strings.isSpace (s.head hne) = true) (hl : ¬ strings.isSpace (s.getLast hne) = true) :
    strings.TrimSpace s = s := by
  unfold strings.TrimSpace
  have hd : s.dropWhile strings.isSpace = s := by
    cases s with
    | nil => exact absurd rfl hne
    | cons c t => exact List.dropWhile_cons_of_neg (by simpa using hh)
  rw [hd, List.rdropWhile_eq_self_iff]
  intro _
  exact hl

/-- A payload whose first field is accepted by `ParseFloat` and whose other fields are
decimal renderings of integers is left unchanged by `TrimSpace` and split back into its fields.
-/
theorem split_trim_payload (s0 : GoString) (la : Float64) (a b c d e f : ℤ)
    (h0 : strconv.ParseFloat s0 = .ok la) :
    strings.Split (strings.TrimSpace ([','].intercalate
        [s0, fmtInt a, fmtInt b, fmtInt c, fmtInt d, fmtInt e, fmtInt f])) ','
      = [s0, fmtInt a, fmtInt b, fmtInt c, fmtInt d, fmtInt e, fmtInt f] := by
  obtain ⟨hne0, hok0⟩ := ParseFloat_chars s0 la h0
  have hall : ∀ l ∈ [s0, fmtInt a, fmtInt b, fmtInt c, fmtInt d, fmtInt e, fmtInt f],
      ∀ x ∈ l, fieldChar x = true := by
    intro l hl
    simp only [List.mem_cons, List.mem_singleton, List.not_mem_nil, or_false] at hl
    rcases hl with rfl | rfl | rfl | rfl | rfl | rfl | rfl
    · exact hok0
    all_goals exact (fmtInt_chars _).2
  have hpay : [','].intercalate [s0, fmtInt a, fmtInt b, fmtInt c, fmtInt d, fmtInt e, fmtInt f]
      = s0 ++ (',' :: fmtInt a ++ ',' :: fmtInt b ++ ',' :: fmtInt c ++ ',' :: fmtInt d
          ++ ',' :: fmtInt e ++ [',']) ++ fmtInt f := by
    simp [List.intercalate]
  have htrim : strings.TrimSpace ([','].intercalate
      [s0, fmtInt a, fmtInt b, fmtInt c, fmtInt d, fmtInt e, fmtInt f])
      = [','].intercalate [s0, fmtInt a, fmtInt b, fmtInt c, fmtInt d, fmtInt e, fmtInt f] := by
    have hne : [','].intercalate [s0, fmtInt a, fmtInt b, fmtInt c, fmtInt d, fmtInt e, fmtInt f]
        ≠ [] := by
      rw [hpay]; simp [hne0]
    apply TrimSpace_eq_self _ hne
    · apply fieldChar_not_space
      apply hok0
      have : ([','].intercalate [s0, fmtInt a, fmtInt b, fmtInt c, fmtInt d, fmtInt e,
          fmtInt f]).head hne = s0.head hne0 := by
        simp only [hpay, List.append_assoc]
        rw [List.head_append_left hne0]
      rw [this]
      exact List.head_mem hne0
    · apply fieldChar_not_space
      apply (fmtInt_chars f).2
      have : ([','].intercalate [s0, fmtInt a, fmtInt b, fmtInt c, fmtInt d, fmtInt e,
          fmtInt f]).getLast hne = (fmtInt f).getLast (fmtInt_chars f).1 := by
        simp only [hpay]
        rw [List.getLast_append_right (fmtInt_chars f).1]
      rw [this]
      exact List.getLast_mem _
  rw [htrim]
  unfold strings.Split
  apply List.splitOn_intercalate
  · intro l hl hmem
    exact fieldChar_ne_comma (hall l hl ',' hmem) rfl
  · simp

/-- C9: round trip. For every load average `la`, written as any string `s0` that `ParseFloat`
reads as `la`, and every six `int64` values, the payload made of `s0` and the decimal
renderings of the integers, joined with commas in the order load average, total and used
memory, total and used disk, total and current network, is parsed by `parseStats` into the
snapshot holding exactly these seven values in that order. -/
theorem parseStats_roundtrip (s0 : GoString) (la : Float64) (a b c d e f : ℤ)
    (h0 : strconv.ParseFloat s0 = .ok la) (ha : isInt64 a) (hb : isInt64 b) (hc : isInt64 c)
    (hd : isInt64 d) (he : isInt64 e) (hf : isInt64 f) :
    parseStats ([','].intercalate
        [s0, fmtInt a, fmtInt b, fmtInt c, fmtInt d, fmtInt e, fmtInt f])
      = .ok ⟨la, a, b, c, d, e, f⟩ :=
  parseStats_eq_ok _ _ _ _ _ _ _ _ _ _ _ _ _ _ _ (split_trim_payload s0 la a b c d e f h0)
    h0 (ParseInt_fmtInt a ha) (ParseInt_fmtInt b hb) (ParseInt_fmtInt c hc)
    (ParseInt_fmtInt d hd) (ParseInt_fmtInt e he) (ParseInt_fmtInt f hf)

theorem ParseFloat_sample : strconv.ParseFloat "14.4".toList
    = .ok (.finite (8106479329266893 / 2 ^ 49)) := by
  apply ParseFloat_eq_of "14.4".toList (72 / 5) _ (by decide)
  · have : strconv.readFloat "14.4".toList
        = some (strconv.floatValue false false ⟨144, 1, true, true, false⟩ 0) := by rfl
    rw [this]
    congr 1
    norm_num [strconv.floatValue]
  · rw [roundF64_eval_pos _ 3 8106479329266893 (by norm_num) (by norm_num) (by norm_num)
      (by norm_num) (by norm_num)]
    norm_num
  · rw [abs_of_pos (by norm_num)]
    calc (8106479329266893 / 2 ^ 49 : ℚ) < 2 ^ 4 := by norm_num
      _ < 2 ^ 1024 := pow_lt_pow_right₀ (by norm_num) (by norm_num)

theorem parseStats_roundtrip_witness :
    strconv.ParseFloat "14.4".toList = .ok (.finite (8106479329266893 / 2 ^ 49))
    ∧ isInt64 8589934592 ∧ isInt64 3221225472 ∧ isInt64 239475200000 ∧ isInt64 235245200000
    ∧ isInt64 1000000000 ∧ isInt64 500000
    ∧ [','].intercalate ["14.4".toList, fmtInt 8589934592, fmtInt 3221225472,
          fmtInt 239475200000, fmtInt 235245200000, fmtInt 1000000000, fmtInt 500000]
        = "14.4,8589934592,3221225472,239475200000,235245200000,1000000000,500000".toList
    ∧ parseStats ([','].intercalate ["14.4".toList, fmtInt 8589934592, fmtInt 3221225472,
          fmtInt 239475200000, fmtInt 235245200000, fmtInt 1000000000, fmtInt 500000])
        = .ok ⟨.finite (8106479329266893 / 2 ^ 49), 8589934592, 3221225472, 239475200000,
            235245200000, 1000000000, 500000⟩ :=
  ⟨ParseFloat_sample, by decide, by decide, by decide, by decide, by decide, by decide,
    by decide,
    parseStats_roundtrip "14.4".toList _ 8589934592 3221225472 239475200000 235245200000
      1000000000 500000 ParseFloat_sample (by decide) (by decide) (by decide) (by decide)
      (by decide) (by decide)⟩

theorem parseStats_ok_iff_witness :
    strings.Split (strings.TrimSpace
        "14.4,8589934592,3221225472,239475200000,235245200000,1000000000,500000".toList) ','
      = ["14.4".toList, "8589934592".toList, "3221225472".toList, "239475200000".toList,
          "235245200000".toList, "1000000000".toList, "500000".toList]
    ∧ ((∃ st, parseStats
          "14.4,8589934592,3221225472,239475200000,235245200000,1000000000,500000".toList
            = .ok st) ↔
        ((∃ v, strconv.ParseFloat "14.4".toList = .ok v)
          ∧ ∀ p ∈ ["8589934592".toList, "3221225472".toList, "239475200000".toList,
              "235245200000".toList, "1000000000".toList, "500000".toList],
            ∃ v, strconv.ParseInt p = .ok v)) :=
  ⟨by decide,
    (parseStats_ok_iff
      "14.4,8589934592,3221225472,239475200000,235245200000,1000000000,500000".toList
      "14.4".toList "8589934592".toList "3221225472".toList "239475200000".toList
      "235245200000".toList "1000000000".toList "500000".toList (by decide)).2.1⟩

/-! ## Signs of the converted operands -/

theorem one_le_f64ofInt {t : ℤ} (ht : 0 < t) : 1 ≤ f64ofInt t := by
  unfold f64ofInt
  have h1 : (1 : ℚ) ≤ (t : ℚ) := by exact_mod_cast ht
  have := roundF64_mono h1
  rwa [roundF64_one] at this

theorem f64ofInt_nonpos {u : ℤ} (hu : u ≤ 0) : f64ofInt u ≤ 0 := by
  unfold f64ofInt
  have h1 : (u : ℚ) ≤ 0 := by exact_mod_cast hu
  have := roundF64_mono h1
  rwa [roundF64_zero] at this

theorem f64div_nonpos {a b : ℚ} (ha : a ≤ 0) (hb : 0 < b) : f64div a b ≤ 0 := by
  unfold f64div
  have h1 : a / b ≤ 0 := div_nonpos_of_nonpos_of_nonneg ha hb.le
  have := roundF64_mono h1
  rwa [roundF64_zero] at this

theorem memoryThreshold_pos : 0 < memoryThreshold := by
  rw [memoryThreshold_eq]; norm_num

theorem diskThreshold_pos : 0 < diskThreshold := by
  rw [diskThreshold_eq]; norm_num

theorem networkThreshold_pos : 0 < networkThreshold := by
  rw [networkThreshold_eq]; norm_num

theorem used_pos_of_ratio_gt {u t : ℤ} {c : ℚ} (hc : 0 < c) (ht : 0 < t)
    (h : f64div (f64ofInt u) (f64ofInt t) > c) : 0 < u := by
  by_contra hu
  push_neg at hu
  have h1 := f64div_nonpos (f64ofInt_nonpos hu)
    (lt_of_lt_of_le one_pos (one_le_f64ofInt ht))
  linarith

/-! ## The checks against exact arithmetic -/

theorem memoryCheck_eq_spec (ovf : ℚ → ℤ) (stats : ServerStats)
    (hT : stats.TotalRAM ≤ 2 ^ 45) (hU : -2 ^ 53 < stats.UsedRAM)
    (hUT : stats.UsedRAM ≤ stats.TotalRAM) : memoryCheck ovf stats = memoryCheckSpec stats := by
  unfold memoryCheck memoryCheckSpec
  by_cases hT0 : 0 < stats.TotalRAM
  · have ht : |stats.TotalRAM| < 2 ^ 53 := by rw [abs_lt]; constructor <;> omega
    have hu : |stats.UsedRAM| < 2 ^ 53 := by rw [abs_lt]; constructor <;> omega
    rw [f64ofInt_exact _ ht, f64ofInt_exact _ hu]
    unfold f64div
    have key := gt_memoryThreshold_iff stats.UsedRAM stats.TotalRAM hT0 (by omega)
    by_cases hgt : (stats.UsedRAM : ℚ) / stats.TotalRAM > 0.80
    · rw [if_pos ⟨hT0, key.mpr hgt⟩, if_pos ⟨hT0, hgt⟩,
        percent_exact ovf stats.UsedRAM stats.TotalRAM hT0 hT hgt hUT]
    · rw [if_neg (fun h => hgt (key.mp h.2)), if_neg (fun h => hgt h.2)]
  · rw [if_neg (fun h => hT0 h.1), if_neg (fun h => hT0 h.1)]

theorem diskCheck_eq_spec (ovf : ℚ → ℤ) (stats : ServerStats)
    (hT : stats.TotalDisk ≤ 2 ^ 49) (hU : |stats.UsedDisk| ≤ 2 ^ 52) :
    diskCheck ovf stats = diskCheckSpec stats := by
  unfold diskCheck diskCheckSpec
  rw [abs_le] at hU
  by_cases hT0 : 0 < stats.TotalDisk
  · have ht : |stats.TotalDisk| < 2 ^ 53 := by rw [abs_lt]; constructor <;> omega
    have hu : |stats.UsedDisk| < 2 ^ 53 := by rw [abs_lt]; constructor <;> omega
    have hf : |stats.TotalDisk - stats.UsedDisk| < 2 ^ 53 := by
      rw [abs_lt]; constructor <;> omega
    have hw : wrapInt64 (stats.TotalDisk - stats.UsedDisk) = stats.TotalDisk - stats.UsedDisk :=
      wrapInt64_of_isInt64 (by unfold isInt64; constructor <;> omega)
    rw [f64ofInt_exact _ ht, f64ofInt_exact _ hu, hw, freeMB_exact ovf _ hf]
    unfold f64div
    have key := gt_diskThreshold_iff stats.UsedDisk stats.TotalDisk hT0 hT
    by_cases hgt : (stats.UsedDisk : ℚ) / stats.TotalDisk > 0.90
    · rw [if_pos ⟨hT0, key.mpr hgt⟩, if_pos ⟨hT0, hgt⟩]
    · rw [if_neg (fun h => hgt (key.mp h.2)), if_neg (fun h => hgt h.2)]
  · rw [if_neg (fun h => hT0 h.1), if_neg (fun h => hT0 h.1)]

theorem networkCheck_eq_spec (ovf : ℚ → ℤ) (stats : ServerStats)
    (hT : stats.TotalNetwork ≤ 2 ^ 49) (hU : |stats.CurrentNetwork| ≤ 2 ^ 52) :
    networkCheck ovf stats = networkCheckSpec stats := by
  unfold networkCheck networkCheckSpec
  rw [abs_le] at hU
  by_cases hT0 : 0 < stats.TotalNetwork
  · have ht : |stats.TotalNetwork| < 2 ^ 53 := by rw [abs_lt]; constructor <;> omega
    have hu : |stats.CurrentNetwork| < 2 ^ 53 := by rw [abs_lt]; constructor <;> omega
    have hf : |stats.TotalNetwork - stats.CurrentNetwork| < 2 ^ 53 := by
      rw [abs_lt]; constructor <;> omega
    have hw : wrapInt64 (stats.TotalNetwork - stats.CurrentNetwork)
        = stats.TotalNetwork - stats.CurrentNetwork :=
      wrapInt64_of_isInt64 (by unfold isInt64; constructor <;> omega)
    rw [f64ofInt_exact _ ht, f64ofInt_exact _ hu, hw, availableMbits_exact ovf _ hf]
    unfold f64div
    have key := gt_diskThreshold_iff stats.CurrentNetwork stats.TotalNetwork hT0 hT
    rw [← networkThreshold_eq.trans diskThreshold_eq.symm] at key
    by_cases hgt : (stats.CurrentNetwork : ℚ) / stats.TotalNetwork > 0.90
    · rw [if_pos ⟨hT0, key.mpr hgt⟩, if_pos ⟨hT0, hgt⟩]
    · rw [if_neg (fun h => hgt (key.mp h.2)), if_neg (fun h => hgt h.2)]
  · rw [if_neg (fun h => hT0 h.1), if_neg (fun h => hT0 h.1)]

/-! ## The busy snapshot -/

theorem roundHalfEven_natCast (n : ℕ) : roundHalfEven (n : ℚ) = n := by
  have := roundHalfEven_intCast (n : ℤ)
  simpa using this

theorem loadAvgCheck_busy (a b c d e f : ℤ) :
    loadAvgCheck ⟨.finite 50, a, b, c, d, e, f⟩ = ["Load Average is too high: 50".toList] := by
  unfold loadAvgCheck
  have hg : Float64.gt (Float64.finite 50) (Float64.finite loadAvgThreshold) = true := by
    rw [Float64.gt_finite_iff]
    left
    exact ⟨50, rfl, by unfold loadAvgThreshold; norm_num⟩
  simp only [hg, if_true]
  have hr : roundHalfEven (50 : ℚ) = 50 := by
    have := roundHalfEven_natCast 50
    simpa using this
  have hl : loadAvgLine (.finite 50) = "Load Average is too high: 50".toList := by
    unfold loadAvgLine Float64.fmt0
    dsimp only
    rw [if_neg (by norm_num), hr]
    decide
  rw [hl]

theorem checkThresholds_busy (ovf : ℚ → ℤ) :
    checkThresholds ovf ⟨.finite 50, 1000, 900, 1000, 950, 1000, 950⟩
      = ["Load Average is too high: 50".toList, "Memory usage too high: 90%".toList,
          "Free disk space is too low: 0 Mb left".toList,
          "Network bandwidth usage high: 0 Mbit/s available".toList] := by
  rw [checkThresholds_eq, loadAvgCheck_busy,
    memoryCheck_eq_spec ovf _ (by norm_num) (by norm_num) (by norm_num),
    diskCheck_eq_spec ovf _ (by norm_num) (by norm_num),
    networkCheck_eq_spec ovf _ (by norm_num) (by norm_num)]
  have hm : memoryCheckSpec ⟨.finite 50, 1000, 900, 1000, 950, 1000, 950⟩
      = ["Memory usage too high: 90%".toList] := by
    unfold memoryCheckSpec
    have hf : ⌊((900 : ℤ) : ℚ) / ((1000 : ℤ) : ℚ) * 100⌋ = 90 := by
      rw [Int.floor_eq_iff]; norm_num
    simp only [hf]
    rw [if_pos (by norm_num)]
    decide
  have hd : diskCheckSpec ⟨.finite 50, 1000, 900, 1000, 950, 1000, 950⟩
      = ["Free disk space is too low: 0 Mb left".toList] := by
    unfold diskCheckSpec
    have hf : truncQ ((((1000 : ℤ) - 950 : ℤ) : ℚ) / (1024 * 1024)) = 0 := by
      rw [truncQ_of_nonneg (by norm_num), Int.floor_eq_iff]; norm_num
    simp only [hf]
    rw [if_pos (by norm_num)]
    decide
  have hn : networkCheckSpec ⟨.finite 50, 1000, 900, 1000, 950, 1000, 950⟩
      = ["Network bandwidth usage high: 0 Mbit/s available".toList] := by
    unfold networkCheckSpec
    have hf : truncQ ((((1000 : ℤ) - 950 : ℤ) : ℚ) / 1000000) = 0 := by
      rw [truncQ_of_nonneg (by norm_num), Int.floor_eq_iff]; norm_num
    simp only [hf]
    rw [if_pos (by norm_num)]
    decide
  rw [hm, hd, hn]
  rfl

theorem parseStats_busy_payload :
    parseStats "50,1000,900,1000,950,1000,950".toList
      = .ok ⟨.finite 50, 1000, 900, 1000, 950, 1000, 950⟩ := by
  refine parseStats_eq_ok _ "50".toList "1000".toList "900".toList "1000".toList "950".toList
    "1000".toList "950".toList _ _ _ _ _ _ _ (by decide) ?_ (by decide) (by decide)
    (by decide) (by decide) (by decide) (by decide)
  exact_mod_cast ParseFloat_nat "50".toList 50 (by decide) (by rfl) (by norm_num)

theorem check_lengths (ovf : ℚ → ℤ) (stats : ServerStats) :
    (loadAvgCheck stats).length ≤ 1 ∧ (memoryCheck ovf stats).length ≤ 1
      ∧ (diskCheck ovf stats).length ≤ 1 ∧ (networkCheck ovf stats).length ≤ 1 := by
  unfold loadAvgCheck memoryCheck diskCheck networkCheck
  refine ⟨?_, ?_, ?_, ?_⟩ <;> split_ifs <;> simp

theorem diskCheck_fires {ovf : ℚ → ℤ} {stats : ServerStats}
    (h : ∃ l ∈ checkThresholds ovf stats, isDiskLine l = true) :
    0 < stats.TotalDisk ∧ 0 < stats.UsedDisk := by
  rw [exists_mem_iff_filter_ne_nil, filter_isDiskLine] at h
  unfold diskCheck at h
  by_cases hc : stats.TotalDisk > 0 ∧
      f64div (f64ofInt stats.UsedDisk) (f64ofInt stats.TotalDisk) > diskThreshold
  · exact ⟨hc.1, used_pos_of_ratio_gt diskThreshold_pos hc.1 hc.2⟩
  · rw [if_neg hc] at h
    exact absurd rfl h

theorem networkCheck_fires {ovf : ℚ → ℤ} {stats : ServerStats}
    (h : ∃ l ∈ checkThresholds ovf stats, isNetworkLine l = true) :
    0 < stats.TotalNetwork ∧ 0 < stats.CurrentNetwork := by
  rw [exists_mem_iff_filter_ne_nil, filter_isNetworkLine] at h
  unfold networkCheck at h
  by_cases hc : stats.TotalNetwork > 0 ∧
      f64div (f64ofInt stats.CurrentNetwork) (f64ofInt stats.TotalNetwork) > networkThreshold
  · exact ⟨hc.1, used_pos_of_ratio_gt networkThreshold_pos hc.1 hc.2⟩
  · rw [if_neg hc] at h
    exact absurd rfl h

theorem wrapInt64_sub_of_pos {t u : ℤ} (ht : isInt64 t) (hu : isInt64 u) (ht0 : 0 < t)
    (hu0 : 0 < u) : wrapInt64 (t - u) = t - u := by
  apply wrapInt64_of_isInt64
  unfold isInt64 at *
  constructor <;> omega

/-- C11: when TotalRAM is 0 `checkThresholds` writes no memory line, when TotalDisk is 0 no
disk line and when TotalNetwork is 0 no network line, whatever the other fields are; and
whenever a guard `Total > 0` holds, the divisor `float64(Total)` of the guarded division is
at least 1, hence not zero (the other two divisors are the constants 1024*1024 and
1000000). -/
theorem checkThresholds_zero_total (ovf : ℚ → ℤ) (stats : ServerStats) :
    (stats.TotalRAM = 0 → ∀ l ∈ checkThresholds ovf stats, isMemoryLine l = false)
    ∧ (stats.TotalDisk = 0 → ∀ l ∈ checkThresholds ovf stats, isDiskLine l = false)
    ∧ (stats.TotalNetwork = 0 → ∀ l ∈ checkThresholds ovf stats, isNetworkLine l = false)
    ∧ (stats.TotalRAM > 0 → 1 ≤ f64ofInt stats.TotalRAM ∧ f64ofInt stats.TotalRAM ≠ 0)
    ∧ (stats.TotalDisk > 0 → 1 ≤ f64ofInt stats.TotalDisk ∧ f64ofInt stats.TotalDisk ≠ 0)
    ∧ (stats.TotalNetwork > 0 →
        1 ≤ f64ofInt stats.TotalNetwork ∧ f64ofInt stats.TotalNetwork ≠ 0) := by
  have hne : ∀ t : ℤ, t > 0 → 1 ≤ f64ofInt t ∧ f64ofInt t ≠ 0 := fun t ht =>
    ⟨one_le_f64ofInt ht, ne_of_gt (lt_of_lt_of_le one_pos (one_le_f64ofInt ht))⟩
  refine ⟨?_, ?_, ?_, hne _, hne _, hne _⟩
  · intro h0
    apply not_mem_of_check_eq_nil
    rw [filter_isMemoryLine]
    unfold memoryCheck
    rw [if_neg (fun h => by have := h.1; omega)]
  · intro h0
    apply not_mem_of_check_eq_nil
    rw [filter_isDiskLine]
    unfold diskCheck
    rw [if_neg (fun h => by have := h.1; omega)]
  · intro h0
    apply not_mem_of_check_eq_nil
    rw [filter_isNetworkLine]
    unfold networkCheck
    rw [if_neg (fun h => by have := h.1; omega)]

theorem checkThresholds_zero_total_witness :
    (∀ l ∈ checkThresholds (fun _ => 0) ⟨.finite 0, 0, 5, 0, 5, 0, 5⟩, isMemoryLine l = false)
    ∧ (∀ l ∈ checkThresholds (fun _ => 0) ⟨.finite 0, 0, 5, 0, 5, 0, 5⟩, isDiskLine l = false)
    ∧ (∀ l ∈ checkThresholds (fun _ => 0) ⟨.finite 0, 0, 5, 0, 5, 0, 5⟩,
        isNetworkLine l = false)
    ∧ ((8 : ℤ) > 0 ∧ 1 ≤ f64ofInt 8 ∧ f64ofInt 8 ≠ 0) :=
  ⟨(checkThresholds_zero_total (fun _ => 0) ⟨.finite 0, 0, 5, 0, 5, 0, 5⟩).1 rfl,
    (checkThresholds_zero_total (fun _ => 0) ⟨.finite 0, 0, 5, 0, 5, 0, 5⟩).2.1 rfl,
    (checkThresholds_zero_total (fun _ => 0) ⟨.finite 0, 0, 5, 0, 5, 0, 5⟩).2.2.1 rfl,
    by decide,
    (checkThresholds_zero_total (fun _ => 0) ⟨.finite 0, 8, 5, 8, 5, 8, 5⟩).2.2.2.1
      (by decide)⟩

/-- C12: the output of `checkThresholds` is the concatenation, in the order load average,
memory, disk, network, of the lines of four checks, each of which gives at most one line, so
the output has at most 4 lines; the lines of each kind in the output are the same for two
snapshots that agree on the fields of that check, whatever their other fields; and one
snapshot gives four lines. -/
theorem checkThresholds_four_checks (ovf : ℚ → ℤ) :
    (∀ stats : ServerStats,
      checkThresholds ovf stats =
        loadAvgCheck stats ++ memoryCheck ovf stats ++ diskCheck ovf stats
          ++ networkCheck ovf stats
      ∧ (loadAvgCheck stats).length ≤ 1 ∧ (memoryCheck ovf stats).length ≤ 1
      ∧ (diskCheck ovf stats).length ≤ 1 ∧ (networkCheck ovf stats).length ≤ 1
      ∧ (checkThresholds ovf stats).length ≤ 4)
    ∧ (∀ s s' : ServerStats, s.LoadAvg = s'.LoadAvg →
        (checkThresholds ovf s).filter isLoadAvgLine
          = (checkThresholds ovf s').filter isLoadAvgLine)
    ∧ (∀ s s' : ServerStats, s.TotalRAM = s'.TotalRAM → s.UsedRAM = s'.UsedRAM →
        (checkThresholds ovf s).filter isMemoryLine
          = (checkThresholds ovf s').filter isMemoryLine)
    ∧ (∀ s s' : ServerStats, s.TotalDisk = s'.TotalDisk → s.UsedDisk = s'.UsedDisk →
        (checkThresholds ovf s).filter isDiskLine
          = (checkThresholds ovf s').filter isDiskLine)
    ∧ (∀ s s' : ServerStats, s.TotalNetwork = s'.TotalNetwork →
        s.CurrentNetwork = s'.CurrentNetwork →
        (checkThresholds ovf s).filter isNetworkLine
          = (checkThresholds ovf s').filter isNetworkLine)
    ∧ ∃ stats : ServerStats, (checkThresholds ovf stats).length = 4 := by
  refine ⟨?_, ?_, ?_, ?_, ?_, ?_⟩
  · intro stats
    obtain ⟨h1, h2, h3, h4⟩ := check_lengths ovf stats
    refine ⟨checkThresholds_eq ovf stats, h1, h2, h3, h4, ?_⟩
    rw [checkThresholds_eq]
    simp only [List.length_append]
    omega
  · intro s s' h
    rw [filter_isLoadAvgLine, filter_isLoadAvgLine]
    unfold loadAvgCheck
    rw [h]
  · intro s s' h1 h2
    rw [filter_isMemoryLine, filter_isMemoryLine]
    unfold memoryCheck
    rw [h1, h2]
  · intro s s' h1 h2
    rw [filter_isDiskLine, filter_isDiskLine]
    unfold diskCheck
    rw [h1, h2]
  · intro s s' h1 h2
    rw [filter_isNetworkLine, filter_isNetworkLine]
    unfold networkCheck
    rw [h1, h2]
  · exact ⟨⟨.finite 50, 1000, 900, 1000, 950, 1000, 950⟩, by rw [checkThresholds_busy]; rfl⟩

theorem checkThresholds_four_checks_witness :
    (checkThresholds (fun _ => 0) ⟨.finite 0, 5, 4, 10, 9, 10, 9⟩).filter isMemoryLine
      = (checkThresholds (fun _ => 0) ⟨.finite 50, 5, 4, 1000, 950, 0, 7⟩).filter isMemoryLine :=
  (checkThresholds_four_checks (fun _ => 0)).2.2.1 ⟨.finite 0, 5, 4, 10, 9, 10, 9⟩
    ⟨.finite 50, 5, 4, 1000, 950, 0, 7⟩ rfl rfl

/-- C13: `parseStats` turns the payload `50,1000,900,1000,950,1000,950` into the snapshot
(50, 1000, 900, 1000, 950, 1000, 950), on which `checkThresholds` writes exactly four
lines, in this order: "Load Average is too high: 50", "Memory usage too high: 90%",
"Free disk space is too low: 0 Mb left", "Network bandwidth usage high: 0 Mbit/s
available". -/
theorem parseStats_checkThresholds_busy (ovf : ℚ → ℤ) :
    parseStats "50,1000,900,1000,950,1000,950".toList
      = .ok ⟨.finite 50, 1000, 900, 1000, 950, 1000, 950⟩
    ∧ checkThresholds ovf ⟨.finite 50, 1000, 900, 1000, 950, 1000, 950⟩
      = ["Load Average is too high: 50".toList, "Memory usage too high: 90%".toList,
          "Free disk space is too low: 0 Mb left".toList,
          "Network bandwidth usage high: 0 Mbit/s available".toList] :=
  ⟨parseStats_busy_payload, checkThresholds_busy ovf⟩

/-- C20: on a snapshot of `int64` values, when `checkThresholds` writes the disk line then
TotalDisk > 0 and UsedDisk > 0, and the 64-bit subtraction TotalDisk - UsedDisk gives the
mathematical difference (no wrap-around); likewise, when it writes the network line then
TotalNetwork > 0 and CurrentNetwork > 0 and TotalNetwork - CurrentNetwork does not wrap. -/
theorem checkThresholds_sub_no_wrap (ovf : ℚ → ℤ) (stats : ServerStats) (hwf : stats.WF) :
    ((∃ l ∈ checkThresholds ovf stats, isDiskLine l = true) →
      0 < stats.TotalDisk ∧ 0 < stats.UsedDisk
        ∧ wrapInt64 (stats.TotalDisk - stats.UsedDisk) = stats.TotalDisk - stats.UsedDisk)
    ∧ ((∃ l ∈ checkThresholds ovf stats, isNetworkLine l = true) →
      0 < stats.TotalNetwork ∧ 0 < stats.CurrentNetwork
        ∧ wrapInt64 (stats.TotalNetwork - stats.CurrentNetwork)
            = stats.TotalNetwork - stats.CurrentNetwork) := by
  obtain ⟨_, _, h3, h4, h5, h6⟩ := hwf
  constructor
  · intro h
    obtain ⟨ht, hu⟩ := diskCheck_fires h
    exact ⟨ht, hu, wrapInt64_sub_of_pos h3 h4 ht hu⟩
  · intro h
    obtain ⟨ht, hu⟩ := networkCheck_fires h
    exact ⟨ht, hu, wrapInt64_sub_of_pos h5 h6 ht hu⟩

theorem checkThresholds_sub_no_wrap_witness :
    ServerStats.WF ⟨.finite 50, 1000, 900, 1000, 950, 1000, 950⟩
    ∧ (∃ l ∈ checkThresholds (fun _ => 0) ⟨.finite 50, 1000, 900, 1000, 950, 1000, 950⟩,
        isDiskLine l = true)
    ∧ (∃ l ∈ checkThresholds (fun _ => 0) ⟨.finite 50, 1000, 900, 1000, 950, 1000, 950⟩,
        isNetworkLine l = true)
    ∧ ((0 : ℤ) < 1000 ∧ (0 : ℤ) < 950 ∧ wrapInt64 (1000 - 950) = 1000 - 950)
    ∧ ((0 : ℤ) < 1000 ∧ (0 : ℤ) < 950 ∧ wrapInt64 (1000 - 950) = 1000 - 950) :=
  have hwf : ServerStats.WF ⟨.finite 50, 1000, 900, 1000, 950, 1000, 950⟩ := by
    unfold ServerStats.WF; decide
  have hd : ∃ l ∈ checkThresholds (fun _ => 0) ⟨.finite 50, 1000, 900, 1000, 950, 1000, 950⟩,
      isDiskLine l = true :=
    ⟨"Free disk space is too low: 0 Mb left".toList, by rw [checkThresholds_busy]; decide,
      by decide⟩
  have hn : ∃ l ∈ checkThresholds (fun _ => 0) ⟨.finite 50, 1000, 900, 1000, 950, 1000, 950⟩,
      isNetworkLine l = true :=
    ⟨"Network bandwidth usage high: 0 Mbit/s available".toList,
      by rw [checkThresholds_busy]; decide, by decide⟩
  ⟨hwf, hd, hn,
    (checkThresholds_sub_no_wrap (fun _ => 0) ⟨.finite 50, 1000, 900, 1000, 950, 1000, 950⟩
      hwf).1 hd,
    (checkThresholds_sub_no_wrap (fun _ => 0) ⟨.finite 50, 1000, 900, 1000, 950, 1000, 950⟩
      hwf).2 hn⟩

/-! ## Quiet snapshots -/

theorem loadAvgCheck_quiet (stats : ServerStats)
    (hL : (∃ q, stats.LoadAvg = .finite q ∧ q ≤ 30) ∨ stats.LoadAvg = .negInf) :
    loadAvgCheck stats = [] := by
  unfold loadAvgCheck
  rw [if_neg]
  rw [Float64.gt_finite_iff]
  rintro (⟨q, hq, hlt⟩ | hinf)
  · rcases hL with ⟨q', hq', hle⟩ | hneg
    · rw [hq] at hq'
      injection hq' with e
      unfold loadAvgThreshold at hlt
      rw [e] at hlt
      linarith
    · rw [hq] at hneg
      exact Float64.noConfusion hneg
  · rcases hL with ⟨q', hq', _⟩ | hneg
    · rw [hinf] at hq'
      exact Float64.noConfusion hq'
    · rw [hinf] at hneg
      exact Float64.noConfusion hneg

theorem f64div_le_of_ratio_le (u t : ℤ) (c : ℚ) (hu : |u| < 2 ^ 53) (ht : |t| < 2 ^ 53)
    (h : (u : ℚ) / t ≤ c) : f64div (f64ofInt u) (f64ofInt t) ≤ roundF64 c := by
  rw [f64ofInt_exact u hu, f64ofInt_exact t ht]
  unfold f64div
  exact roundF64_mono h

theorem checkThresholds_quiet (ovf : ℚ → ℤ) (stats : ServerStats)
    (hL : (∃ q, stats.LoadAvg = .finite q ∧ q ≤ 30) ∨ stats.LoadAvg = .negInf)
    (h1 : |stats.TotalRAM| < 2 ^ 53) (h2 : |stats.UsedRAM| < 2 ^ 53)
    (h3 : |stats.TotalDisk| < 2 ^ 53) (h4 : |stats.UsedDisk| < 2 ^ 53)
    (h5 : |stats.TotalNetwork| < 2 ^ 53) (h6 : |stats.CurrentNetwork| < 2 ^ 53)
    (hM : stats.TotalRAM > 0 → (stats.UsedRAM : ℚ) / stats.TotalRAM ≤ 0.80)
    (hD : stats.TotalDisk > 0 → (stats.UsedDisk : ℚ) / stats.TotalDisk ≤ 0.90)
    (hN : stats.TotalNetwork > 0 →
      (stats.CurrentNetwork : ℚ) / stats.TotalNetwork ≤ 0.90) :
    checkThresholds ovf stats = [] := by
  have hm : memoryCheck ovf stats = [] := by
    unfold memoryCheck
    rw [if_neg]
    rintro ⟨hpos, hgt⟩
    have := f64div_le_of_ratio_le _ _ _ h2 h1 (hM hpos)
    unfold memoryThreshold at hgt
    linarith
  have hd : diskCheck ovf stats = [] := by
    unfold diskCheck
    rw [if_neg]
    rintro ⟨hpos, hgt⟩
    have := f64div_le_of_ratio_le _ _ _ h4 h3 (hD hpos)
    unfold diskThreshold at hgt
    linarith
  have hn : networkCheck ovf stats = [] := by
    unfold networkCheck
    rw [if_neg]
    rintro ⟨hpos, hgt⟩
    have := f64div_le_of_ratio_le _ _ _ h6 h5 (hN hpos)
    unfold networkThreshold at hgt
    linarith
  rw [checkThresholds_eq, loadAvgCheck_quiet stats hL, hm, hd, hn]
  rfl

/-- C14, as amended: `parseStats` turns the payload `10,1000,100,1000,100,1000,100` into the
snapshot (10, 1000, 100, 1000, 100, 1000, 100), on which `checkThresholds` writes nothing;
and `checkThresholds` writes nothing on every snapshot whose six integers have magnitude
below 2^53, whose load average is at most 30 and whose usage ratios (for the metrics with a
positive total) are at most 0.80 for memory and 0.90 for disk and network. -/
theorem parseStats_checkThresholds_quiet (ovf : ℚ → ℤ) :
    parseStats "10,1000,100,1000,100,1000,100".toList
      = .ok ⟨.finite 10, 1000, 100, 1000, 100, 1000, 100⟩
    ∧ checkThresholds ovf ⟨.finite 10, 1000, 100, 1000, 100, 1000, 100⟩ = []
    ∧ ∀ stats : ServerStats,
        ((∃ q, stats.LoadAvg = .finite q ∧ q ≤ 30) ∨ stats.LoadAvg = .negInf) →
        |stats.TotalRAM| < 2 ^ 53 → |stats.UsedRAM| < 2 ^ 53 →
        |stats.TotalDisk| < 2 ^ 53 → |stats.UsedDisk| < 2 ^ 53 →
        |stats.TotalNetwork| < 2 ^ 53 → |stats.CurrentNetwork| < 2 ^ 53 →
        (stats.TotalRAM > 0 → (stats.UsedRAM : ℚ) / stats.TotalRAM ≤ 0.80) →
        (stats.TotalDisk > 0 → (stats.UsedDisk : ℚ) / stats.TotalDisk ≤ 0.90) →
        (stats.TotalNetwork > 0 → (stats.CurrentNetwork : ℚ) / stats.TotalNetwork ≤ 0.90) →
        checkThresholds ovf stats = [] := by
  refine ⟨parseStats_quiet_payload, ?_, fun stats => checkThresholds_quiet ovf stats⟩
  exact checkThresholds_quiet ovf _ (Or.inl ⟨10, rfl, by norm_num⟩) (by norm_num)
    (by norm_num) (by norm_num) (by norm_num) (by norm_num) (by norm_num)
    (fun _ => by norm_num) (fun _ => by norm_num) (fun _ => by norm_num)

theorem parseStats_checkThresholds_quiet_witness :
    ((∃ q, (Float64.finite 30) = .finite q ∧ q ≤ 30) ∨ (Float64.finite 30) = .negInf)
    ∧ |(5 : ℤ)| < 2 ^ 53 ∧ |(4 : ℤ)| < 2 ^ 53 ∧ |(10 : ℤ)| < 2 ^ 53 ∧ |(9 : ℤ)| < 2 ^ 53
    ∧ |(0 : ℤ)| < 2 ^ 53 ∧ |(7 : ℤ)| < 2 ^ 53
    ∧ (((4 : ℤ) : ℚ) / ((5 : ℤ) : ℚ) ≤ 0.80) ∧ (((9 : ℤ) : ℚ) / ((10 : ℤ) : ℚ) ≤ 0.90)
    ∧ checkThresholds (fun _ => 0) ⟨.finite 30, 5, 4, 10, 9, 0, 7⟩ = [] :=
  ⟨Or.inl ⟨30, rfl, le_refl _⟩, by norm_num, by norm_num, by norm_num, by norm_num,
    by norm_num, by norm_num, by norm_num, by norm_num,
    (parseStats_checkThresholds_quiet (fun _ => 0)).2.2 ⟨.finite 30, 5, 4, 10, 9, 0, 7⟩
      (Or.inl ⟨30, rfl, le_refl _⟩) (by norm_num) (by norm_num) (by norm_num) (by norm_num)
      (by norm_num) (by norm_num) (fun _ => by norm_num) (fun _ => by norm_num)
      (fun h => absurd h (by decide))⟩

/-- C14, counterexample: on the snapshot with load average 10, memory 100 of 1000, network
100 of 1000, TotalDisk = 1000000000000000959 and UsedDisk = 900000000000000863 (all `int64`)
every usage ratio is at or below its threshold, the disk ratio being strictly below 0.90,
and yet `checkThresholds` writes the disk line: both conversions to `float64` round to a
multiple of 128 and the quotient of the rounded values exceeds the threshold. -/
theorem checkThresholds_quiet_large :
    ServerStats.WF ⟨.finite 10, 1000, 100, 1000000000000000959, 900000000000000863, 1000, 100⟩
    ∧ (10 : ℚ) ≤ 30
    ∧ ((100 : ℤ) : ℚ) / ((1000 : ℤ) : ℚ) ≤ 0.80
    ∧ ((900000000000000863 : ℤ) : ℚ) / ((1000000000000000959 : ℤ) : ℚ) < 0.90
    ∧ ((100 : ℤ) : ℚ) / ((1000 : ℤ) : ℚ) ≤ 0.90
    ∧ checkThresholds (fun _ => 0)
        ⟨.finite 10, 1000, 100, 1000000000000000959, 900000000000000863, 1000, 100⟩
        = [diskLine 95367431640] := by
  refine ⟨by unfold ServerStats.WF isInt64; norm_num, by norm_num, by norm_num, by norm_num,
    by norm_num, ?_⟩
  have hu : f64ofInt 900000000000000863 = 900000000000000896 := by
    unfold f64ofInt
    rw [roundF64_eval_pos _ 59 7031250000000007 (by norm_num) (by norm_num) (by norm_num)
      (by norm_num) (by norm_num)]
    norm_num
  have ht : f64ofInt 1000000000000000959 = 1000000000000000896 := by
    unfold f64ofInt
    rw [roundF64_eval_pos _ 59 7812500000000007 (by norm_num) (by norm_num) (by norm_num)
      (by norm_num) (by norm_num)]
    norm_num
  have hd : f64div (900000000000000896 : ℚ) 1000000000000000896
      = 8106479329266894 / 2 ^ 53 := by
    unfold f64div
    rw [roundF64_eval_pos _ (-1) 8106479329266894 (by norm_num) (by norm_num) (by norm_num)
      (by norm_num) (by norm_num)]
    norm_num
  have hw : wrapInt64 (1000000000000000959 - 900000000000000863) = 100000000000000096 := by
    unfold wrapInt64; norm_num
  have hf : f64ofInt 100000000000000096 = 100000000000000096 := by
    unfold f64ofInt
    rw [roundF64_eval_pos _ 56 6250000000000006 (by norm_num) (by norm_num) (by norm_num)
      (by norm_num) (by norm_num)]
    norm_num
  have hq : f64div (100000000000000096 : ℚ) (1024 * 1024) = 3125000000000003 / 32768 := by
    unfold f64div
    rw [roundF64_eval_pos _ 36 6250000000000006 (by norm_num) (by norm_num) (by norm_num)
      (by norm_num) (by norm_num)]
    norm_num
  have hi : f64toInt (fun _ => 0) (3125000000000003 / 32768 : ℚ) = 95367431640 :=
    f64toInt_eval _ _ 95367431640 (by norm_num) (by norm_num) (by norm_num) (by norm_num)
  have hdisk : diskCheck (fun _ => 0)
      ⟨.finite 10, 1000, 100, 1000000000000000959, 900000000000000863, 1000, 100⟩
      = [diskLine 95367431640] := by
    unfold diskCheck
    simp only [Int.cast_ofNat] at hu ht hf
    simp only [hu, ht, hd, hw, hf, hq, hi, diskThreshold_eq]
    rw [if_pos]
    norm_num
  have hl : loadAvgCheck
      ⟨.finite 10, 1000, 100, 1000000000000000959, 900000000000000863, 1000, 100⟩ = [] :=
    loadAvgCheck_quiet _ (Or.inl ⟨10, rfl, by norm_num⟩)
  have hm : memoryCheck (fun _ => 0)
      ⟨.finite 10, 1000, 100, 1000000000000000959, 900000000000000863, 1000, 100⟩ = [] := by
    rw [memoryCheck_eq_spec _ _ (by norm_num) (by norm_num) (by norm_num)]
    unfold memoryCheckSpec
    rw [if_neg]
    norm_num
  have hn : networkCheck (fun _ => 0)
      ⟨.finite 10, 1000, 100, 1000000000000000959, 900000000000000863, 1000, 100⟩ = [] := by
    rw [networkCheck_eq_spec _ _ (by norm_num) (by norm_num)]
    unfold networkCheckSpec
    rw [if_neg]
    norm_num
  rw [checkThresholds_eq, hl, hm, hdisk, hn]
  rfl

/-! ## The number shown for the load average -/

theorem roundHalfEven_nearest (q : ℚ) (m : ℤ) : |q - roundHalfEven q| ≤ |q - m| := by
  by_contra hlt
  push_neg at hlt
  have he := roundHalfEven_error q
  have hne : m ≠ roundHalfEven q := by
    rintro rfl
    exact lt_irrefl _ hlt
  have h1 : (1 : ℤ) ≤ |m - roundHalfEven q| := Int.one_le_abs (sub_ne_zero.mpr hne)
  have h2 : (1 : ℚ) ≤ |((m - roundHalfEven q : ℤ) : ℚ)| := by
    rw [← Int.cast_abs]
    exact_mod_cast h1
  have h3 : ((m - roundHalfEven q : ℤ) : ℚ) = (q - roundHalfEven q) - (q - m) := by
    push_cast; ring
  rw [h3] at h2
  have h4 := abs_sub (q - roundHalfEven q) (q - m)
  linarith

theorem roundHalfEven_zero : roundHalfEven 0 = 0 := by
  have := roundHalfEven_intCast 0
  simpa using this

theorem fmt0_finite_of_nonneg (q : ℚ) (hq : 0 ≤ q) :
    Float64.fmt0 (.finite q) = fmtInt (roundHalfEven q) := by
  have hn : 0 ≤ roundHalfEven q := by
    have := roundHalfEven_mono hq
    rwa [roundHalfEven_zero] at this
  unfold Float64.fmt0 fmtInt
  dsimp only
  rw [if_neg (not_lt.mpr hq), if_neg (not_lt.mpr hn)]

theorem loadAvgCheck_finite (stats : ServerStats) (q : ℚ) (hq : stats.LoadAvg = .finite q)
    (h30 : 30 < q) :
    loadAvgCheck stats = ["Load Average is too high: ".toList ++ fmtInt (roundHalfEven q)] := by
  unfold loadAvgCheck
  have hg : stats.LoadAvg.gt (Float64.finite loadAvgThreshold) = true := by
    rw [Float64.gt_finite_iff]
    exact Or.inl ⟨q, hq, by unfold loadAvgThreshold; exact h30⟩
  rw [if_pos hg, hq]
  unfold loadAvgLine
  rw [fmt0_finite_of_nonneg q (by linarith)]

theorem loadAvgCheck_posInf (stats : ServerStats) (hq : stats.LoadAvg = .posInf) :
    loadAvgCheck stats = ["Load Average is too high: +Inf".toList] := by
  unfold loadAvgCheck
  have hg : stats.LoadAvg.gt (Float64.finite loadAvgThreshold) = true := by
    rw [Float64.gt_finite_iff]
    exact Or.inr hq
  rw [if_pos hg, hq]
  rfl

/-- C15, as amended: for every snapshot whose load average is a finite value `q` above 30,
the one "Load Average is too high" line written by `checkThresholds` shows the integer
`roundHalfEven q` in decimal: an integer nearest to `q` (no integer is closer), and the
even one of the two when `q` lies exactly halfway between two integers. So 30.5 is shown
as 30, 31.5 as 32 and 30.75 as 31 (truncation would give 30, 31 and 30). For a load
average of positive infinity the line shows `+Inf`. -/
theorem checkThresholds_loadAvg_rounded (ovf : ℚ → ℤ) :
    (∀ (stats : ServerStats) (q : ℚ), stats.LoadAvg = .finite q → 30 < q →
      (checkThresholds ovf stats).filter isLoadAvgLine
          = ["Load Average is too high: ".toList ++ fmtInt (roundHalfEven q)]
      ∧ (∀ m : ℤ, |q - roundHalfEven q| ≤ |q - m|)
      ∧ (|q - roundHalfEven q| = 1 / 2 → roundHalfEven q % 2 = 0))
    ∧ (∀ a b c d e f : ℤ,
        (checkThresholds ovf ⟨.finite (61 / 2), a, b, c, d, e, f⟩).filter isLoadAvgLine
          = ["Load Average is too high: 30".toList])
    ∧ (∀ a b c d e f : ℤ,
        (checkThresholds ovf ⟨.finite (63 / 2), a, b, c, d, e, f⟩).filter isLoadAvgLine
          = ["Load Average is too high: 32".toList])
    ∧ (∀ a b c d e f : ℤ,
        (checkThresholds ovf ⟨.finite (123 / 4), a, b, c, d, e, f⟩).filter isLoadAvgLine
          = ["Load Average is too high: 31".toList])
    ∧ (∀ stats : ServerStats, stats.LoadAvg = .posInf →
        (checkThresholds ovf stats).filter isLoadAvgLine
          = ["Load Average is too high: +Inf".toList]) := by
  refine ⟨?_, ?_, ?_, ?_, ?_⟩
  · intro stats q hq h30
    refine ⟨?_, roundHalfEven_nearest q, ?_⟩
    · rw [filter_isLoadAvgLine, loadAvgCheck_finite stats q hq h30]
    · intro h
      rcases roundHalfEven_spec q with h1 | ⟨_, h2⟩
      · rw [h] at h1
        exact absurd h1 (lt_irrefl _)
      · exact h2
  · intro a b c d e f
    have hr : roundHalfEven (61 / 2 : ℚ) = 30 :=
      roundHalfEven_unique _ 30 (Or.inr ⟨by norm_num [abs_of_pos], by decide⟩)
    rw [filter_isLoadAvgLine, loadAvgCheck_finite _ (61 / 2) rfl (by norm_num), hr]
    decide
  · intro a b c d e f
    have hr : roundHalfEven (63 / 2 : ℚ) = 32 :=
      roundHalfEven_unique _ 32 (Or.inr ⟨by norm_num [abs_of_neg], by decide⟩)
    rw [filter_isLoadAvgLine, loadAvgCheck_finite _ (63 / 2) rfl (by norm_num), hr]
    decide
  · intro a b c d e f
    have hr : roundHalfEven (123 / 4 : ℚ) = 31 :=
      roundHalfEven_unique _ 31 (Or.inl (by norm_num [abs_of_neg]))
    rw [filter_isLoadAvgLine, loadAvgCheck_finite _ (123 / 4) rfl (by norm_num), hr]
    decide
  · intro stats hinf
    rw [filter_isLoadAvgLine, loadAvgCheck_posInf stats hinf]

theorem checkThresholds_loadAvg_rounded_witness :
    (Float64.finite 50 = .finite 50) ∧ (30 : ℚ) < 50
    ∧ (checkThresholds (fun _ => 0) ⟨.finite 50, 0, 0, 0, 0, 0, 0⟩).filter isLoadAvgLine
          = ["Load Average is too high: ".toList ++ fmtInt (roundHalfEven 50)] :=
  ⟨rfl, by norm_num,
    ((checkThresholds_loadAvg_rounded (fun _ => 0)).1 ⟨.finite 50, 0, 0, 0, 0, 0, 0⟩ 50 rfl
      (by norm_num)).1⟩

theorem ParseFloat_half : strconv.ParseFloat "30.5".toList = .ok (.finite (61 / 2)) := by
  apply ParseFloat_eq_of "30.5".toList (61 / 2) _ (by decide)
  · have : strconv.readFloat "30.5".toList
        = some (strconv.floatValue false false ⟨305, 1, true, true, false⟩ 0) := by rfl
    rw [this]
    congr 1
    norm_num [strconv.floatValue]
  · have h := roundF64_of_dyadic 61 (-1) (by norm_num) (by norm_num)
    have e : ((61 : ℤ) : ℚ) * 2 ^ (-1 : ℤ) = 61 / 2 := by norm_num
    rw [e] at h
    exact h
  · rw [abs_of_pos (by norm_num)]
    calc (61 / 2 : ℚ) < 2 ^ 5 := by norm_num
      _ < 2 ^ 1024 := pow_lt_pow_right₀ (by norm_num) (by norm_num)

/-- C15, counterexample: the payload `30.5,0,0,0,0,0,0` parses to a snapshot whose load
average is exactly 30.5, above 30, and `checkThresholds` writes "Load Average is too high:
30": the number shown is the truncated value 30, not 31, the value that rounding a half
upward gives (the halfway value goes to the even neighbour). -/
theorem checkThresholds_loadAvg_half :
    parseStats "30.5,0,0,0,0,0,0".toList = .ok ⟨.finite (61 / 2), 0, 0, 0, 0, 0, 0⟩
    ∧ (30 : ℚ) < 61 / 2
    ∧ checkThresholds (fun _ => 0) ⟨.finite (61 / 2), 0, 0, 0, 0, 0, 0⟩
        = ["Load Average is too high: 30".toList]
    ∧ truncQ (61 / 2) = 30
    ∧ ⌊(61 / 2 : ℚ) + 1 / 2⌋ = 31 := by
  refine ⟨?_, by norm_num, ?_, ?_, ?_⟩
  · exact parseStats_eq_ok _ "30.5".toList "0".toList "0".toList "0".toList "0".toList
      "0".toList "0".toList _ _ _ _ _ _ _ (by decide) ParseFloat_half (by decide) (by decide)
      (by decide) (by decide) (by decide) (by decide)
  · have hr : roundHalfEven (61 / 2 : ℚ) = 30 :=
      roundHalfEven_unique _ 30 (Or.inr ⟨by norm_num [abs_of_pos], by decide⟩)
    have hm : memoryCheck (fun _ => 0) ⟨.finite (61 / 2), 0, 0, 0, 0, 0, 0⟩ = [] := by
      unfold memoryCheck
      rw [if_neg]
      rintro ⟨h, _⟩
      exact absurd h (by decide)
    have hd : diskCheck (fun _ => 0) ⟨.finite (61 / 2), 0, 0, 0, 0, 0, 0⟩ = [] := by
      unfold diskCheck
      rw [if_neg]
      rintro ⟨h, _⟩
      exact absurd h (by decide)
    have hn : networkCheck (fun _ => 0) ⟨.finite (61 / 2), 0, 0, 0, 0, 0, 0⟩ = [] := by
      unfold networkCheck
      rw [if_neg]
      rintro ⟨h, _⟩
      exact absurd h (by decide)
    rw [checkThresholds_eq, loadAvgCheck_finite _ (61 / 2) rfl (by norm_num), hr, hm, hd, hn]
    decide
  · rw [truncQ_of_nonneg (by norm_num), Int.floor_eq_iff]
    norm_num
  · rw [Int.floor_eq_iff]
    norm_num

/-! ## Trimming -/

theorem dropWhile_append_of_all {α : Type} (p : α → Bool) (w s : List α)
    (hw : ∀ c ∈ w, p c = true) : (w ++ s).dropWhile p = s.dropWhile p := by
  induction w with
  | nil => rfl
  | cons a w ih =>
    have ha : p a = true := hw a (List.mem_cons_self _ _)
    rw [List.cons_append, List.dropWhile_cons_of_pos ha]
    exact ih (fun c hc => hw c (List.mem_cons_of_mem _ hc))

theorem dropWhile_eq_nil_of_all {α : Type} (p : α → Bool) (w : List α)
    (hw : ∀ c ∈ w, p c = true) : w.dropWhile p = [] := by
  have := dropWhile_append_of_all p w [] hw
  simpa using this

theorem rdropWhile_append_of_all {α : Type} (p : α → Bool) (s w : List α)
    (hw : ∀ c ∈ w, p c = true) : (s ++ w).rdropWhile p = s.rdropWhile p := by
  unfold List.rdropWhile
  rw [List.reverse_append, dropWhile_append_of_all p w.reverse s.reverse
    (fun c hc => hw c (List.mem_reverse.mp hc))]

theorem dropWhile_append_right {α : Type} (p : α → Bool) (s w : List α)
    (hw : ∀ c ∈ w, p c = true) :
    ((s ++ w).dropWhile p).rdropWhile p = (s.dropWhile p).rdropWhile p := by
  induction s with
  | nil =>
    rw [List.nil_append, dropWhile_eq_nil_of_all p w hw]
    rfl
  | cons a s ih =>
    by_cases ha : p a = true
    · rw [List.cons_append, List.dropWhile_cons_of_pos ha, List.dropWhile_cons_of_pos ha]
      exact ih
    · rw [List.cons_append, List.dropWhile_cons_of_neg ha, List.dropWhile_cons_of_neg ha,
        ← List.cons_append]
      exact rdropWhile_append_of_all p (a :: s) w hw

theorem TrimSpace_append (w1 s w2 : GoString) (h1 : ∀ c ∈ w1, strings.isSpace c = true)
    (h2 : ∀ c ∈ w2, strings.isSpace c = true) :
    strings.TrimSpace (w1 ++ s ++ w2) = strings.TrimSpace s := by
  unfold strings.TrimSpace
  rw [List.append_assoc, dropWhile_append_of_all _ w1 (s ++ w2) h1,
    dropWhile_append_right _ s w2 h2]

theorem ParseInt_error (s : GoString) (e : strconv.NumError)
    (h : strconv.ParseInt s = .error e) : e.Func = strconv.fnParseInt ∧ e.Num = s := by
  cases s with
  | nil =>
    have : strconv.ParseInt [] = .error ⟨strconv.fnParseInt, [], .ErrSyntax⟩ := rfl
    rw [this] at h
    injection h with h
    rw [← h]
    exact ⟨rfl, rfl⟩
  | cons c0 s0 =>
    rw [ParseInt_cons] at h
    split at h
    · injection h with h
      rw [← h]
      exact ⟨rfl, rfl⟩
    · split_ifs at h
      · injection h with h
        rw [← h]
        exact ⟨rfl, rfl⟩
      · injection h with h
        rw [← h]
        exact ⟨rfl, rfl⟩

theorem ParseFloat_error (s : GoString) (e : strconv.NumError)
    (h : strconv.ParseFloat s = .error e) : e.Func = strconv.fnParseFloat ∧ e.Num = s := by
  unfold strconv.ParseFloat at h
  split at h
  · cases h
  · split at h
    · injection h with h
      rw [← h]
      exact ⟨rfl, rfl⟩
    · split at h
      · cases h
      · injection h with h
        rw [← h]
        exact ⟨rfl, rfl⟩

theorem fieldError_num (i : ℕ) (p : GoString) (e : strconv.NumError)
    (h : fieldError i p = some e) :
    e.Num = p ∧ e.Func = (if i = 0 then strconv.fnParseFloat else strconv.fnParseInt) := by
  unfold fieldError at h
  by_cases hi : i = 0
  · rw [if_pos hi] at h
    rw [if_pos hi]
    rcases hf : strconv.ParseFloat p with e2 | v
    · rw [hf] at h
      injection h with h
      rw [← h]
      exact ⟨(ParseFloat_error p e2 hf).2, (ParseFloat_error p e2 hf).1⟩
    · rw [hf] at h
      cases h
  · rw [if_neg hi] at h
    rw [if_neg hi]
    rcases hf : strconv.ParseInt p with e2 | v
    · rw [hf] at h
      injection h with h
      rw [← h]
      exact ⟨(ParseInt_error p e2 hf).2, (ParseInt_error p e2 hf).1⟩
    · rw [hf] at h
      cases h

theorem fieldError_zero_some {p : GoString} {e : strconv.NumError}
    (h : fieldError 0 p = some e) : strconv.ParseFloat p = .error e := by
  unfold fieldError at h
  rw [if_pos rfl] at h
  rcases hf : strconv.ParseFloat p with e2 | v
  · rw [hf] at h
    injection h with h
    rw [h]
  · rw [hf] at h
    cases h

theorem fieldError_zero_none {p : GoString} (h : fieldError 0 p = none) :
    ∃ v, strconv.ParseFloat p = .ok v := by
  unfold fieldError at h
  rw [if_pos rfl] at h
  rcases hf : strconv.ParseFloat p with e2 | v
  · rw [hf] at h
    cases h
  · exact ⟨v, rfl⟩

theorem fieldError_succ_some {i : ℕ} {p : GoString} {e : strconv.NumError}
    (h : fieldError (i + 1) p = some e) : strconv.ParseInt p = .error e := by
  unfold fieldError at h
  rw [if_neg (Nat.succ_ne_zero i)] at h
  rcases hf : strconv.ParseInt p with e2 | v
  · rw [hf] at h
    injection h with h
    rw [h]
  · rw [hf] at h
    cases h

theorem fieldError_succ_none {i : ℕ} {p : GoString} (h : fieldError (i + 1) p = none) :
    ∃ v, strconv.ParseInt p = .ok v := by
  unfold fieldError at h
  rw [if_neg (Nat.succ_ne_zero i)] at h
  rcases hf : strconv.ParseInt p with e2 | v
  · rw [hf] at h
    cases h
  · exact ⟨v, rfl⟩

/-- On a payload of 7 fields, `parseStats` returns the error of the first field whose
conversion fails, whatever the fields after it are. -/
theorem parseStats_first_error (data : GoString) (ps : List GoString) (i : ℕ) (p : GoString)
    (e : strconv.NumError)
    (hsplit : strings.Split (strings.TrimSpace data) ',' = ps) (hlen : ps.length = 7)
    (hp : ps[i]? = some p) (he : fieldError i p = some e)
    (hfirst : ∀ j q, j < i → ps[j]? = some q → fieldError j q = none) :
    parseStats data = .error (.numError e) := by
  match ps, hlen with
  | [p0, p1, p2, p3, p4, p5, p6], _ =>
    rw [parseStats_of_fields data p0 p1 p2 p3 p4 p5 p6 hsplit]
    have hi : i < 7 := by
      by_contra hge
      have : ([p0, p1, p2, p3, p4, p5, p6] : List GoString)[i]? = none :=
        List.getElem?_eq_none (by simpa using hge)
      rw [this] at hp
      cases hp
    rcases i with _ | _ | _ | _ | _ | _ | _ | i
    · simp only [List.getElem?_cons_zero, Option.some.injEq] at hp
      subst hp
      rw [fieldError_zero_some he]
      rfl
    · obtain ⟨v0, h0⟩ := fieldError_zero_none (hfirst 0 p0 (by omega) rfl)
      simp only [List.getElem?_cons_succ, List.getElem?_cons_zero, Option.some.injEq] at hp
      subst hp
      rw [h0, fieldError_succ_some he]
      rfl
    · obtain ⟨v0, h0⟩ := fieldError_zero_none (hfirst 0 p0 (by omega) rfl)
      obtain ⟨v1, h1⟩ := fieldError_succ_none (hfirst 1 p1 (by omega) rfl)
      simp only [List.getElem?_cons_succ, List.getElem?_cons_zero, Option.some.injEq] at hp
      subst hp
      rw [h0, h1, fieldError_succ_some he]
      rfl
    · obtain ⟨v0, h0⟩ := fieldError_zero_none (hfirst 0 p0 (by omega) rfl)
      obtain ⟨v1, h1⟩ := fieldError_succ_none (hfirst 1 p1 (by omega) rfl)
      obtain ⟨v2, h2⟩ := fieldError_succ_none (hfirst 2 p2 (by omega) rfl)
      simp only [List.getElem?_cons_succ, List.getElem?_cons_zero, Option.some.injEq] at hp
      subst hp
      rw [h0, h1, h2, fieldError_succ_some he]
      rfl
    · obtain ⟨v0, h0⟩ := fieldError_zero_none (hfirst 0 p0 (by omega) rfl)
      obtain ⟨v1, h1⟩ := fieldError_succ_none (hfirst 1 p1 (by omega) rfl)
      obtain ⟨v2, h2⟩ := fieldError_succ_none (hfirst 2 p2 (by omega) rfl)
      obtain ⟨v3, h3⟩ := fieldError_succ_none (hfirst 3 p3 (by omega) rfl)
      simp only [List.getElem?_cons_succ, List.getElem?_cons_zero, Option.some.injEq] at hp
      subst hp
      rw [h0, h1, h2, h3, fieldError_succ_some he]
      rfl
    · obtain ⟨v0, h0⟩ := fieldError_zero_none (hfirst 0 p0 (by omega) rfl)
      obtain ⟨v1, h1⟩ := fieldError_succ_none (hfirst 1 p1 (by omega) rfl)
      obtain ⟨v2, h2⟩ := fieldError_succ_none (hfirst 2 p2 (by omega) rfl)
      obtain ⟨v3, h3⟩ := fieldError_succ_none (hfirst 3 p3 (by omega) rfl)
      obtain ⟨v4, h4⟩ := fieldError_succ_none (hfirst 4 p4 (by omega) rfl)
      simp only [List.getElem?_cons_succ, List.getElem?_cons_zero, Option.some.injEq] at hp
      subst hp
      rw [h0, h1, h2, h3, h4, fieldError_succ_some he]
      rfl
    · obtain ⟨v0, h0⟩ := fieldError_zero_none (hfirst 0 p0 (by omega) rfl)
      obtain ⟨v1, h1⟩ := fieldError_succ_none (hfirst 1 p1 (by omega) rfl)
      obtain ⟨v2, h2⟩ := fieldError_succ_none (hfirst 2 p2 (by omega) rfl)
      obtain ⟨v3, h3⟩ := fieldError_succ_none (hfirst 3 p3 (by omega) rfl)
      obtain ⟨v4, h4⟩ := fieldError_succ_none (hfirst 4 p4 (by omega) rfl)
      obtain ⟨v5, h5⟩ := fieldError_succ_none (hfirst 5 p5 (by omega) rfl)
      simp only [List.getElem?_cons_succ, List.getElem?_cons_zero, Option.some.injEq] at hp
      subst hp
      rw [h0, h1, h2, h3, h4, h5, fieldError_succ_some he]
      rfl
    · omega

theorem take_getElem?_eq {α : Type} (l l2 : List α) (n j : ℕ) (h : l2.take n = l.take n)
    (hj : j < n) : l2[j]? = l[j]? := by
  have h1 : (l2.take n)[j]? = l2[j]? := by rw [List.getElem?_take, if_pos hj]
  have h2 : (l.take n)[j]? = l[j]? := by rw [List.getElem?_take, if_pos hj]
  rw [← h1, ← h2, h]

theorem parseStats_interior_space :
    parseStats "10, 1000,100,1000,100,1000,100".toList
      = .error (.numError ⟨strconv.fnParseInt, " 1000".toList, .ErrSyntax⟩) := by
  refine parseStats_first_error _ _ 1 " 1000".toList _ rfl (by decide) (by decide) (by decide) ?_
  intro j q hj hq
  have hj0 : j = 0 := by omega
  subst hj0
  have hq2 : q = "10".toList := by
    have : (strings.Split (strings.TrimSpace "10, 1000,100,1000,100,1000,100".toList) ',')[0]?
        = some "10".toList := by decide
    rw [this] at hq
    injection hq with hq
    exact hq.symm
  subst hq2
  unfold fieldError
  rw [if_pos rfl]
  have hf : strconv.ParseFloat "10".toList = .ok (.finite ((10 : ℕ) : ℚ)) :=
    ParseFloat_nat "10".toList 10 (by decide) (by rfl) (by norm_num)
  rw [hf]

/-- C17: for every string `s` and all strings `w1`, `w2` made of white-space characters
only (spaces, tabs and newlines among them), `parseStats (w1 ++ s ++ w2)` is
`parseStats s`, the trimmed inputs being equal; white space inside the input is not
removed, as the payload `10, 1000,100,1000,100,1000,100` is refused with the raw value
" 1000". -/
theorem parseStats_trim :
    (∀ w1 s w2 : GoString, (∀ c ∈ w1, strings.isSpace c = true) →
      (∀ c ∈ w2, strings.isSpace c = true) →
      strings.TrimSpace (w1 ++ s ++ w2) = strings.TrimSpace s
        ∧ parseStats (w1 ++ s ++ w2) = parseStats s)
    ∧ strings.isSpace ' ' = true ∧ strings.isSpace '\t' = true ∧ strings.isSpace '\n' = true
    ∧ parseStats "10, 1000,100,1000,100,1000,100".toList
        = .error (.numError ⟨strconv.fnParseInt, " 1000".toList, .ErrSyntax⟩) := by
  refine ⟨?_, by decide, by decide, by decide, parseStats_interior_space⟩
  intro w1 s w2 h1 h2
  have ht := TrimSpace_append w1 s w2 h1 h2
  refine ⟨ht, ?_⟩
  unfold parseStats
  rw [ht]

theorem parseStats_trim_witness :
    (∀ c ∈ " \t\n".toList, strings.isSpace c = true)
    ∧ (∀ c ∈ "\n \n".toList, strings.isSpace c = true)
    ∧ parseStats (" \t\n".toList ++ "10,1000,100,1000,100,1000,100".toList ++ "\n \n".toList)
        = parseStats "10,1000,100,1000,100,1000,100".toList :=
  ⟨by decide, by decide,
    (parseStats_trim.1 " \t\n".toList "10,1000,100,1000,100,1000,100".toList "\n \n".toList
      (by decide) (by decide)).2⟩

/-- C16, as amended: for every payload of 7 fields in which some field fails numeric
conversion, `parseStats` returns the `strconv` error of one failing field: its `Num` is the
raw value of that field and its `Func` is `ParseFloat` when it is field 0 and `ParseInt`
otherwise, while all fields before it convert. The error holds no field index. -/
theorem parseStats_invalid_number (data : GoString) (ps : List GoString)
    (hsplit : strings.Split (strings.TrimSpace data) ',' = ps) (hlen : ps.length = 7)
    (hfail : ∃ i p, ps[i]? = some p ∧ (fieldError i p).isSome = true) :
    ∃ (i : ℕ) (p : GoString) (e : strconv.NumError), i < 7 ∧ ps[i]? = some p
      ∧ fieldError i p = some e
      ∧ (∀ j q, j < i → ps[j]? = some q → fieldError j q = none)
      ∧ parseStats data = .error (.numError e)
      ∧ e.Num = p
      ∧ e.Func = (if i = 0 then strconv.fnParseFloat else strconv.fnParseInt) := by
  classical
  have hex : ∃ i, ∃ p, ps[i]? = some p ∧ (fieldError i p).isSome = true := hfail
  obtain ⟨p, hp, hsome⟩ := Nat.find_spec hex
  obtain ⟨e, he⟩ := Option.isSome_iff_exists.mp hsome
  have hmin : ∀ j q, j < Nat.find hex → ps[j]? = some q → fieldError j q = none := by
    intro j q hj hq
    have hn := Nat.find_min hex hj
    by_contra hne
    exact hn ⟨q, hq, Option.ne_none_iff_isSome.mp hne⟩
  have hlt : Nat.find hex < 7 := by
    by_contra hge
    have : ps[Nat.find hex]? = none := List.getElem?_eq_none (by omega)
    rw [this] at hp
    cases hp
  exact ⟨Nat.find hex, p, e, hlt, hp, he, hmin,
    parseStats_first_error data ps _ p e hsplit hlen hp he hmin,
    (fieldError_num _ p e he).1, (fieldError_num _ p e he).2⟩

theorem parseStats_invalid_number_witness :
    strings.Split (strings.TrimSpace "1,2,x,3,4,5,6".toList) ','
      = ["1".toList, "2".toList, "x".toList, "3".toList, "4".toList, "5".toList, "6".toList]
    ∧ ["1".toList, "2".toList, "x".toList, "3".toList, "4".toList, "5".toList,
        "6".toList].length = 7
    ∧ (∃ i p, ["1".toList, "2".toList, "x".toList, "3".toList, "4".toList, "5".toList,
        "6".toList][i]? = some p ∧ (fieldError i p).isSome = true)
    ∧ ∃ (i : ℕ) (p : GoString) (e : strconv.NumError), i < 7
      ∧ ["1".toList, "2".toList, "x".toList, "3".toList, "4".toList, "5".toList,
          "6".toList][i]? = some p
      ∧ fieldError i p = some e
      ∧ (∀ j q, j < i → ["1".toList, "2".toList, "x".toList, "3".toList, "4".toList,
          "5".toList, "6".toList][j]? = some q → fieldError j q = none)
      ∧ parseStats "1,2,x,3,4,5,6".toList = .error (.numError e)
      ∧ e.Num = p
      ∧ e.Func = (if i = 0 then strconv.fnParseFloat else strconv.fnParseInt) :=
  ⟨by decide, by decide, ⟨2, "x".toList, by decide, by decide⟩,
    parseStats_invalid_number "1,2,x,3,4,5,6".toList _ (by decide) (by decide)
      ⟨2, "x".toList, by decide, by decide⟩⟩

/-- C16, counterexample: the payloads `1,x,2,3,4,5,6` and `1,2,x,3,4,5,6`, whose failing
field has index 1 in the first and index 2 in the second, make `parseStats` return the same
error, with function `ParseInt`, raw value `x` and kind syntax error: the returned error
does not identify the index of the failing field. -/
theorem parseStats_error_without_index :
    (strings.Split (strings.TrimSpace "1,x,2,3,4,5,6".toList) ',')[1]? = some "x".toList
    ∧ (strings.Split (strings.TrimSpace "1,2,x,3,4,5,6".toList) ',')[2]? = some "x".toList
    ∧ parseStats "1,x,2,3,4,5,6".toList
        = .error (.numError ⟨strconv.fnParseInt, "x".toList, .ErrSyntax⟩)
    ∧ parseStats "1,2,x,3,4,5,6".toList
        = .error (.numError ⟨strconv.fnParseInt, "x".toList, .ErrSyntax⟩) := by
  have hf : strconv.ParseFloat "1".toList = .ok (.finite ((1 : ℕ) : ℚ)) :=
    ParseFloat_nat "1".toList 1 (by decide) (by rfl) (by norm_num)
  have h0 : fieldError 0 "1".toList = none := by
    unfold fieldError
    rw [if_pos rfl, hf]
  refine ⟨by decide, by decide, ?_, ?_⟩
  · refine parseStats_first_error _ _ 1 "x".toList _ rfl (by decide) (by decide) (by decide) ?_
    intro j q hj hq
    have hj0 : j = 0 := by omega
    subst hj0
    have : (strings.Split (strings.TrimSpace "1,x,2,3,4,5,6".toList) ',')[0]?
        = some "1".toList := by decide
    rw [this] at hq
    injection hq with hq
    rw [← hq]
    exact h0
  · refine parseStats_first_error _ _ 2 "x".toList _ rfl (by decide) (by decide) (by decide) ?_
    intro j q hj hq
    have hj2 : j = 0 ∨ j = 1 := by omega
    rcases hj2 with rfl | rfl
    · have : (strings.Split (strings.TrimSpace "1,2,x,3,4,5,6".toList) ',')[0]?
          = some "1".toList := by decide
      rw [this] at hq
      injection hq with hq
      rw [← hq]
      exact h0
    · have : (strings.Split (strings.TrimSpace "1,2,x,3,4,5,6".toList) ',')[1]?
          = some "2".toList := by decide
      rw [this] at hq
      injection hq with hq
      rw [← hq]
      decide

/-- C18: on a payload of 7 fields, if the field of index `i` fails its conversion with
error `e` and every field of lower index converts, then `parseStats` returns `e`, whose
`Num` is the raw value of field `i`; and it returns the same `e` on every other payload of
7 fields with the same fields up to index `i`, whatever its later fields are (they are not
consulted), in particular when later fields fail as well. -/
theorem parseStats_first_failure (data : GoString) (ps : List GoString) (i : ℕ)
    (p : GoString) (e : strconv.NumError)
    (hsplit : strings.Split (strings.TrimSpace data) ',' = ps) (hlen : ps.length = 7)
    (hp : ps[i]? = some p) (he : fieldError i p = some e)
    (hfirst : ∀ j q, j < i → ps[j]? = some q → fieldError j q = none) :
    parseStats data = .error (.numError e) ∧ e.Num = p
    ∧ ∀ (data2 : GoString) (ps2 : List GoString),
        strings.Split (strings.TrimSpace data2) ',' = ps2 → ps2.length = 7 →
        ps2.take (i + 1) = ps.take (i + 1) →
        parseStats data2 = .error (.numError e) := by
  refine ⟨parseStats_first_error data ps i p e hsplit hlen hp he hfirst,
    (fieldError_num i p e he).1, ?_⟩
  intro data2 ps2 hsplit2 hlen2 htake
  refine parseStats_first_error data2 ps2 i p e hsplit2 hlen2 ?_ he ?_
  · rw [take_getElem?_eq ps ps2 (i + 1) i htake (by omega)]
    exact hp
  · intro j q hj hq
    rw [take_getElem?_eq ps ps2 (i + 1) j htake (by omega)] at hq
    exact hfirst j q hj hq

theorem parseStats_first_failure_witness :
    strings.Split (strings.TrimSpace "1,x,y,3,4,5,6".toList) ','
      = ["1".toList, "x".toList, "y".toList, "3".toList, "4".toList, "5".toList, "6".toList]
    ∧ fieldError 1 "x".toList = some ⟨strconv.fnParseInt, "x".toList, .ErrSyntax⟩
    ∧ fieldError 2 "y".toList = some ⟨strconv.fnParseInt, "y".toList, .ErrSyntax⟩
    ∧ parseStats "1,x,y,3,4,5,6".toList
        = .error (.numError ⟨strconv.fnParseInt, "x".toList, .ErrSyntax⟩) :=
  ⟨by decide, by decide, by decide,
    (parseStats_first_failure "1,x,y,3,4,5,6".toList
      ["1".toList, "x".toList, "y".toList, "3".toList, "4".toList, "5".toList, "6".toList]
      1 "x".toList ⟨strconv.fnParseInt, "x".toList, .ErrSyntax⟩ (by decide) (by decide)
      (by decide) (by decide)
      (fun j q hj hq => by
        have hj0 : j = 0 := by omega
        subst hj0
        simp only [List.getElem?_cons_zero, Option.some.injEq] at hq
        subst hq
        have hf : strconv.ParseFloat "1".toList = .ok (.finite ((1 : ℕ) : ℚ)) :=
          ParseFloat_nat "1".toList 1 (by decide) (by rfl) (by norm_num)
        unfold fieldError
        rw [if_pos rfl, hf])).1⟩

/-! ## The counter between cycles -/

theorem mainCycle_counter_small (ovf : ℚ → ℤ) (c : ℤ) (r : HttpReply)
    (hc : 0 ≤ c ∧ c ≤ 2) :
    (0 ≤ (mainCycle ovf c r).1 ∧ (mainCycle ovf c r).1 ≤ 2)
      ∧ mainCycleGe ovf c r = mainCycle ovf c r := by
  have hw : wrapInt64 (c + 1) = c + 1 :=
    wrapInt64_of_isInt64 (by unfold isInt64; constructor <;> omega)
  unfold mainCycle mainCycleGe
  rcases fetchStats r with err | stats
  · simp only [hw, maxErrors]
    by_cases h3 : c + 1 = 3
    · rw [if_pos h3, if_pos (by omega)]
      exact ⟨⟨le_refl _, by norm_num⟩, rfl⟩
    · rw [if_neg h3, if_neg (by omega)]
      exact ⟨⟨by show 0 ≤ c + 1; omega, by show c + 1 ≤ 2; omega⟩, rfl⟩
  · exact ⟨⟨le_refl _, by norm_num⟩, rfl⟩

theorem mainLoop_counter_small (ovf : ℚ → ℤ) (rs : List HttpReply) :
    ∀ c : ℤ, 0 ≤ c ∧ c ≤ 2 →
      (0 ≤ (mainLoop ovf c rs).1 ∧ (mainLoop ovf c rs).1 ≤ 2)
        ∧ mainLoopGe ovf c rs = mainLoop ovf c rs := by
  induction rs with
  | nil =>
    intro c hc
    exact ⟨hc, rfl⟩
  | cons r rs ih =>
    intro c hc
    obtain ⟨hs, he⟩ := mainCycle_counter_small ovf c r hc
    obtain ⟨hs', he'⟩ := ih _ hs
    refine ⟨hs', ?_⟩
    simp only [mainLoop, mainLoopGe]
    rw [he, he']

/-- C19: in every run of the loop of `main` from counter 0, the failure counter after each
cycle (that is, after every initial stretch of the replies) is 0, 1 or 2; and the loop in
which the counter is tested with `>= 3` gives the same counter and writes the same lines as
the loop of `main`, which tests `== 3`. -/
theorem main_counter_invariant (ovf : ℚ → ℤ) (rs : List HttpReply) :
    (∀ n : ℕ, (main ovf (rs.take n)).1 = 0 ∨ (main ovf (rs.take n)).1 = 1
        ∨ (main ovf (rs.take n)).1 = 2)
    ∧ ((main ovf rs).1 = 0 ∨ (main ovf rs).1 = 1 ∨ (main ovf rs).1 = 2)
    ∧ mainLoopGe ovf 0 rs = main ovf rs := by
  have key : ∀ l : List HttpReply,
      (main ovf l).1 = 0 ∨ (main ovf l).1 = 1 ∨ (main ovf l).1 = 2 := by
    intro l
    obtain ⟨⟨h0, h2⟩, _⟩ := mainLoop_counter_small ovf l 0 ⟨le_refl _, by norm_num⟩
    unfold main
    omega
  exact ⟨fun n => key _, key rs,
    (mainLoop_counter_small ovf rs 0 ⟨le_refl _, by norm_num⟩).2⟩

end StatsMonitor
